import Mathlib

/-!
# A verification development for the scrollable table component (package `table`)

The definitions below are a shallow embedding of `table.go`.

Modelling conventions.

* A Go `string` is modelled by the list of its runes (`Text`); every text is
  taken to be valid UTF-8, so ranging over a string and converting it to
  `[]rune` both yield that list.
* Go's `int` is modelled by `Int`: the quantities involved are row counts and
  terminal dimensions, and the arithmetic on them is taken to stay inside the
  machine range.  Three computations take a height as the caller passes it:
  `height - 1` in `New` and in `SetSize`, and `cursor + Height` in
  `GoPageDown`; they are modelled as Go computes them, wrapping modulo
  `2 ^ 64` (`wrapInt`).  The unsigned arithmetic of `GoRight` converts a
  possibly negative width to `uint`, so there the conversion and the addition
  are modelled modulo `2 ^ 64`.
* The libraries the package is built on are not part of the repository.  The
  rune width table, the tab writer and the style renderers are parameters
  (`Env`); the regular expression `reANSISeq`, the escape-aware width function,
  the scrollable surface and the matching of key bindings are modelled by
  definitions of their own, and so is, for the statements about the alignment
  of the columns, the tab writer (`tabAlign`).
* The model is total where the program panics: a surface of negative height
  makes the library slice its content out of range (`Viewport.sliceInRange`
  tells whether the slice is in range).  The statements about resizing, jumps
  and horizontal scrolling therefore carry the hypothesis of a height of at
  least 0, and those in which a height enters a sum carry the hypothesis that
  the sum is a value of `int`.
-/

namespace Table

/-- A Go string, as the list of its runes. -/
abbrev Text := List Char

/-- The escape rune U+001B, `ansi.Marker`. -/
def Marker : Char := Char.ofNat 0x1B

/-- The single-rune control sequence introducer U+009B. -/
def CSI : Char := Char.ofNat 0x9B

/-- The bell rune U+0007. -/
def BEL : Char := Char.ofNat 0x07

/-! ## The external collaborators taken as parameters -/

/-- The parts of the libraries the package calls that are taken as parameters:
`runeWidth` is `runewidth.RuneWidth`, `tabwrite` maps the five settings of
`tabwriter.Init` and everything written to the tab writer up to `Flush` to
what the writer emits, `joinVertical` and
`renderMaxWidth` are the two `lipgloss` calls of `View`, and the four `style*`
fields are the `Render` functions of the package's default styles. -/
structure Env where
  runeWidth : Char → Nat
  space_width : runeWidth ' ' = 1
  tabwrite : Nat → Nat → Nat → Char → Nat → Text → Text
  joinVertical : Text → Text → Text
  renderMaxWidth : Int → Text → Text
  styleTitle : Text → Text
  styleSelection : Text → Text
  styleRow : Text → Text
  styleHighlightedCol : Text → Text

/-! ## Strings -/

/-- The call `strings.Split(s, "\n")`. -/
def splitLines : Text → List Text
  | [] => [[]]
  | c :: cs =>
    if c = '\n' then [] :: splitLines cs
    else
      match splitLines cs with
      | [] => [[c]]
      | l :: ls => (c :: l) :: ls

/-- The call `strings.SplitN(s, "\n", 2)`. -/
def splitN2 : Text → List Text
  | [] => [[]]
  | c :: cs =>
    if c = '\n' then [[], cs]
    else
      match splitN2 cs with
      | [a, b] => [c :: a, b]
      | [a] => [c :: a]
      | _ => [c :: cs]

/-- The call `strings.Replace(s, old, new, 1)` for a non-empty `old`: the first
occurrence of `old` in `s` is replaced by `new`. -/
def replaceFirst (old new : Text) : Text → Text
  | [] => []
  | c :: cs =>
    if old.isPrefixOf (c :: cs) then new ++ (c :: cs).drop old.length
    else c :: replaceFirst old new cs

/-- The call `strings.ReplaceAll(s, "\r\n", "\n")`. -/
def normalizeLineEndings : Text → Text
  | [] => []
  | [c] => [c]
  | c :: d :: cs =>
    if c = '\r' ∧ d = '\n' then '\n' :: normalizeLineEndings cs
    else c :: normalizeLineEndings (d :: cs)

/-- The predicate `unicode.IsSpace`. -/
def IsSpace (c : Char) : Bool :=
  c = '\t' || c = '\n' || c = Char.ofNat 0x0B || c = Char.ofNat 0x0C || c = '\r' || c = ' '
    || c = Char.ofNat 0x85 || c = Char.ofNat 0xA0 || c = Char.ofNat 0x1680
    || (0x2000 ≤ c.toNat && c.toNat ≤ 0x200A)
    || c = Char.ofNat 0x2028 || c = Char.ofNat 0x2029 || c = Char.ofNat 0x202F
    || c = Char.ofNat 0x205F || c = Char.ofNat 0x3000

/-- The call `strings.TrimRightFunc(s, unicode.IsSpace)`. -/
def trimRightSpace (s : Text) : Text :=
  (s.reverse.dropWhile IsSpace).reverse

/-- The call `strings.Join(parts, sep)`. -/
def joinWith (sep : Text) : List Text → Text
  | [] => []
  | [a] => a
  | a :: b :: rest => a ++ sep ++ joinWith sep (b :: rest)

/-! ## Escape-aware display width (`muesli/reflow/ansi`, `lipgloss.Width`) -/

/-- Modelled from the spec: the escape-aware display width of the glossary is computed by
the `ansi` package of the `reflow` library, which is not under src/.  This is its predicate
`IsTerminator`, the runes that end an escape sequence. -/
def IsTerminator (c : Char) : Bool :=
  (0x40 ≤ c.toNat && c.toNat ≤ 0x5A) || (0x61 ≤ c.toNat && c.toNat ≤ 0x7A)

/-- Modelled from the spec: the loop of `ansi.PrintableRuneWidth` (not under src/), which
counts escape sequences as zero columns: `n` is the width counted so far and `ansi` tells
whether the scan is inside an escape sequence. -/
def printableLoop (E : Env) : Text → Nat → Bool → Nat
  | [], n, _ => n
  | c :: cs, n, ansi =>
    if c = Marker then printableLoop E cs n true
    else if ansi then
      if IsTerminator c then printableLoop E cs n false
      else printableLoop E cs n true
    else printableLoop E cs (n + E.runeWidth c) false

/-- Modelled from the spec: the function `ansi.PrintableRuneWidth` (not under src/), the
display width of a string with escape sequences counted as zero columns. -/
def PrintableRuneWidth (E : Env) (s : Text) : Nat :=
  printableLoop E s 0 false

/-- Modelled from the spec: the loop of `lipgloss.Width` (not under src/) over the lines of
a block. -/
def widthLoop (E : Env) : List Text → Nat → Nat
  | [], width => width
  | l :: ls, width =>
    let w := PrintableRuneWidth E l
    if w > width then widthLoop E ls w else widthLoop E ls width

/-- Modelled from the spec: the function `lipgloss.Width` (not under src/), the rendered
width of a block, which is the width of its widest line. -/
def lipglossWidth (E : Env) (str : Text) : Nat :=
  widthLoop E (splitLines str) 0

/-! ## The regular expression `reANSISeq`

Each matcher returns the inputs that remain after its possible matches, in the
order in which a backtracking search tries them; `FindString` takes the first. -/

/-- A greedy `[class]*`. -/
def reClassStar (p : Char → Bool) : Text → List Text
  | [] => [[]]
  | c :: cs => if p c then reClassStar p cs ++ [c :: cs] else [c :: cs]

/-- A single `[class]`. -/
def reClass (p : Char → Bool) : Text → List Text
  | [] => []
  | c :: cs => if p c then [cs] else []

/-- A greedy `[class]{0,k}`. -/
def reClassUpTo (p : Char → Bool) : Nat → Text → List Text
  | 0, s => [s]
  | _ + 1, [] => [[]]
  | k + 1, c :: cs => if p c then reClassUpTo p k cs ++ [c :: cs] else [c :: cs]

/-- A greedy `(?:group)*`, with `fuel` bounding the number of repetitions. -/
def reStar (g : Text → List Text) : Nat → Text → List Text
  | 0, s => [s]
  | fuel + 1, s => (g s).flatMap (reStar g fuel) ++ [s]

/-- A greedy `(?:group)?`. -/
def reOpt (g : Text → List Text) (s : Text) : List Text :=
  g s ++ [s]

/-- The class `[a-zA-Z\d]`. -/
def isAlnum (c : Char) : Bool :=
  ('a' ≤ c && c ≤ 'z') || ('A' ≤ c && c ≤ 'Z') || ('0' ≤ c && c ≤ '9')

/-- The class `\d`. -/
def isDigit (c : Char) : Bool :=
  '0' ≤ c && c ≤ '9'

/-- The class `[[\]()#;?]`. -/
def isIntro (c : Char) : Bool :=
  c = '[' || c = ']' || c = '(' || c = ')' || c = '#' || c = ';' || c = '?'

/-- The class `[\dA-PRZcf-ntqry=><~]`. -/
def isFinal (c : Char) : Bool :=
  isDigit c || ('A' ≤ c && c ≤ 'P') || c = 'R' || c = 'Z' || c = 'c' || ('f' ≤ c && c ≤ 'n')
    || c = 't' || c = 'q' || c = 'r' || c = 'y' || c = '=' || c = '>' || c = '<' || c = '~'

/-- The first alternative, `(?:[a-zA-Z\d]*(?:;[a-zA-Z\d]*)*)?\x07`. -/
def reOSC (s : Text) : List Text :=
  (reOpt (fun s1 => (reClassStar isAlnum s1).flatMap
      (reStar (fun s2 => (reClass (· = ';') s2).flatMap (reClassStar isAlnum)) s1.length)) s).flatMap
    (reClass (· = BEL))

/-- The second alternative, `(?:\d{1,4}(?:;\d{0,4})*)?[\dA-PRZcf-ntqry=><~]`. -/
def reCSI (s : Text) : List Text :=
  (reOpt (fun s1 => ((reClass isDigit s1).flatMap (reClassUpTo isDigit 3)).flatMap
      (reStar (fun s2 => (reClass (· = ';') s2).flatMap (reClassUpTo isDigit 4)) s1.length)) s).flatMap
    (reClass isFinal)

/-- The matches of `reANSISeq` at the start of `s`, as remaining inputs. -/
def reANSISeqMatches (s : Text) : List Text :=
  ((reClass (fun c => c = Marker || c = CSI) s).flatMap (reClassStar isIntro)).flatMap
    (fun s1 => reOSC s1 ++ reCSI s1)

/-- The call `reANSISeq.FindString(s)`: the text of the first match, or the
empty string when there is none. -/
def FindString (s : Text) : Text :=
  match reANSISeqMatches s with
  | [] => []
  | rest :: _ => s.take (s.length - rest.length)

/-! ## Horizontal truncation -/

/-- The inner loop of `trucateOffset` over the runes of a line: `cutset` and
`chars` are the loop's counters, and the result is the final `(spaces, chars)`. -/
def cutLoop (E : Env) (offset : Nat) : Text → Nat → Nat → Nat × Nat
  | [], _, chars => (0, chars)
  | r :: rs, cutset, chars =>
    let w : Int := (PrintableRuneWidth E [r] : Nat)
    if w < 0 then cutLoop E offset rs cutset chars
    else
      let cutset := cutset + w.toNat
      let chars := chars + 1
      if cutset ≥ offset then (cutset - offset, chars)
      else cutLoop E offset rs cutset chars

/-- The body of the loop of `trucateOffset` over the lines: the line that is
written to the buffer for the input line `s`. -/
def truncateLine (E : Env) (offset : Nat) (s : Text) : Text :=
  let ansiSeq := FindString s
  let s := if ansiSeq ≠ [] then replaceFirst ansiSeq [] s else s
  let cut := cutLoop E offset s 0 0
  let line := List.replicate cut.1 ' ' ++ s.drop cut.2
  if ansiSeq ≠ [] then ansiSeq ++ line else line

/-- The loop of `trucateOffset` over the lines: `i` is the index of the next
line and `buf` the buffer written so far. -/
def truncateLoop (E : Env) (offset : Nat) (last : Int) : List Text → Nat → Text → Text
  | [], _, buf => buf
  | s :: rest, i, buf =>
    let buf := buf ++ truncateLine E offset s
    let buf := if (i : Int) ≠ last then buf ++ ['\n'] else buf
    truncateLoop E offset last rest (i + 1) buf

/-- The function `trucateOffset`. -/
def trucateOffset (E : Env) (s : Text) (offset : Nat) : Text :=
  if offset = 0 then s
  else
    let lines := splitLines s
    let last : Int := (lines.length : Int) - 1
    truncateLoop E offset last lines 0 []

/-- The width `ansi.PrintableRuneWidth(string(r))` that `trucateOffset` gives to
the single rune `r`. -/
def runeColumns (E : Env) (r : Char) : Nat :=
  PrintableRuneWidth E [r]

/-- The display width of a text without escape sequences: the sum of the
display widths of its runes. -/
def textWidth (E : Env) (s : Text) : Nat :=
  (s.map E.runeWidth).sum

/-- The removal of the first `n` display columns of a line as the specification
words it, for `n > 0`: walk the runes, `n` being the columns still to remove;
stop at the rune whose width reaches or exceeds them, and emit one space per
column of overshoot followed by the runes after the stop point. -/
def specDropColumns (width : Char → Nat) : Nat → Text → Text
  | _, [] => []
  | n, c :: cs =>
    if n ≤ width c then List.replicate (width c - n) ' ' ++ cs
    else specDropColumns width (n - width c) cs

/-! ## A concrete environment for plain text -/

/-- The rune widths of an environment for plain text: zero for control runes
and two for the CJK ideographs U+4E00 to U+9FFF, one otherwise. -/
def plainRuneWidth (c : Char) : Nat :=
  if c.toNat < 0x20 ∨ (0x7F ≤ c.toNat ∧ c.toNat < 0xA0) then 0
  else if 0x4E00 ≤ c.toNat ∧ c.toNat ≤ 0x9FFF then 2
  else 1

/-- An environment for text made of printable ASCII and CJK ideographs, without
tabs and without styling: the tab writer copies tab-free text unchanged, the
styles render their argument unchanged, and `View` joins the header and the
body without padding or clipping, as the library does for lines of one width
under a viewport of width 0. -/
def plainEnv : Env where
  runeWidth := plainRuneWidth
  space_width := by decide
  tabwrite := fun _ _ _ _ _ s => s
  joinVertical := fun a b => a ++ '\n' :: b
  renderMaxWidth := fun _ s => s
  styleTitle := id
  styleSelection := id
  styleRow := id
  styleHighlightedCol := id

/-! ## The scrollable surface (`bubbles/viewport`)

The surface is the external collaborator of section 6 of the specification: it holds the
rendered lines, has a size and a top offset, and scrolls by a line, by a page, and to the top
and the bottom, the top offset staying between 0 and the largest offset the content and the
height allow.  The definitions follow the methods of the `viewport` package. -/

/-- Modelled from the spec: the vertical scrollable surface (`viewport.Model`, not under
src/): its size, its top offset and the lines of its content. -/
structure Viewport where
  Width : Int
  Height : Int
  YOffset : Int
  lines : List Text

namespace Viewport

/-- Modelled from the spec: the constructor `viewport.New` (not under src/), a surface of
the given size without content, at the top. -/
def New (width height : Int) : Viewport :=
  { Width := width, Height := height, YOffset := 0, lines := [] }

/-- Modelled from the spec: the helper `clamp` of the viewport package (not under src/). -/
def clamp (v low high : Int) : Int :=
  min high (max low v)

/-- Modelled from the spec: the method `maxYOffset` of the surface (not under src/), the
largest top offset the content and the height allow. -/
def maxYOffset (m : Viewport) : Int :=
  max 0 ((m.lines.length : Int) - m.Height)

/-- Modelled from the spec: the method `AtTop` of the surface (not under src/). -/
def AtTop (m : Viewport) : Bool :=
  decide (m.YOffset ≤ 0)

/-- Modelled from the spec: the method `AtBottom` of the surface (not under src/), whether
it is at or past its very bottom. -/
def AtBottom (m : Viewport) : Bool :=
  decide (m.YOffset ≥ m.maxYOffset)

/-- Modelled from the spec: the method `SetYOffset` of the surface (not under src/), which
sets the top offset, kept between 0 and `maxYOffset`. -/
def SetYOffset (m : Viewport) (n : Int) : Viewport :=
  { m with YOffset := clamp n 0 m.maxYOffset }

/-- Modelled from the spec: the method `GotoTop` of the surface (not under src/), the jump
to the top. -/
def GotoTop (m : Viewport) : Viewport :=
  if m.AtTop then m else m.SetYOffset 0

/-- Modelled from the spec: the method `GotoBottom` of the surface (not under src/), the
jump to the bottom.  The library's method goes on to take the visible lines of the content,
a slice that is out of range when the height is negative (`sliceInRange`): the program
panics there, and this definition describes the program for heights of at least 0. -/
def GotoBottom (m : Viewport) : Viewport :=
  m.SetYOffset m.maxYOffset

/-- Modelled from the spec: the method `ViewDown` of the surface (not under src/), the
scroll by one page down. -/
def ViewDown (m : Viewport) : Viewport :=
  if m.AtBottom then m else m.SetYOffset (m.YOffset + m.Height)

/-- Modelled from the spec: the method `ViewUp` of the surface (not under src/), the scroll
by one page up. -/
def ViewUp (m : Viewport) : Viewport :=
  if m.AtTop then m else m.SetYOffset (m.YOffset - m.Height)

/-- Modelled from the spec: the method `LineDown` of the surface (not under src/), the
scroll by `n` lines down. -/
def LineDown (m : Viewport) (n : Int) : Viewport :=
  if m.AtBottom || decide (n = 0) then m else m.SetYOffset (m.YOffset + n)

/-- Modelled from the spec: the method `LineUp` of the surface (not under src/), the scroll
by `n` lines up. -/
def LineUp (m : Viewport) (n : Int) : Viewport :=
  if m.AtTop || decide (n = 0) then m else m.SetYOffset (m.YOffset - n)

/-- Modelled from the spec: the method `SetContent` of the surface (not under src/), which
replaces the content and, when the top offset is then beyond the last line, moves to the
bottom. -/
def SetContent (m : Viewport) (s : Text) : Viewport :=
  let m := { m with lines := splitLines (normalizeLineEndings s) }
  if m.YOffset > (m.lines.length : Int) - 1 then m.GotoBottom else m

/-- Modelled from the spec: whether the slice `lines[top:bottom]` that the surface takes of
its content for its visible lines is in range (the library is not under src/); the program
panics when it is not. -/
def sliceInRange (m : Viewport) : Bool :=
  decide (m.lines.length = 0 ∨
    (max 0 m.YOffset ≤ clamp (m.YOffset + m.Height) (max 0 m.YOffset) m.lines.length ∧
      clamp (m.YOffset + m.Height) (max 0 m.YOffset) m.lines.length ≤ m.lines.length))

/-- Modelled from the spec: the method `visibleLines` of the surface (not under src/), the
lines inside the visible window, for a slice that is in range. -/
def visibleLines (m : Viewport) : List Text :=
  if m.lines.length > 0 then
    let top := max 0 m.YOffset
    let bottom := clamp (m.YOffset + m.Height) top m.lines.length
    (m.lines.take bottom.toNat).drop top.toNat
  else []

/-- Modelled from the spec: the method `View` of the surface (not under src/), whose own
style is empty: the visible lines, followed by line breaks up to the height. -/
def View (m : Viewport) : Text :=
  let lines := m.visibleLines
  let extraLines :=
    if (lines.length : Int) < m.Height then
      List.replicate (max 0 (m.Height - (lines.length : Int))).toNat '\n'
    else []
  joinWith ['\n'] lines ++ extraLines

end Viewport

/-! ## The model of the table -/

/-- A key binding: its keys, and whether it is disabled. -/
structure Binding where
  keys : List Text
  disabled : Bool

/-- The type `KeyMap`. -/
structure KeyMap where
  End : Binding
  Home : Binding
  PageDown : Binding
  PageUp : Binding
  Down : Binding
  Up : Binding
  Right : Binding
  Left : Binding

/-- The function `DefaultKeyMap`. -/
def DefaultKeyMap : KeyMap where
  End := { keys := ["end".toList], disabled := false }
  Home := { keys := ["home".toList], disabled := false }
  PageDown := { keys := ["pgdown".toList], disabled := false }
  PageUp := { keys := ["pgup".toList], disabled := false }
  Down := { keys := ["down".toList], disabled := false }
  Up := { keys := ["up".toList], disabled := false }
  Right := { keys := ["right".toList], disabled := false }
  Left := { keys := ["left".toList], disabled := false }

/-- What the `Render` method of a row can read of the model that is passed to
it by value: every field of the model but the rows themselves, of which it
sees the number, and the styles, which it receives next to this. -/
structure Snapshot where
  cols : List Text
  nrows : Nat
  header : Text
  viewPort : Viewport
  cursor : Int
  offset : Nat
  contentWidth : Int

/-- The type `Styles`; a `lipgloss.Style` is represented by its `Render`
function. -/
structure Styles where
  Title : Text → Text
  Cell : Snapshot → Int → Int → Text → Text
  ColumnSeparator : Text

/-- The interface `Row`: `Render` gives what the row writes into the tab
writer for the model and the index it is called with. -/
structure Row where
  Render : Styles → Snapshot → Int → Text

/-- The type `Model`.  The tab writer is re-initialised by every `updateView`
and carries no state from one call to the next, so it is not a field. -/
structure Model where
  KeyMap : KeyMap
  Styles : Styles
  cols : List Text
  rows : List Row
  header : Text
  viewPort : Viewport
  cursor : Int
  offset : Nat
  contentWidth : Int

/-- The view of a model that is handed to the rows. -/
def Model.snapshot (m : Model) : Snapshot where
  cols := m.cols
  nrows := m.rows.length
  header := m.header
  viewPort := m.viewPort
  cursor := m.cursor
  offset := m.offset
  contentWidth := m.contentWidth

/-- The column separator `lipgloss.NormalBorder().Left + " "`. -/
def defaultColSeparator : Text := [Char.ofNat 0x2502, ' ']

/-- The function `DefaultStyles`. -/
def DefaultStyles (E : Env) : Styles where
  Title := E.styleTitle
  Cell := fun model rowIndex colIndex =>
    if model.cursor = rowIndex then E.styleSelection
    else if colIndex = 1 then E.styleHighlightedCol
    else E.styleRow
  ColumnSeparator := defaultColSeparator

/-- The loop of `SimpleRow.Render` that styles the cells. -/
def simpleCells (st : Styles) (model : Snapshot) (rowIndex : Int) : List Text → Nat → List Text
  | [], _ => []
  | v :: rest, i => st.Cell model rowIndex i v :: simpleCells st model rowIndex rest (i + 1)

/-- The type `SimpleRow` with its method `Render`; each value of the row is
given by its `%v` formatting. -/
def SimpleRow (row : List Text) : Row where
  Render := fun st model rowIndex =>
    joinWith ('\t' :: st.ColumnSeparator) (simpleCells st model rowIndex row 0) ++ ['\n']

/-- The value that Go's 64-bit `int` arithmetic gives where the exact result is `x`: the
result modulo `2 ^ 64`, taken between `-2 ^ 63` and `2 ^ 63 - 1`. -/
def wrapInt (x : Int) : Int :=
  (x + 9223372036854775808) % 18446744073709551616 - 9223372036854775808

/-- The function `maxInt`. -/
def maxInt (a b : Int) : Int :=
  if a > b then a else b

/-- The constructor `New`.  The height is any `int` the caller passes, and the difference
`height - 1` wraps as Go's does. -/
def New (E : Env) (cols : List Text) (width height : Int) : Model where
  KeyMap := DefaultKeyMap
  Styles := DefaultStyles E
  cols := cols
  rows := []
  header := joinWith [' '] cols
  viewPort := Viewport.New width (maxInt (wrapInt (height - 1)) 0)
  cursor := 0
  offset := 0
  contentWidth := 0

/-- The method `Cursor`. -/
def Model.Cursor (m : Model) : Int :=
  m.cursor

/-- The method `SelectedRow`; `none` stands for the index being out of range. -/
def Model.SelectedRow (m : Model) : Option Row :=
  if 0 ≤ m.cursor then m.rows.get? m.cursor.toNat else none

/-- The loop of `updateView` over the rows: what they write into the tab
writer, `i` being the index of the next row. -/
def renderRows (m : Model) : List Row → Nat → Text
  | [], _ => []
  | row :: rest, i => row.Render m.Styles m.snapshot i ++ renderRows m rest (i + 1)

/-- Everything `updateView` writes into the tab writer: the header line and
the rows. -/
def layoutInput (m : Model) : Text :=
  (m.Styles.Title (joinWith ('\t' :: m.Styles.ColumnSeparator) m.cols) ++ ['\n'])
    ++ renderRows m m.rows 0

/-- The aligned block `b.String()` of `updateView`, before truncation. -/
def layout (E : Env) (m : Model) : Text :=
  E.tabwrite 0 4 1 ' ' 0 (layoutInput m)

/-- The method `updateView`. -/
def updateView (E : Env) (m : Model) : Model :=
  let content := layout E m
  let m := { m with contentWidth := (lipglossWidth E content : Nat) }
  let content := if m.offset > 0 then trucateOffset E content m.offset else content
  let parts := splitN2 content
  if parts.length ≠ 0 then
    let m := { m with header := parts.headD [] }
    if parts.length = 2 then
      { m with viewPort := m.viewPort.SetContent (trimRightSpace (parts.getD 1 [])) }
    else m
  else m

/-- The method `SetSize`.  The height is any `int` the caller passes, and the difference
`height - 1` wraps as Go's does. -/
def SetSize (E : Env) (m : Model) (width height : Int) : Model :=
  let m :=
    { m with viewPort := { m.viewPort with Width := width, Height := wrapInt (height - 1) } }
  if m.cursor > m.viewPort.YOffset + m.viewPort.Height - 1 then
    updateView E { m with cursor := m.viewPort.YOffset + m.viewPort.Height - 1 }
  else m

/-- The method `SetRows`. -/
def SetRows (E : Env) (m : Model) (rows : List Row) : Model :=
  updateView E { m with rows := rows }

/-- The method `CursorIsAtTop`. -/
def Model.CursorIsAtTop (m : Model) : Bool :=
  decide (m.cursor = 0)

/-- The method `CursorIsAtBottom`. -/
def Model.CursorIsAtBottom (m : Model) : Bool :=
  decide (m.cursor = (m.rows.length : Int) - 1)

/-- The method `CursorIsPastBottom`. -/
def Model.CursorIsPastBottom (m : Model) : Bool :=
  decide (m.cursor > (m.rows.length : Int) - 1)

/-- The method `GoUp`. -/
def GoUp (E : Env) (m : Model) : Model :=
  if m.CursorIsAtTop then m
  else
    let m := updateView E { m with cursor := m.cursor - 1 }
    if m.cursor < m.viewPort.YOffset then { m with viewPort := m.viewPort.LineUp 1 } else m

/-- The method `GoDown`. -/
def GoDown (E : Env) (m : Model) : Model :=
  if m.CursorIsAtBottom then m
  else
    let m := updateView E { m with cursor := m.cursor + 1 }
    if m.cursor > m.viewPort.YOffset + m.viewPort.Height - 1 then
      { m with viewPort := m.viewPort.LineDown 1 }
    else m

/-- The method `GoPageUp`. -/
def GoPageUp (E : Env) (m : Model) : Model :=
  if m.CursorIsAtTop then m
  else
    let m := { m with cursor := m.cursor - m.viewPort.Height }
    let m := if m.cursor < 0 then { m with cursor := 0 } else m
    let m := updateView E m
    { m with viewPort := m.viewPort.ViewUp }

/-- The method `GoPageDown`.  The height of the surface is any `int` a caller has passed,
and the sum `cursor + Height` wraps as Go's does. -/
def GoPageDown (E : Env) (m : Model) : Model :=
  if m.CursorIsAtBottom then m
  else
    let m := { m with cursor := wrapInt (m.cursor + m.viewPort.Height) }
    let m := if m.CursorIsPastBottom then { m with cursor := (m.rows.length : Int) - 1 } else m
    let m := updateView E m
    { m with viewPort := m.viewPort.ViewDown }

/-- The method `GoTop`. -/
def GoTop (E : Env) (m : Model) : Model :=
  if m.CursorIsAtTop then m
  else
    let m := updateView E { m with cursor := 0 }
    { m with viewPort := m.viewPort.GotoTop }

/-- The method `GoBottom`. -/
def GoBottom (E : Env) (m : Model) : Model :=
  if m.CursorIsAtBottom then m
  else
    let m := updateView E { m with cursor := (m.rows.length : Int) - 1 }
    { m with viewPort := m.viewPort.GotoBottom }

/-- The conversion `uint(x)` of an `int`, modulo `2 ^ 64`. -/
def toUint (x : Int) : Nat :=
  (x % 18446744073709551616).toNat

/-- The guard of `GoRight`, `uint(m.viewPort.Width)+m.offset >= uint(m.contentWidth)`,
in unsigned 64-bit arithmetic. -/
def Model.atRightBound (m : Model) : Bool :=
  decide ((toUint m.viewPort.Width + m.offset) % 18446744073709551616 ≥ toUint m.contentWidth)

/-- The method `GoRight`. -/
def GoRight (E : Env) (m : Model) : Model :=
  if m.atRightBound then m
  else updateView E { m with offset := (m.offset + 1) % 18446744073709551616 }

/-- The method `GoLeft`. -/
def GoLeft (E : Env) (m : Model) : Model :=
  if m.offset = 0 then m
  else updateView E { m with offset := m.offset - 1 }

/-- The method `View`. -/
def View (E : Env) (m : Model) : Text :=
  E.renderMaxWidth m.viewPort.Width (E.joinVertical m.header m.viewPort.View)

/-! ## The dispatch of events -/

/-- An event delivered to `Update` (`tea.Msg`): a key event, given by the name
`tea.KeyMsg.String()` under which key bindings are matched, or any other event. -/
inductive Msg where
  | key (name : Text)
  | other

/-- A command (`tea.Cmd`), of which `Update` returns none. -/
abbrev Cmd := Unit

/-- Modelled from the spec: the method `Enabled` of a key binding of the `bubbles/key`
library (not under src/): the binding is not disabled and has keys. -/
def Binding.Enabled (b : Binding) : Bool :=
  !b.disabled && !b.keys.isEmpty

/-- Modelled from the spec: the function `key.Matches` of the `bubbles/key` library (not
under src/) for one binding: the name of the key event is one of the keys of the binding,
and the binding is enabled. -/
def keyMatches (name : Text) (b : Binding) : Bool :=
  b.keys.any fun v => decide (name = v) && b.Enabled

/-- The method `Update`. -/
def Update (E : Env) (m : Model) (msg : Msg) : Model × Option Cmd :=
  match msg with
  | .key name =>
    if keyMatches name m.KeyMap.Up then (GoUp E m, none)
    else if keyMatches name m.KeyMap.Down then (GoDown E m, none)
    else if keyMatches name m.KeyMap.PageUp then (GoPageUp E m, none)
    else if keyMatches name m.KeyMap.PageDown then (GoPageDown E m, none)
    else if keyMatches name m.KeyMap.Home then (GoTop E m, none)
    else if keyMatches name m.KeyMap.End then (GoBottom E m, none)
    else if keyMatches name m.KeyMap.Right then (GoRight E m, none)
    else if keyMatches name m.KeyMap.Left then (GoLeft E m, none)
    else (m, none)
  | .other => (m, none)

/-! ## Sequences of operations -/

/-- The eight navigation operations. -/
inductive Nav where
  | up | down | pageUp | pageDown | top | bottom | left | right
  deriving DecidableEq, Repr

/-- The effect of one navigation operation. -/
def Nav.apply (E : Env) (m : Model) : Nav → Model
  | .up => GoUp E m
  | .down => GoDown E m
  | .pageUp => GoPageUp E m
  | .pageDown => GoPageDown E m
  | .top => GoTop E m
  | .bottom => GoBottom E m
  | .left => GoLeft E m
  | .right => GoRight E m

/-- The state after a sequence of navigation operations. -/
def navigate (E : Env) (m : Model) (ops : List Nav) : Model :=
  ops.foldl (Nav.apply E) m

/-- A call of the mutating interface: a navigation operation, `SetSize` or
`SetRows`. -/
inductive Call where
  | nav (n : Nav)
  | setSize (width height : Int)
  | setRows (rows : List Row)

/-- The effect of one call. -/
def Call.apply (E : Env) (m : Model) : Call → Model
  | .nav n => n.apply E m
  | .setSize width height => SetSize E m width height
  | .setRows rows => SetRows E m rows

/-- The state after a sequence of calls. -/
def run (E : Env) (m : Model) (calls : List Call) : Model :=
  calls.foldl (Call.apply E) m

/-- The states a sequence of calls passes through, the first one included. -/
def trace (E : Env) (m : Model) : List Call → List Model
  | [] => [m]
  | c :: calls => m :: trace E (c.apply E m) calls

/-! ## Predicates and invariants -/

/-- The calls that keep a window of at least one line: the navigation operations and
`SetSize` with a height of at least 2. -/
def Call.keepsWindow : Call → Bool
  | .nav _ => true
  | .setSize _ height => decide (2 ≤ height)
  | .setRows _ => false

/-- The calls whose height, added to the number `n` of rows, is a value of Go's `int`: the
navigation operations, and `SetSize` with such a height. -/
def Call.heightFits (n : Nat) : Call → Bool
  | .nav _ => true
  | .setSize _ height => decide (height + (n : Int) ≤ 9223372036854775807)
  | .setRows _ => true

/-- The values of Go's 64-bit `int`. -/
def IsInt (x : Int) : Prop :=
  -9223372036854775808 ≤ x ∧ x ≤ 9223372036854775807

/-- Membership in the range of `int` is decidable. -/
instance (x : Int) : Decidable (IsInt x) := by
  unfold IsInt; infer_instance

/-- Whether the cursor's line is inside the visible window of the surface and exists in its
content. -/
def cursorVisible (m : Model) : Prop :=
  m.viewPort.YOffset ≤ m.Cursor ∧ m.Cursor ≤ m.viewPort.YOffset + m.viewPort.Height - 1 ∧
    0 ≤ m.Cursor ∧ m.Cursor < m.viewPort.lines.length

/-- The visibility of the cursor is decidable. -/
instance (m : Model) : Decidable (cursorVisible m) := by
  unfold cursorVisible; infer_instance

/-- Whether the horizontal offset is within `max (contentWidth - viewportWidth) 0`. -/
def offsetBounded (m : Model) : Prop :=
  (m.offset : Int) ≤ max (m.contentWidth - m.viewPort.Width) 0

/-- The bound of the offset is decidable. -/
instance (m : Model) : Decidable (offsetBounded m) := by
  unfold offsetBounded; infer_instance

/-- The models that give the layout the same input as `m` up to what the rows read of the
model: the same styles, columns, rows and cursor. -/
def sameLayoutInput (m m' : Model) : Prop :=
  m'.Styles = m.Styles ∧ m'.cols = m.cols ∧ m'.rows = m.rows ∧ m'.cursor = m.cursor

/-- The invariant behind the cursor bound: a non-negative height and a cursor that indexes a
row. -/
def CursorInv (n : Nat) (m : Model) : Prop :=
  m.rows.length = n ∧ 0 ≤ m.viewPort.Height ∧ 0 ≤ m.cursor ∧ m.cursor < n

/-- The invariant behind the visibility of the cursor: a window of at least one line that
holds the cursor, over a surface with one line per row. -/
def VisibleInv (n : Nat) (m : Model) : Prop :=
  m.rows.length = n ∧ 1 ≤ m.viewPort.Height ∧ 0 ≤ m.viewPort.YOffset ∧
    m.viewPort.YOffset ≤ m.cursor ∧ m.cursor ≤ m.viewPort.YOffset + m.viewPort.Height - 1 ∧
    m.cursor < n ∧ m.viewPort.lines.length = n

/-- The invariant behind the bound of the horizontal offset: a fixed viewport width `W`, a
fixed content width `C`, and an offset of at most `max (C - W) 0`. -/
def OffsetInv (W C : Int) (m : Model) : Prop :=
  m.viewPort.Width = W ∧ m.contentWidth = C ∧ (m.offset : Int) ≤ max (C - W) 0

/-- The invariant of repeated `GoRight`: the layout input, the viewport width and the content
width stay, and the offset is the number of calls, capped. -/
def RightInv (m : Model) (W C : Int) (k : Nat) (mk : Model) : Prop :=
  sameLayoutInput m mk ∧ mk.viewPort.Width = W ∧ mk.contentWidth = C ∧
    (mk.offset : Int) = min (k : Int) (max (C - W) 0)

/-! ## The rows, styles and models of the package's tests and of the examples -/

/-- The row type `prefixedRow` of `table_test.go`: the selected row is marked
by `> `, and no style is applied. -/
def prefixedRow (row : List Text) : Row where
  Render := fun _ model index =>
    let s := joinWith ['\t'] row
    (if index = model.cursor then "> ".toList ++ s else "  ".toList ++ s) ++ ['\n']

/-- The styles `uncoloredStyles` of `table_test.go`: the title style is the
empty style, which renders plain one-line text unchanged. -/
def uncoloredStyles : Styles where
  Title := id
  Cell := fun _ _ _ s => s
  ColumnSeparator := []

/-- The decimal digits `0` to `9` as one-rune texts. -/
def digitTexts : List Text :=
  ["0".toList, "1".toList, "2".toList, "3".toList, "4".toList,
   "5".toList, "6".toList, "7".toList, "8".toList, "9".toList]

/-- The ten rows of `TestModel_Movements`. -/
def digitRows : List Row :=
  digitTexts.map fun d => prefixedRow [d]

/-- The model of `TestModel_Movements`: the header `  #`, height 4, and ten
rows showing the digits `0` to `9`. -/
def movementsModel : Model :=
  SetRows plainEnv { New plainEnv ["  #".toList] 0 4 with Styles := uncoloredStyles } digitRows

/-- Four rows under a surface as high as `New` can make it, the height passed being the
greatest value of `int`, with the cursor moved down to row 2. -/
def tallModel : Model :=
  navigate plainEnv
    (SetRows plainEnv (New plainEnv ["  #".toList] 0 9223372036854775807) (digitRows.take 4))
    [.down, .down]

/-- The model of `TestModel_Movements` after `GoBottom`: cursor 9, top offset 7. -/
def bottomModel : Model :=
  GoBottom plainEnv movementsModel

/-- A state in which every bound is met at once: one row under a viewport of width 10. -/
def oneRowModel : Model :=
  SetRows plainEnv (New plainEnv ["  #".toList] 10 4) [prefixedRow ["0".toList]]

/-- A custom row that is wide only while it is selected: it renders `> abcdef` under the
cursor and `  .` elsewhere. -/
def wideWhenSelected : Row where
  Render := fun _ model index =>
    (if index = model.cursor then "> abcdef".toList else "  .".toList) ++ ['\n']

/-- The styled cell `ESC[1m A ESC[0m`: a bold `A` followed by the reset sequence. -/
def styledCell : Text :=
  Marker :: "[1mA".toList ++ Marker :: "[0m".toList

/-- What `View` shows of a model under `plainEnv`, line by line. -/
def shown (m : Model) : List Text :=
  splitLines (View plainEnv m)

/-- The model of `TestModel_Movements` with its contents scrolled out to the left: after
three `GoRight` the body is blank, and two `GoDown` put the cursor on row 2, the last line of
the window. -/
def blankedModel : Model :=
  navigate plainEnv movementsModel [.right, .right, .right, .down, .down]

/-- The model of `TestModel_Movements` scrolled past its bottom: at the bottom, the height
is raised to 8 and the cursor moved up to row 7, the first line of the window. -/
def pastBottomModel : Model :=
  run plainEnv movementsModel [.nav .bottom, .setSize 0 9, .nav .up, .nav .up]

/-- The model of `TestModel_Movements` with the cursor on row 2, the last line of the
window. -/
def lastLineModel : Model :=
  navigate plainEnv movementsModel [.down, .down]

/-- The model of `TestModel_Movements` after a page down: cursor 3 on the first line of the
window. -/
def firstLineModel : Model :=
  GoPageDown plainEnv movementsModel

/-- The model of `TestModel_Movements` at the bottom, given three rows in place of its ten:
the cursor stays on 9, out of range. -/
def shrunkModel : Model :=
  SetRows plainEnv bottomModel (digitRows.take 3)

/-- The model of `TestModel_SetSize`: the header `  #`, height 4, and ten rows `item 0` to
`item 9`. -/
def itemsModel : Model :=
  SetRows plainEnv { New plainEnv ["  #".toList] 0 4 with Styles := uncoloredStyles }
    (digitTexts.map fun d => prefixedRow ["item ".toList ++ d])

/-- A row that writes an empty line, whatever the model and the index are. -/
def blankRow : Row where
  Render := fun _ _ _ => ['\n']

/-- Four rows: one showing `a`, two that write an empty line, and one showing an empty text,
which renders as `>` when it is selected and as blanks when it is not. -/
def sparseRows : List Row :=
  [prefixedRow ["a".toList], blankRow, blankRow, prefixedRow [[]]]

/-- The rows `sparseRows` under a window of two lines, with the cursor on the last row: the
surface holds four lines and its top offset is 2. -/
def sparseModel : Model :=
  run plainEnv (New plainEnv ["#".toList] 0 3) [.setRows sparseRows, .nav .bottom]

/-- The model of `TestModel_Update`: the header `  #`, height 4, the default styles, and ten
simple rows showing the digits `0` to `9`. -/
def updateModel : Model :=
  SetRows plainEnv (New plainEnv ["  #".toList] 0 4) (digitTexts.map fun d => SimpleRow [d])

/-! ## The tab writer (`ansiterm/tabwriter`) and the layout as the specification words it -/

/-- The vertical tab, which ends a cell of the tab writer as the tab does. -/
def VerticalTab : Char := Char.ofNat 0x0B

/-- The form feed, which ends a line of the tab writer as the newline does, and the columns
with it. -/
def FormFeed : Char := Char.ofNat 0x0C

/-- Modelled from the spec: the cells of a line of the text written into the tab writer
(not under src/).  Every tab, horizontal or vertical, ends a cell, and what follows the last
tab of the line is its last cell. -/
def splitCells : Text → List Text
  | [] => [[]]
  | c :: cs =>
    if c = '\t' ∨ c = VerticalTab then [] :: splitCells cs
    else
      match splitCells cs with
      | [] => [[c]]
      | l :: ls => (c :: l) :: ls

/-- Modelled from the spec: the loop of the measure the tab writer takes of the text of a
cell (not under src/).  The writer counts runes, one column for each whatever its display
width is, and gives no width to styling escape sequences, which run from the escape rune to
their final letter: `n` is the count so far, and `esc` tells whether the scan is inside an
escape sequence. -/
def cellRunesLoop : Text → Nat → Bool → Nat
  | [], n, _ => n
  | c :: cs, n, esc =>
    if c = Marker then cellRunesLoop cs n true
    else if esc then
      if IsTerminator c then cellRunesLoop cs n false
      else cellRunesLoop cs n true
    else cellRunesLoop cs (n + 1) false

/-- Modelled from the spec: the width the tab writer gives to the text of a cell (not under
src/), the number of its runes outside styling escape sequences. -/
def cellRunes (s : Text) : Nat :=
  cellRunesLoop s 0 false

/-- Modelled from the spec: the cells of the last line of the text written into the tab
writer, the one no newline has ended when the writer is flushed (not under src/): an empty
text after the last tab is no cell. -/
def lastLineCells (l : Text) : List Text :=
  let cells := splitCells l
  if cells.getLast? = some [] then cells.dropLast else cells

/-- Modelled from the spec: the lines the tab writer holds when it is flushed, each with its
cells (not under src/): the lines ended by a newline, and the last line. -/
def writerLines (input : Text) : List (List Text) :=
  let ls := splitLines input
  ls.dropLast.map splitCells ++ [lastLineCells (ls.getLastD [])]

/-- The runs of consecutive elements of a list on which `p` has the same value, each with
that value. -/
def groupRuns {α : Type} (p : α → Bool) : List α → List (Bool × List α)
  | [] => []
  | x :: xs =>
    match groupRuns p xs with
    | [] => [(p x, [x])]
    | (b, run) :: rest =>
      if b = p x then (b, x :: run) :: rest else (p x, [x]) :: (b, run) :: rest

/-- Modelled from the spec: the width the tab writer gives to a column within a block of
consecutive lines that all have a tab-terminated cell in it (not under src/): the greatest
width of these cells with the padding added, and at least `minwidth`. -/
def blockWidth (minwidth padding column : Nat) (block : List (List Text)) : Nat :=
  block.foldl (fun width line => max width (cellRunes (line.getD column []) + padding)) minwidth

/-- Modelled from the spec: the cells of one line as the tab writer writes them, `j` being
the column of the first of them (not under src/): the cells of the columns whose widths are
known are followed by pad characters up to the width of their column, the other cells are
written as they are. -/
def writeCells (padchar : Char) (widths : List Nat) : List Text → Nat → Text
  | [], _ => []
  | cell :: rest, j =>
    cell
      ++ (if j < widths.length then List.replicate (widths.getD j 0 - cellRunes cell) padchar
          else [])
      ++ writeCells padchar widths rest (j + 1)

/-- Modelled from the spec: the formatting of a run of lines by the tab writer, the widths
of the columns to the left being known (not under src/).  The column to format is the next
one; consecutive lines that have a tab-terminated cell in it form a block, whose width is
computed and whose lines are formatted with that width known; the lines between the blocks
are written with the widths known so far.  `fuel` bounds the number of columns still to
format. -/
def formatLines (minwidth padding : Nat) (padchar : Char) :
    Nat → List Nat → List (List Text) → List Text
  | 0, widths, lines => lines.map fun line => writeCells padchar widths line 0
  | fuel + 1, widths, lines =>
    ((groupRuns (fun line => decide (widths.length + 1 < line.length)) lines).map fun g =>
      if g.1 then
        formatLines minwidth padding padchar fuel
          (widths ++ [blockWidth minwidth padding widths.length g.2]) g.2
      else g.2.map fun line => writeCells padchar widths line 0).flatten

/-- Modelled from the spec: what the tab writer writes of the text it holds when it is
flushed (not under src/): the text is cut into lines and each line into cells at the tabs; a
column is formed by the tab-terminated cells of consecutive lines, its width is the greatest
width of these cells plus the padding, and the cells are padded to it; the last cell of a
line belongs to no column.  The columns to format are at most as many as the longest line
has cells. -/
def formatSegment (minwidth padding : Nat) (padchar : Char) (input : Text) : Text :=
  let lines := writerLines input
  joinWith ['\n']
    (formatLines minwidth padding padchar ((lines.map List.length).foldr max 0) [] lines)

/-- Modelled from the spec: the pieces of the text written into the tab writer between its
form feeds (not under src/). -/
def splitFeeds : Text → List Text
  | [] => [[]]
  | c :: cs =>
    if c = FormFeed then [] :: splitFeeds cs
    else
      match splitFeeds cs with
      | [] => [[c]]
      | l :: ls => (c :: l) :: ls

/-- Modelled from the spec: the pieces between the form feeds as the tab writer writes them
(not under src/): a form feed ends the line as a newline does and flushes the writer, so
every piece but the last is formatted on its own with a newline after it, and the last piece
is formatted by the final flush. -/
def flushSegments (format : Text → Text) : List Text → Text
  | [] => []
  | [last] => format last
  | segment :: rest => format (segment ++ ['\n']) ++ flushSegments format rest

/-- Modelled from the spec: the tab writer of the `ansiterm` library (not under src/), from
`Init` with its five settings to `Flush`: the text between two form feeds is formatted on
its own, in columns formed by the tab-terminated cells of consecutive lines.  With a pad
character that is not a tab and without flags, the tab width plays no part. -/
def tabAlign (minwidth _tabwidth padding : Nat) (padchar : Char) (_flags : Nat) (input : Text) :
    Text :=
  flushSegments (formatSegment minwidth padding padchar) (splitFeeds input)

/-- The environment `plainEnv` with the modelled tab writer. -/
def alignEnv : Env :=
  { plainEnv with tabwrite := tabAlign }

/-- The environment `alignEnv` with a title style that renders in bold on a terminal with
colours: the text between the sequences `ESC[1m` and `ESC[0m`. -/
def boldEnv : Env :=
  { alignEnv with
    styleTitle := fun s => (Marker :: "[1m".toList) ++ s ++ (Marker :: "[0m".toList) }

/-- Modelled from the spec: whether the scan of the escape-aware width function is inside an
escape sequence after the text `s`, `b` telling whether it was before it. -/
def insideEscape : Text → Bool → Bool
  | [], b => b
  | c :: cs, b =>
    if c = Marker then insideEscape cs true
    else if b then
      if IsTerminator c then insideEscape cs false else insideEscape cs true
    else insideEscape cs false

/-- The loop of `stylingOnly`: `state` is 0 outside an escape sequence, 1 right after the
escape rune and 2 after the bracket that follows it. -/
def stylingOnlyLoop : Text → Nat → Bool
  | [], state => decide (state = 0)
  | c :: cs, 0 => if c = Marker then stylingOnlyLoop cs 1 else stylingOnlyLoop cs 0
  | c :: cs, 1 => if c = '[' then stylingOnlyLoop cs 2 else false
  | c :: cs, _ + 2 =>
    if c = 'm' then stylingOnlyLoop cs 0
    else if c.isDigit ∨ c = ';' then stylingOnlyLoop cs 2
    else false

/-- Whether every escape rune of the text begins a complete styling sequence, `ESC[` followed
by digits and semicolons and closed by `m`, as the sequences `ESC[1m` and `ESC[0m` are. -/
def stylingOnly (s : Text) : Bool :=
  stylingOnlyLoop s 0

/-- The cells for which the width the tab writer measures is the display width: no tab,
newline, vertical tab or form feed, no escape sequence but complete styling sequences, each
ended within the cell, and as many runes outside escape sequences as display columns. -/
def alignedCell (E : Env) (c : Text) : Prop :=
  '\t' ∉ c ∧ '\n' ∉ c ∧ VerticalTab ∉ c ∧ FormFeed ∉ c ∧ stylingOnly c = true ∧
    insideEscape c false = false ∧ cellRunes c = PrintableRuneWidth E c

/-- Whether a cell is one of those is decidable. -/
instance (E : Env) (c : Text) : Decidable (alignedCell E c) := by
  unfold alignedCell; infer_instance

/-- The maximum display width of the cells of column `j` across the lines `M`, each line
being given by its cells. -/
def colMax (E : Env) (M : List (List Text)) (j : Nat) : Nat :=
  (M.map fun r => PrintableRuneWidth E (r.getD j [])).foldr max 0

/-- The display column at which the specification lets column `j` start: the sum over the
columns `i < j` of the maximum display width of column `i` plus one padding column. -/
def colStart (E : Env) (M : List (List Text)) (j : Nat) : Nat :=
  ((List.range j).map fun i => colMax E M i + 1).sum

/-- The cell of column `j` of the line `r` with its padding as the specification words it:
the cell followed by spaces up to the maximum display width of the column plus one. -/
def paddedCell (E : Env) (M : List (List Text)) (r : List Text) (j : Nat) : Text :=
  r.getD j [] ++ List.replicate (colMax E M j + 1 - PrintableRuneWidth E (r.getD j [])) ' '

/-- What precedes the cell of column `j` in the line of the cells `r`: the padded cells
of the columns before `j`. -/
def linePrefix (E : Env) (M : List (List Text)) (r : List Text) (j : Nat) : Text :=
  ((List.range j).map (paddedCell E M r)).flatten

/-- The line of the cells `r` as the specification words it: every cell but the last one
is padded, and the last one is not. -/
def specLine (E : Env) (M : List (List Text)) (r : List Text) : Text :=
  linePrefix E M r (r.length - 1) ++ r.getD (r.length - 1) []

/-- The model of `TestModel_View`: four columns and four rows. -/
def viewModel : Model :=
  SetRows alignEnv
    { New alignEnv ["  ID".toList, "EMAIL".toList, "USERNAME".toList, "CREATED-AT".toList] 0 5
      with Styles := uncoloredStyles }
    [prefixedRow ["1".toList, "john@example.org".toList, "john".toList,
        "2022-02-21T18:02:29.762Z".toList],
      prefixedRow ["2".toList, "bob@example.org".toList, "bob".toList,
        "2022-02-21T18:02:29.762Z".toList],
      prefixedRow ["3".toList, "alice@example.org".toList, "alice".toList,
        "2022-02-21T18:02:29.762Z".toList],
      prefixedRow ["4".toList, "thomas@example.org".toList, "thomas".toList,
        "2022-02-21T18:02:29.762Z".toList]]

/-- The cells of the header of `TestModel_View`. -/
def viewHeader : List Text :=
  ["  ID".toList, "EMAIL".toList, "USERNAME".toList, "CREATED-AT".toList]

/-- The cells that the rows of `TestModel_View` render, the first row being the selected
one. -/
def viewCells : List (List Text) :=
  [["> 1".toList, "john@example.org".toList, "john".toList, "2022-02-21T18:02:29.762Z".toList],
   ["  2".toList, "bob@example.org".toList, "bob".toList, "2022-02-21T18:02:29.762Z".toList],
   ["  3".toList, "alice@example.org".toList, "alice".toList,
      "2022-02-21T18:02:29.762Z".toList],
   ["  4".toList, "thomas@example.org".toList, "thomas".toList,
      "2022-02-21T18:02:29.762Z".toList]]

/-- A table of two columns with the default styles and two rows of type `SimpleRow`, under a
title style that renders in bold. -/
def simpleModel : Model :=
  SetRows boldEnv (New boldEnv ["ID".toList, "NAME".toList] 0 3)
    [SimpleRow ["1".toList, "ann".toList], SimpleRow ["200".toList, "bob".toList]]

/-- The cells of the header of `simpleModel` as its title style renders them: the first one
begins with the sequence that switches bold on, the second one begins with the column
separator and ends with the sequence that resets the style. -/
def simpleHeader : List Text :=
  [(Marker :: "[1m".toList) ++ "ID".toList,
   defaultColSeparator ++ "NAME".toList ++ (Marker :: "[0m".toList)]

/-- The cells that the rows of `simpleModel` render: every cell but the first begins with
the column separator. -/
def simpleCellsOf : List (List Text) :=
  [["1".toList, defaultColSeparator ++ "ann".toList],
   ["200".toList, defaultColSeparator ++ "bob".toList]]

/-- A table of two columns whose first row shows two wide glyphs in its first cell. -/
def wideModel : Model :=
  SetRows alignEnv { New alignEnv ["A".toList, "B".toList] 0 3 with Styles := uncoloredStyles }
    [prefixedRow ["世界".toList, "x".toList], prefixedRow ["abcde".toList, "z".toList]]

/-! ## Lines, joins and the truncation loop -/

theorem splitLines_ne_nil (s : Text) : splitLines s ≠ [] := by
  cases s with
  | nil => simp [splitLines]
  | cons c cs =>
    simp only [splitLines]
    split_ifs
    · simp
    · split <;> simp

theorem splitLines_of_no_nl (a : Text) (h : '\n' ∉ a) : splitLines a = [a] := by
  induction a with
  | nil => simp [splitLines]
  | cons c cs ih =>
    have hc : c ≠ '\n' := fun e => h (by simp [e])
    have hcs : '\n' ∉ cs := fun e => h (by simp [e])
    simp [splitLines, hc, ih hcs]

theorem splitLines_append_nl (a r : Text) (h : '\n' ∉ a) :
    splitLines (a ++ '\n' :: r) = a :: splitLines r := by
  induction a with
  | nil => simp [splitLines]
  | cons c cs ih =>
    have hc : c ≠ '\n' := fun e => h (by simp [e])
    have hcs : '\n' ∉ cs := fun e => h (by simp [e])
    simp [splitLines, hc, ih hcs]

theorem mem_splitLines_no_nl (s l : Text) (h : l ∈ splitLines s) : '\n' ∉ l := by
  induction s generalizing l with
  | nil => simp [splitLines] at h; simp [h]
  | cons c cs ih =>
    simp only [splitLines] at h
    split_ifs at h with hc
    · rcases List.mem_cons.1 h with h | h
      · simp [h]
      · exact ih l h
    · split at h
      · simp at h; subst h; simpa using Ne.symm hc
      · rename_i l0 ls heq
        rcases List.mem_cons.1 h with h | h
        · subst h
          have := ih l0 (by rw [heq]; simp)
          simp [this, Ne.symm hc]
        · exact ih l (by rw [heq]; simp [h])

theorem splitLines_joinWith (ls : List Text) (hne : ls ≠ []) (h : ∀ l ∈ ls, '\n' ∉ l) :
    splitLines (joinWith ['\n'] ls) = ls := by
  induction ls with
  | nil => exact absurd rfl hne
  | cons a rest ih =>
    cases rest with
    | nil => simpa [joinWith] using splitLines_of_no_nl a (h a (by simp))
    | cons b rest =>
      have ha := h a (by simp)
      have := ih (by simp) (fun l hl => h l (by simp [hl]))
      simp only [joinWith, List.append_assoc, List.singleton_append]
      rw [splitLines_append_nl _ _ ha, this]

theorem truncateLoop_eq (E : Env) (n : Nat) (last : Int) (lines : List Text) (i : Nat)
    (buf : Text) (hlast : last = (i : Int) + lines.length - 1) :
    truncateLoop E n last lines i buf
      = buf ++ joinWith ['\n'] (lines.map (truncateLine E n)) := by
  induction lines generalizing i buf with
  | nil => simp [truncateLoop, joinWith]
  | cons l rest ih =>
    cases rest with
    | nil =>
      have : (i : Int) = last := by simp [hlast]
      simp [truncateLoop, joinWith, this]
    | cons l2 rest =>
      have hne : (i : Int) ≠ last := by simp [hlast]; omega
      have := ih (i + 1) (buf ++ truncateLine E n l ++ ['\n']) (by simp [hlast]; omega)
      simp only [truncateLoop, hne, ne_eq, not_false_eq_true, if_true] at this ⊢
      rw [this]
      simp [joinWith]


theorem FindString_take (s : Text) : ∃ k, FindString s = s.take k := by
  unfold FindString
  split
  · exact ⟨0, by simp⟩
  · exact ⟨_, rfl⟩

theorem FindString_append_drop (s : Text) :
    FindString s ++ s.drop (FindString s).length = s := by
  obtain ⟨k, hk⟩ := FindString_take s
  rw [hk, List.length_take]
  rcases Nat.le_total k s.length with h | h
  · rw [Nat.min_eq_left h]; exact List.take_append_drop k s
  · rw [Nat.min_eq_right h, List.take_of_length_le h]; simp

theorem FindString_of_plain (s : Text) (h1 : Marker ∉ s) (h2 : CSI ∉ s) : FindString s = [] := by
  cases s with
  | nil => rfl
  | cons c cs =>
    have hc1 : c ≠ Marker := fun e => h1 (by simp [e])
    have hc2 : c ≠ CSI := fun e => h2 (by simp [e])
    simp [FindString, reANSISeqMatches, reClass, hc1, hc2]

theorem replaceFirst_take (s : Text) (k : Nat) (hne : s.take k ≠ []) :
    replaceFirst (s.take k) [] s = s.drop (s.take k).length := by
  cases s with
  | nil => simp at hne
  | cons c cs =>
    have hp : (List.take k (c :: cs)).isPrefixOf (c :: cs) = true := by
      rw [ List.isPrefixOf_iff_prefix]
      exact List.take_prefix k (c :: cs)
    simp only [replaceFirst, hp, if_true, List.nil_append]

theorem replaceFirst_FindString (s : Text) (hne : FindString s ≠ []) :
    replaceFirst (FindString s) [] s = s.drop (FindString s).length := by
  obtain ⟨k, hk⟩ := FindString_take s
  rw [hk] at hne ⊢
  exact replaceFirst_take s k hne

theorem runeColumns_eq (E : Env) (r : Char) :
    runeColumns E r = if r = Marker then 0 else E.runeWidth r := by
  unfold runeColumns PrintableRuneWidth
  by_cases h : r = Marker <;> simp [printableLoop, h]

theorem cutLoop_spec (E : Env) (n : Nat) (l : Text) (c0 ch0 : Nat) (hc : c0 < n) :
    ch0 ≤ (cutLoop E n l c0 ch0).2 ∧
      List.replicate (cutLoop E n l c0 ch0).1 ' ' ++ l.drop ((cutLoop E n l c0 ch0).2 - ch0)
        = specDropColumns (runeColumns E) (n - c0) l := by
  induction l generalizing c0 ch0 with
  | nil => simp [cutLoop, specDropColumns]
  | cons r rs ih =>
    have hw : ¬ ((PrintableRuneWidth E [r] : Nat) : Int) < 0 := by omega
    simp only [cutLoop, hw, if_false, specDropColumns, Int.toNat_ofNat]
    by_cases hge : c0 + PrintableRuneWidth E [r] ≥ n
    · have h1 : n - c0 ≤ runeColumns E r := by unfold runeColumns; omega
      have h2 : c0 + PrintableRuneWidth E [r] - n = runeColumns E r - (n - c0) := by
        unfold runeColumns; omega
      simp [hge, h1, h2]
    · have h1 : ¬ n - c0 ≤ runeColumns E r := by unfold runeColumns; omega
      obtain ⟨ih1, ih2⟩ := ih (c0 + PrintableRuneWidth E [r]) (ch0 + 1) (by omega)
      simp only [hge, if_false, h1]
      refine ⟨by omega, ?_⟩
      have h3 : (cutLoop E n rs (c0 + PrintableRuneWidth E [r]) (ch0 + 1)).2 - ch0
          = ((cutLoop E n rs (c0 + PrintableRuneWidth E [r]) (ch0 + 1)).2 - (ch0 + 1)) + 1 := by
        omega
      rw [h3, List.drop_succ_cons, ih2]
      congr 1
      unfold runeColumns; omega

theorem truncateLine_eq (E : Env) (n : Nat) (hn : 0 < n) (l : Text) :
    truncateLine E n l
      = FindString l ++ specDropColumns (runeColumns E) n (l.drop (FindString l).length) := by
  unfold truncateLine
  by_cases he : FindString l = []
  · have := (cutLoop_spec E n l 0 0 hn).2
    simp only [he, ne_eq, not_true_eq_false, if_false, List.nil_append, List.length_nil,
      List.drop_zero]
    simpa using this
  · have := (cutLoop_spec E n (l.drop (FindString l).length) 0 0 hn).2
    simp only [he, ne_eq, not_false_eq_true, if_true, replaceFirst_FindString l he]
    simpa using this

theorem specDropColumns_congr (w1 w2 : Char → Nat) (l : Text) (n : Nat)
    (h : ∀ c ∈ l, w1 c = w2 c) : specDropColumns w1 n l = specDropColumns w2 n l := by
  induction l generalizing n with
  | nil => rfl
  | cons c cs ih =>
    have hc := h c (by simp)
    have := fun m => ih m (fun d hd => h d (by simp [hd]))
    simp [specDropColumns, hc, this]

theorem mem_specDropColumns (w : Char → Nat) (l : Text) (n : Nat) (c : Char)
    (h : c ∈ specDropColumns w n l) : c = ' ' ∨ c ∈ l := by
  induction l generalizing n with
  | nil => simp [specDropColumns] at h
  | cons d ds ih =>
    simp only [specDropColumns] at h
    split_ifs at h
    · rcases List.mem_append.1 h with h | h
      · left; exact (List.mem_replicate.1 h).2
      · right; simp [h]
    · rcases ih _ h with h | h
      · left; exact h
      · right; simp [h]

theorem truncateLine_no_nl (E : Env) (n : Nat) (hn : 0 < n) (l : Text) (h : '\n' ∉ l) :
    '\n' ∉ truncateLine E n l := by
  rw [truncateLine_eq E n hn]
  intro hm
  rcases List.mem_append.1 hm with hm | hm
  · obtain ⟨k, hk⟩ := FindString_take l
    rw [hk] at hm
    exact h (List.mem_of_mem_take hm)
  · rcases mem_specDropColumns _ _ _ _ hm with hm | hm
    · exact absurd hm (by decide)
    · exact h (List.mem_of_mem_drop hm)

theorem splitLines_trucateOffset (E : Env) (s : Text) (n : Nat) (hn : 0 < n) :
    splitLines (trucateOffset E s n) = (splitLines s).map (truncateLine E n) := by
  unfold trucateOffset
  rw [if_neg (by omega)]
  simp only
  rw [truncateLoop_eq E n _ _ 0 [] (by simp)]
  simp only [List.nil_append]
  apply splitLines_joinWith
  · simpa using splitLines_ne_nil s
  · intro l hl
    obtain ⟨l0, hl0, rfl⟩ := List.mem_map.1 hl
    exact truncateLine_no_nl E n hn l0 (mem_splitLines_no_nl s l0 hl0)

/-! ## The horizontal truncation routine -/

theorem printableLoop_plain (E : Env) (x : Text) (n : Nat) (h : Marker ∉ x) :
    printableLoop E x n false = n + textWidth E x := by
  induction x generalizing n with
  | nil => simp [printableLoop, textWidth]
  | cons c cs ih =>
    have hc : c ≠ Marker := fun e => h (by simp [e])
    have hcs : Marker ∉ cs := fun e => h (by simp [e])
    simp only [printableLoop, hc, if_false, ih _ hcs]
    simp [textWidth]; omega

theorem PrintableRuneWidth_plain (E : Env) (x : Text) (h : Marker ∉ x) :
    PrintableRuneWidth E x = textWidth E x := by
  simp [PrintableRuneWidth, printableLoop_plain E x 0 h]

theorem textWidth_append (E : Env) (a b : Text) :
    textWidth E (a ++ b) = textWidth E a + textWidth E b := by
  simp [textWidth]

theorem textWidth_replicate_space (E : Env) (k : Nat) :
    textWidth E (List.replicate k ' ') = k := by
  simp [textWidth, E.space_width]

theorem specDropColumns_form (E : Env) (l : Text) (n : Nat) (hn : 0 < n) :
    ∃ removed rest, l = removed ++ rest ∧
      specDropColumns E.runeWidth n l
        = List.replicate (textWidth E removed - n) ' ' ++ rest ∧
      (∀ j < removed.length, textWidth E (removed.take j) < n) ∧
      (textWidth E removed < n → rest = []) := by
  induction l generalizing n with
  | nil => exact ⟨[], [], by simp [specDropColumns, textWidth]⟩
  | cons c cs ih =>
    by_cases h : n ≤ E.runeWidth c
    · refine ⟨[c], cs, by simp, by simp [specDropColumns, h, textWidth], ?_, ?_⟩
      · intro j hj
        have : j = 0 := by simpa using hj
        subst this
        simpa [textWidth] using hn
      · intro hlt
        simp [textWidth] at hlt
        omega
    · obtain ⟨removed, rest, h1, h2, h3, h4⟩ := ih (n - E.runeWidth c) (by omega)
      refine ⟨c :: removed, rest, by simp [h1], ?_, ?_, ?_⟩
      · simp only [specDropColumns, h, if_false, h2]
        congr 2
        simp [textWidth]; omega
      · intro j hj
        cases j with
        | zero => simpa [textWidth] using hn
        | succ j =>
          have := h3 j (by simpa using hj)
          simp [textWidth] at this ⊢
          omega
      · intro hlt
        apply h4
        simp [textWidth] at hlt ⊢
        omega

/-- Claim C5. With offset 0 `trucateOffset` returns its input unchanged, for every input; hence
applying it again with offset 0 changes nothing. -/
theorem trucateOffset_zero (E : Env) (s : Text) :
    trucateOffset E s 0 = s ∧
      trucateOffset E (trucateOffset E s 0) 0 = trucateOffset E s 0 := by
  simp [trucateOffset]

/-- Claim C3. For an offset `n > 0` and a line `l` of the input that contains no escape sequence
(neither U+001B nor U+009B), with display width `W = textWidth E l`: the corresponding line
of the output of `trucateOffset` has display width exactly `max (W - n) 0`, and it is `k`
spaces followed by the suffix `rest` of `l = removed ++ rest`, where `removed` is the shortest
run of leading runes whose width reaches `n` (the whole line when the width never reaches
`n`) and `k` is the amount by which the width of `removed` exceeds `n`; no rune is split. -/
theorem trucateOffset_plain_line (E : Env) (s : Text) (n : Nat) (hn : 0 < n) (i : Nat)
    (l : Text) (hl : (splitLines s)[i]? = some l) (hm : Marker ∉ l) (hc : CSI ∉ l) :
    ∃ removed rest out,
      l = removed ++ rest ∧
      (splitLines (trucateOffset E s n))[i]? = some out ∧
      out = List.replicate (textWidth E removed - n) ' ' ++ rest ∧
      (textWidth E out : Int) = max ((textWidth E l : Int) - n) 0 ∧
      (PrintableRuneWidth E out : Int) = max ((textWidth E l : Int) - n) 0 ∧
      (∀ j < removed.length, textWidth E (removed.take j) < n) ∧
      (textWidth E removed < n → rest = []) := by
  have hout : (splitLines (trucateOffset E s n))[i]?
      = some (specDropColumns E.runeWidth n l) := by
    rw [splitLines_trucateOffset E s n hn, List.getElem?_map, hl, Option.map_some',
      truncateLine_eq E n hn, FindString_of_plain l hm hc]
    simp only [List.nil_append, List.length_nil, List.drop_zero]
    congr 1
    apply specDropColumns_congr
    intro c hcl
    have : c ≠ Marker := fun e => hm (e ▸ hcl)
    simp [runeColumns_eq, this]
  obtain ⟨removed, rest, h1, h2, h3, h4⟩ := specDropColumns_form E l n hn
  have hw : textWidth E (List.replicate (textWidth E removed - n) ' ' ++ rest)
      = textWidth E l - n := by
    rw [textWidth_append, textWidth_replicate_space, h1, textWidth_append]
    by_cases hlt : textWidth E removed < n
    · simp [h4 hlt, textWidth]
    · omega
  have hplain : Marker ∉ List.replicate (textWidth E removed - n) ' ' ++ rest := by
    intro hmem
    rcases List.mem_append.1 hmem with hmem | hmem
    · exact absurd (List.mem_replicate.1 hmem).2 (by decide)
    · exact hm (by rw [h1]; simp [hmem])
  refine ⟨removed, rest, _, h1, hout.trans (by rw [h2]), rfl, ?_, ?_, h3, h4⟩
  · rw [hw]; omega
  · rw [PrintableRuneWidth_plain E _ hplain, hw]; omega

/-- Claim C6, amended. For an offset `n > 0` and a line `l = e ++ t` of the input in which
`e` is the non-empty leading escape sequence found by `reANSISeq` and `t` holds no escape
rune, the corresponding line of the output of `trucateOffset` is `e` followed by the removal
of the first `n` display columns of `t`; for a line without escape rune in which
`reANSISeq` finds nothing, the output line is the removal of the first `n` display columns
alone, with nothing put in front. -/
theorem trucateOffset_leading_sequence (E : Env) (s : Text) (n : Nat) (hn : 0 < n) (i : Nat)
    (l : Text) (hl : (splitLines s)[i]? = some l) :
    (∀ e t, FindString l = e → e ≠ [] → l = e ++ t → Marker ∉ t →
      (splitLines (trucateOffset E s n))[i]?
        = some (e ++ specDropColumns E.runeWidth n t)) ∧
    (FindString l = [] → Marker ∉ l →
      (splitLines (trucateOffset E s n))[i]? = some (specDropColumns E.runeWidth n l)) := by
  have hout : (splitLines (trucateOffset E s n))[i]? = some (truncateLine E n l) := by
    rw [splitLines_trucateOffset E s n hn, List.getElem?_map, hl, Option.map_some']
  rw [hout, truncateLine_eq E n hn]
  have hcongr : ∀ t : Text, Marker ∉ t →
      specDropColumns (runeColumns E) n t = specDropColumns E.runeWidth n t := by
    intro t hmt
    apply specDropColumns_congr
    intro c hct
    have : c ≠ Marker := fun e => hmt (e ▸ hct)
    simp [runeColumns_eq, this]
  refine ⟨?_, ?_⟩
  · intro e t he _ hlt hmt
    have hd : l.drop (FindString l).length = t := by
      rw [he]; rw [hlt]; simp
    rw [hd, he, hcongr t hmt]
  · intro he hml
    simp [he, hcongr l hml]

/-- Claim C6, counterexample. On the styled cell `ESC[1m A ESC[0m` at offset 2 the leading
sequence `ESC[1m` is kept, and what follows it in the output is `0m`, two visible columns:
the remainder `A ESC[0m` of the line has one display column, so that removing its first two
display columns leaves nothing visible; the routine has counted the escape rune and the `[`
of the closing sequence as columns and cut that sequence in two. -/
theorem leading_sequence_cut_in_two :
    FindString styledCell = Marker :: "[1m".toList ∧
      styledCell = (Marker :: "[1m".toList) ++ ('A' :: Marker :: "[0m".toList) ∧
      (splitLines (trucateOffset plainEnv styledCell 2))[0]?
        = some ((Marker :: "[1m".toList) ++ "0m".toList) ∧
      PrintableRuneWidth plainEnv ('A' :: Marker :: "[0m".toList) = 1 ∧
      PrintableRuneWidth plainEnv "0m".toList = 2 ∧
      ¬ PrintableRuneWidth plainEnv "0m".toList
          ≤ PrintableRuneWidth plainEnv ('A' :: Marker :: "[0m".toList) - 2 := by
  decide

theorem printableLoop_acc (E : Env) (x : Text) (n : Nat) (b : Bool) :
    printableLoop E x n b = n + printableLoop E x 0 b := by
  induction x generalizing n b with
  | nil => simp [printableLoop]
  | cons c cs ih =>
    simp only [printableLoop]
    split_ifs
    · exact ih n true
    · exact ih n false
    · exact ih n true
    · rw [ih (n + E.runeWidth c) false, ih (0 + E.runeWidth c) false]; omega

theorem printableLoop_append (E : Env) (e : Text) (n : Nat) (b : Bool) :
    ∃ n1 b1, ∀ x, printableLoop E (e ++ x) n b = printableLoop E x n1 b1 := by
  induction e generalizing n b with
  | nil => exact ⟨n, b, fun x => rfl⟩
  | cons c cs ih =>
    simp only [List.cons_append, printableLoop]
    split_ifs
    · exact ih n true
    · exact ih n false
    · exact ih n true
    · exact ih (n + E.runeWidth c) false

theorem printableLoop_ansi_le (E : Env) (x : Text) (h : Marker ∉ x) :
    printableLoop E x 0 true ≤ printableLoop E x 0 false := by
  induction x with
  | nil => simp [printableLoop]
  | cons c cs ih =>
    have hc : c ≠ Marker := fun e => h (by simp [e])
    have hcs : Marker ∉ cs := fun e => h (by simp [e])
    have := ih hcs
    simp only [printableLoop, hc, if_false, if_true]
    rw [printableLoop_acc E cs (0 + E.runeWidth c) false]
    split_ifs <;> omega

theorem printableLoop_suffix_le (E : Env) (b : Bool) (r1 r2 : Text) (h : Marker ∉ r1)
    (hs : r2 <:+ r1) : printableLoop E r2 0 b ≤ printableLoop E r1 0 b := by
  induction r1 generalizing b with
  | nil => simp [List.suffix_nil.1 hs]
  | cons c cs ih =>
    have hc : c ≠ Marker := fun e => h (by simp [e])
    have hcs : Marker ∉ cs := fun e => h (by simp [e])
    rcases List.suffix_cons_iff.1 hs with hs | hs
    · rw [hs]
    · have hfalse := ih false hcs hs
      have htrue := ih true hcs hs
      have hle := printableLoop_ansi_le E cs hcs
      have hle2 := printableLoop_ansi_le E r2
        (fun hm => hcs (hs.subset hm))
      cases b
      · simp only [printableLoop, hc, if_false]
        rw [printableLoop_acc E cs (0 + E.runeWidth c) false]
        simp; omega
      · simp only [printableLoop, hc, if_false, if_true]
        split_ifs <;> omega

theorem printableLoop_space_cons (E : Env) (y : Text) (n : Nat) (b : Bool) :
    printableLoop E (' ' :: y) n b = printableLoop E y (if b then n else n + 1) b := by
  have h1 : ' ' ≠ Marker := by decide
  have h2 : IsTerminator ' ' = false := by decide
  cases b <;> simp [printableLoop, h1, h2, E.space_width]

theorem printableLoop_spaces (E : Env) (k : Nat) (x : Text) (b : Bool) :
    printableLoop E (List.replicate k ' ' ++ x) 0 b
      = (if b then 0 else k) + printableLoop E x 0 b := by
  induction k with
  | zero => cases b <;> simp
  | succ k ih =>
    rw [List.replicate_succ, List.cons_append, printableLoop_space_cons, printableLoop_acc, ih]
    cases b
    · simp; omega
    · simp

theorem specDropColumns_suffix (w : Char → Nat) (t : Text) (n : Nat) :
    ∃ k r, specDropColumns w n t = List.replicate k ' ' ++ r ∧ r <:+ t := by
  induction t generalizing n with
  | nil => exact ⟨0, [], by simp [specDropColumns], List.suffix_refl _⟩
  | cons c cs ih =>
    simp only [specDropColumns]
    split_ifs
    · exact ⟨_, cs, rfl, List.suffix_cons c cs⟩
    · obtain ⟨k, r, h1, h2⟩ := ih (n - w c)
      exact ⟨k, r, h1, h2.trans (List.suffix_cons c cs)⟩

theorem specDropColumns_suffix_mono (w : Char → Nat) (t : Text) (a b : Nat) (hab : a ≤ b) :
    ∃ ka ra kb rb, specDropColumns w a t = List.replicate ka ' ' ++ ra ∧
      specDropColumns w b t = List.replicate kb ' ' ++ rb ∧ rb <:+ ra ∧ ra <:+ t := by
  induction t generalizing a b with
  | nil => exact ⟨0, [], 0, [], by simp [specDropColumns], by simp [specDropColumns],
      List.suffix_refl _, List.suffix_refl _⟩
  | cons c cs ih =>
    simp only [specDropColumns]
    by_cases hb : b ≤ w c
    · have ha : a ≤ w c := by omega
      simp only [ha, hb, if_true]
      exact ⟨_, cs, _, cs, rfl, rfl, List.suffix_refl _, List.suffix_cons c cs⟩
    · by_cases ha : a ≤ w c
      · simp only [ha, hb, if_true, if_false]
        obtain ⟨k, r, h1, h2⟩ := specDropColumns_suffix w cs (b - w c)
        exact ⟨_, cs, k, r, rfl, h1, h2, List.suffix_cons c cs⟩
      · simp only [ha, hb, if_false]
        obtain ⟨ka, ra, kb, rb, h1, h2, h3, h4⟩ := ih (a - w c) (b - w c) (by omega)
        exact ⟨ka, ra, kb, rb, h1, h2, h3, h4.trans (List.suffix_cons c cs)⟩

theorem textWidth_specDropColumns (E : Env) (t : Text) (n : Nat) (hn : 0 < n) :
    textWidth E (specDropColumns E.runeWidth n t) = textWidth E t - n := by
  obtain ⟨removed, rest, h1, h2, _, h4⟩ := specDropColumns_form E t n hn
  rw [h2, textWidth_append, textWidth_replicate_space, h1, textWidth_append]
  by_cases hlt : textWidth E removed < n
  · simp [h4 hlt, textWidth]
  · omega

theorem trucateOffset_single_line (E : Env) (s : Text) (n : Nat) (hn : 0 < n) (h : '\n' ∉ s) :
    trucateOffset E s n = truncateLine E n s := by
  unfold trucateOffset
  rw [if_neg (by omega), splitLines_of_no_nl s h]
  simp [truncateLoop]

/-- The body of a line after its leading escape sequence, before and after truncation, seen
from any state of the width scan: a larger offset never gives a larger count. -/
theorem printableLoop_truncated_mono (E : Env) (t : Text) (ht : Marker ∉ t) (a b : Nat)
    (hab : a ≤ b) (st : Bool) :
    printableLoop E (if b = 0 then t else specDropColumns (runeColumns E) b t) 0 st
      ≤ printableLoop E (if a = 0 then t else specDropColumns (runeColumns E) a t) 0 st := by
  have hcongr : ∀ n, specDropColumns (runeColumns E) n t = specDropColumns E.runeWidth n t := by
    intro n
    apply specDropColumns_congr
    intro c hct
    have : c ≠ Marker := fun e => ht (e ▸ hct)
    simp [runeColumns_eq, this]
  have hplain : ∀ k r, r <:+ t → Marker ∉ List.replicate k ' ' ++ r := by
    intro k r hr hmem
    rcases List.mem_append.1 hmem with hmem | hmem
    · exact absurd (List.mem_replicate.1 hmem).2 (by decide)
    · exact ht (hr.subset hmem)
  by_cases hb : b = 0
  · have ha : a = 0 := by omega
    simp [ha, hb]
  · by_cases ha : a = 0
    · simp only [ha, hb, if_true, if_false]
      obtain ⟨k, r, h1, h2⟩ := specDropColumns_suffix (runeColumns E) t b
      cases st
      · have hw := textWidth_specDropColumns E t b (by omega)
        rw [← hcongr, h1] at hw
        have e1 := printableLoop_plain E _ 0 (hplain k r h2)
        have e2 := printableLoop_plain E t 0 ht
        rw [h1, e1, e2, hw]; omega
      · rw [h1, printableLoop_spaces]
        simpa using printableLoop_suffix_le E true t r ht h2
    · simp only [ha, hb, if_false]
      obtain ⟨ka, ra, kb, rb, h1, h2, h3, h4⟩ :=
        specDropColumns_suffix_mono (runeColumns E) t a b hab
      cases st
      · have hwa := textWidth_specDropColumns E t a (by omega)
        have hwb := textWidth_specDropColumns E t b (by omega)
        rw [← hcongr, h1] at hwa
        rw [← hcongr, h2] at hwb
        have e1 := printableLoop_plain E _ 0 (hplain ka ra h4)
        have e2 := printableLoop_plain E _ 0 (hplain kb rb (h3.trans h4))
        rw [h1, h2, e1, e2, hwa, hwb]; omega
      · rw [h1, h2, printableLoop_spaces, printableLoop_spaces]
        simpa using printableLoop_suffix_le E true ra rb
          (fun hm => ht (h4.subset hm)) h3

theorem trucateOffset_eq_leading (E : Env) (s : Text) (n : Nat) (h : '\n' ∉ s) :
    trucateOffset E s n = FindString s ++
      (if n = 0 then s.drop (FindString s).length
       else specDropColumns (runeColumns E) n (s.drop (FindString s).length)) := by
  by_cases hn : n = 0
  · simp [hn, trucateOffset, FindString_append_drop]
  · rw [trucateOffset_single_line E s n (by omega) h, truncateLine_eq E n (by omega), if_neg hn]

/-- Claim C4, amended. For a line that carries no escape rune after the leading escape
sequence found by `reANSISeq` (in particular for a line without escape sequences), and
offsets `a ≤ b`, the visible display width of `trucateOffset s b` is at most that of
`trucateOffset s a`. -/
theorem trucateOffset_width_mono (E : Env) (s : Text) (a b : Nat) (hab : a ≤ b)
    (hnl : '\n' ∉ s) (hesc : Marker ∉ s.drop (FindString s).length) :
    PrintableRuneWidth E (trucateOffset E s b) ≤ PrintableRuneWidth E (trucateOffset E s a) := by
  rw [trucateOffset_eq_leading E s a hnl, trucateOffset_eq_leading E s b hnl]
  unfold PrintableRuneWidth
  obtain ⟨n1, b1, h⟩ := printableLoop_append E (FindString s) 0 false
  rw [h, h, printableLoop_acc E _ n1, printableLoop_acc E _ n1]
  have := printableLoop_truncated_mono E _ hesc a b hab b1
  omega

/-- Claim C4, counterexample. On the styled cell `ESC[1m A ESC[0m`, raising the offset from 1
to 2 raises the visible width from 0 to 2: the escape rune of the trailing sequence is cut
off and the rest of that sequence becomes visible text. -/
theorem trucateOffset_width_not_mono :
    (1 : Nat) ≤ 2 ∧
      PrintableRuneWidth plainEnv (trucateOffset plainEnv styledCell 1) = 0 ∧
      PrintableRuneWidth plainEnv (trucateOffset plainEnv styledCell 2) = 2 ∧
      ¬ (PrintableRuneWidth plainEnv (trucateOffset plainEnv styledCell 2)
          ≤ PrintableRuneWidth plainEnv (trucateOffset plainEnv styledCell 1)) := by
  decide

/-- Claim C3, witness. The line `世界a` of the block `世界a`, `xy` at offset 1. -/
theorem trucateOffset_plain_line_witness :
    ∃ removed rest out,
      "世界a".toList = removed ++ rest ∧
      (splitLines (trucateOffset plainEnv "世界a\nxy".toList 1))[0]? = some out ∧
      out = List.replicate (textWidth plainEnv removed - 1) ' ' ++ rest ∧
      (textWidth plainEnv out : Int) = max ((textWidth plainEnv "世界a".toList : Int) - (1 : Nat)) 0 ∧
      (PrintableRuneWidth plainEnv out : Int)
        = max ((textWidth plainEnv "世界a".toList : Int) - (1 : Nat)) 0 ∧
      (∀ j < removed.length, textWidth plainEnv (removed.take j) < 1) ∧
      (textWidth plainEnv removed < 1 → rest = []) :=
  trucateOffset_plain_line plainEnv "世界a\nxy".toList 1 (by decide) 0 "世界a".toList
    (by decide) (by decide) (by decide)

/-- Claim C6, witness. The line `ESC[1mAB` at offset 1: the sequence `ESC[1m` is kept and `B`
is what remains of `AB`; and the plain line `AB`, in front of which nothing is put. -/
theorem trucateOffset_leading_sequence_witness :
    ((splitLines (trucateOffset plainEnv (Marker :: "[1mAB".toList) 1))[0]?
        = some (Marker :: "[1m".toList ++ specDropColumns plainEnv.runeWidth 1 "AB".toList) ∧
      (splitLines (trucateOffset plainEnv "AB".toList 1))[0]?
        = some (specDropColumns plainEnv.runeWidth 1 "AB".toList)) ∧
    (splitLines (trucateOffset plainEnv (Marker :: "[1mAB".toList) 1))[0]?
      = some (Marker :: "[1mB".toList) :=
  ⟨⟨(trucateOffset_leading_sequence plainEnv (Marker :: "[1mAB".toList) 1 (by decide) 0
      (Marker :: "[1mAB".toList) (by decide)).1 (Marker :: "[1m".toList) "AB".toList
      (by decide) (by decide) (by decide) (by decide),
    (trucateOffset_leading_sequence plainEnv "AB".toList 1 (by decide) 0 "AB".toList
      (by decide)).2 (by decide) (by decide)⟩, by decide⟩

/-- Claim C4, witness. The line `ESC[1mAB` at the offsets 1 and 2. -/
theorem trucateOffset_width_mono_witness :
    PrintableRuneWidth plainEnv (trucateOffset plainEnv (Marker :: "[1mAB".toList) 2)
      ≤ PrintableRuneWidth plainEnv (trucateOffset plainEnv (Marker :: "[1mAB".toList) 1) :=
  trucateOffset_width_mono plainEnv (Marker :: "[1mAB".toList) 1 2 (by decide) (by decide)
    (by decide)

/-! ## The state of the table: frame lemmas and the cursor bound -/

namespace Viewport

@[simp] theorem SetYOffset_Height (v : Viewport) (n : Int) : (v.SetYOffset n).Height = v.Height := rfl
@[simp] theorem SetYOffset_Width (v : Viewport) (n : Int) : (v.SetYOffset n).Width = v.Width := rfl
@[simp] theorem SetYOffset_lines (v : Viewport) (n : Int) : (v.SetYOffset n).lines = v.lines := rfl

theorem SetYOffset_YOffset (v : Viewport) (n : Int) :
    (v.SetYOffset n).YOffset = min (max 0 ((v.lines.length : Int) - v.Height)) (max 0 n) := rfl

@[simp] theorem GotoTop_Height (v : Viewport) : (v.GotoTop).Height = v.Height := by
  unfold GotoTop; split_ifs <;> rfl

@[simp] theorem GotoTop_Width (v : Viewport) : (v.GotoTop).Width = v.Width := by
  unfold GotoTop; split_ifs <;> rfl

@[simp] theorem GotoTop_lines (v : Viewport) : (v.GotoTop).lines = v.lines := by
  unfold GotoTop; split_ifs <;> rfl

@[simp] theorem GotoBottom_Height (v : Viewport) : (v.GotoBottom).Height = v.Height := rfl

@[simp] theorem GotoBottom_Width (v : Viewport) : (v.GotoBottom).Width = v.Width := rfl

@[simp] theorem GotoBottom_lines (v : Viewport) : (v.GotoBottom).lines = v.lines := rfl

@[simp] theorem ViewDown_Height (v : Viewport) : (v.ViewDown).Height = v.Height := by
  unfold ViewDown; split_ifs <;> rfl

@[simp] theorem ViewDown_Width (v : Viewport) : (v.ViewDown).Width = v.Width := by
  unfold ViewDown; split_ifs <;> rfl

@[simp] theorem ViewDown_lines (v : Viewport) : (v.ViewDown).lines = v.lines := by
  unfold ViewDown; split_ifs <;> rfl

@[simp] theorem ViewUp_Height (v : Viewport) : (v.ViewUp).Height = v.Height := by
  unfold ViewUp; split_ifs <;> rfl

@[simp] theorem ViewUp_Width (v : Viewport) : (v.ViewUp).Width = v.Width := by
  unfold ViewUp; split_ifs <;> rfl

@[simp] theorem ViewUp_lines (v : Viewport) : (v.ViewUp).lines = v.lines := by
  unfold ViewUp; split_ifs <;> rfl

@[simp] theorem LineDown_Height (v : Viewport) (n : Int) : (v.LineDown n).Height = v.Height := by
  unfold LineDown; split_ifs <;> rfl

@[simp] theorem LineDown_Width (v : Viewport) (n : Int) : (v.LineDown n).Width = v.Width := by
  unfold LineDown; split_ifs <;> rfl

@[simp] theorem LineDown_lines (v : Viewport) (n : Int) : (v.LineDown n).lines = v.lines := by
  unfold LineDown; split_ifs <;> rfl

@[simp] theorem LineUp_Height (v : Viewport) (n : Int) : (v.LineUp n).Height = v.Height := by
  unfold LineUp; split_ifs <;> rfl

@[simp] theorem LineUp_Width (v : Viewport) (n : Int) : (v.LineUp n).Width = v.Width := by
  unfold LineUp; split_ifs <;> rfl

@[simp] theorem LineUp_lines (v : Viewport) (n : Int) : (v.LineUp n).lines = v.lines := by
  unfold LineUp; split_ifs <;> rfl

@[simp] theorem SetContent_Height (v : Viewport) (s : Text) : (v.SetContent s).Height = v.Height := by
  unfold SetContent GotoBottom; simp only; split_ifs <;> rfl

@[simp] theorem SetContent_Width (v : Viewport) (s : Text) : (v.SetContent s).Width = v.Width := by
  unfold SetContent GotoBottom; simp only; split_ifs <;> rfl

@[simp] theorem SetContent_lines (v : Viewport) (s : Text) :
    (v.SetContent s).lines = splitLines (normalizeLineEndings s) := by
  unfold SetContent GotoBottom; simp only; split_ifs <;> rfl

/-- The top offset after `SetContent`: it is kept when it points at a line of the new
content, and moved to the bottom position otherwise. -/
theorem SetContent_YOffset (v : Viewport) (s : Text) :
    (v.SetContent s).YOffset
      = if v.YOffset > ((v.SetContent s).lines.length : Int) - 1
        then max 0 (((v.SetContent s).lines.length : Int) - v.Height) else v.YOffset := by
  rw [SetContent_lines]
  unfold SetContent GotoBottom
  by_cases h : v.YOffset > ((splitLines (normalizeLineEndings s)).length : Int) - 1
  · simp [h, SetYOffset, maxYOffset, clamp]
  · simp [h]

end Viewport

@[simp] theorem updateView_rows (E : Env) (m : Model) : (updateView E m).rows = m.rows := by
  unfold updateView; simp only; split_ifs <;> rfl

@[simp] theorem updateView_cursor (E : Env) (m : Model) : (updateView E m).cursor = m.cursor := by
  unfold updateView; simp only; split_ifs <;> rfl

@[simp] theorem updateView_offset (E : Env) (m : Model) : (updateView E m).offset = m.offset := by
  unfold updateView; simp only; split_ifs <;> rfl

@[simp] theorem updateView_cols (E : Env) (m : Model) : (updateView E m).cols = m.cols := by
  unfold updateView; simp only; split_ifs <;> rfl

@[simp] theorem updateView_Styles (E : Env) (m : Model) : (updateView E m).Styles = m.Styles := by
  unfold updateView; simp only; split_ifs <;> rfl

@[simp] theorem updateView_KeyMap (E : Env) (m : Model) : (updateView E m).KeyMap = m.KeyMap := by
  unfold updateView; simp only; split_ifs <;> rfl

theorem updateView_contentWidth (E : Env) (m : Model) :
    (updateView E m).contentWidth = (lipglossWidth E (layout E m) : Nat) := by
  unfold updateView
  simp only
  split_ifs <;> rfl

theorem updateView_viewPort (E : Env) (m : Model) :
    (updateView E m).viewPort = m.viewPort ∨
      ∃ s, (updateView E m).viewPort = m.viewPort.SetContent s := by
  unfold updateView
  simp only
  split_ifs <;> first | (left; rfl) | (right; exact ⟨_, rfl⟩)

@[simp] theorem updateView_Height (E : Env) (m : Model) :
    (updateView E m).viewPort.Height = m.viewPort.Height := by
  rcases updateView_viewPort E m with h | ⟨s, h⟩ <;> rw [h]
  exact Viewport.SetContent_Height _ s

@[simp] theorem updateView_Width (E : Env) (m : Model) :
    (updateView E m).viewPort.Width = m.viewPort.Width := by
  rcases updateView_viewPort E m with h | ⟨s, h⟩ <;> rw [h]
  exact Viewport.SetContent_Width _ s

/-- The top offset after `updateView`, in terms of the number of lines the surface then
holds. -/
theorem updateView_YOffset (E : Env) (m : Model) :
    (updateView E m).viewPort.YOffset = m.viewPort.YOffset ∨
      (m.viewPort.YOffset > ((updateView E m).viewPort.lines.length : Int) - 1 ∧
        (updateView E m).viewPort.YOffset
          = max 0 (((updateView E m).viewPort.lines.length : Int) - m.viewPort.Height)) := by
  rcases updateView_viewPort E m with h | ⟨s, h⟩
  · left; rw [h]
  · rw [h, Viewport.SetContent_YOffset]
    split_ifs with hc
    · right; exact ⟨hc, rfl⟩
    · left; rfl

theorem wrapInt_eq (x : Int) (h1 : -9223372036854775808 ≤ x) (h2 : x ≤ 9223372036854775807) :
    wrapInt x = x := by
  unfold wrapInt; omega

theorem New_Height (E : Env) (cols : List Text) (w h : Int) (hlo : -9223372036854775808 < h)
    (hhi : h ≤ 9223372036854775807) : (New E cols w h).viewPort.Height = max (h - 1) 0 := by
  simp only [New, Viewport.New, maxInt, wrapInt_eq (h - 1) (by omega) (by omega)]
  split_ifs <;> omega

theorem Nav_apply_Height (E : Env) (m : Model) (op : Nav) :
    (op.apply E m).viewPort.Height = m.viewPort.Height := by
  cases op <;>
    simp only [Nav.apply, GoUp, GoDown, GoPageUp, GoPageDown, GoTop, GoBottom, GoLeft, GoRight] <;>
    split_ifs <;>
    simp only [updateView_Height, Viewport.LineUp_Height, Viewport.LineDown_Height,
      Viewport.ViewUp_Height, Viewport.ViewDown_Height, Viewport.GotoTop_Height,
      Viewport.GotoBottom_Height]

theorem SetSize_Height (E : Env) (m : Model) (width height : Int)
    (hlo : -9223372036854775808 < height) (hhi : height ≤ 9223372036854775807) :
    (SetSize E m width height).viewPort.Height = height - 1 := by
  have hw := wrapInt_eq (height - 1) (by omega) (by omega)
  simp only [SetSize, hw]
  split_ifs <;> simp only [updateView_Height]

theorem Nav_apply_CursorInv (E : Env) (n : Nat) (m : Model) (op : Nav) (h : CursorInv n m)
    (hr : (n : Int) + m.viewPort.Height ≤ 9223372036854775807) :
    CursorInv n (op.apply E m) := by
  obtain ⟨rfl, h2, h3, h4⟩ := h
  have hw : wrapInt (m.cursor + m.viewPort.Height) = m.cursor + m.viewPort.Height :=
    wrapInt_eq _ (by omega) (by omega)
  unfold CursorInv
  cases op <;>
    simp only [Nav.apply, GoUp, GoDown, GoPageUp, GoPageDown, GoTop, GoBottom, GoLeft, GoRight,
      Model.CursorIsAtTop, Model.CursorIsAtBottom, Model.CursorIsPastBottom, Model.atRightBound,
      decide_eq_true_eq, hw] <;>
    split_ifs <;>
    (try simp only [updateView_rows, updateView_cursor, updateView_Height, Viewport.LineUp_Height,
      Viewport.LineDown_Height, Viewport.ViewUp_Height, Viewport.ViewDown_Height,
      Viewport.GotoTop_Height, Viewport.GotoBottom_Height, true_and]) <;>
    omega

theorem navigate_CursorInv (E : Env) (n : Nat) (ops : List Nav) (m : Model)
    (h : CursorInv n m) (hr : (n : Int) + m.viewPort.Height ≤ 9223372036854775807) :
    CursorInv n (navigate E m ops) := by
  induction ops generalizing m with
  | nil => exact h
  | cons op ops ih =>
    exact ih _ (Nav_apply_CursorInv E n m op h hr) (by rw [Nav_apply_Height]; exact hr)

theorem SetRows_New_CursorInv (E : Env) (cols : List Text) (w h : Int) (rows : List Row)
    (hrows : rows ≠ []) : CursorInv rows.length (SetRows E (New E cols w h) rows) := by
  have : 0 < rows.length := List.length_pos.2 hrows
  unfold CursorInv SetRows
  simp only [updateView_rows, updateView_cursor, updateView_Height]
  simp only [New, Viewport.New, maxInt, true_and]
  refine ⟨?_, le_refl _, by omega⟩
  split_ifs <;> omega

/-- Claim C1, amended. For every model produced by `New cols w h` followed by `SetRows rows`
with `rows` non-empty, the height `h` being in the range in which Go's arithmetic does not
wrap (`h` above the least value of `int`, so that `h - 1` is a value of `int`, and `len(rows)`
and `h + len(rows)` at most the greatest one, so that the sum of a cursor with the height of
the surface is a value of `int`), and every finite sequence of the eight navigation
operations applied to it, the resulting state satisfies `0 ≤ Cursor() < len(rows)`. -/
theorem cursor_in_range_after_navigation (E : Env) (cols : List Text) (w h : Int)
    (rows : List Row) (ops : List Nav) (hrows : rows ≠ [])
    (hlo : -9223372036854775808 < h)
    (hhi : h + (rows.length : Int) ≤ 9223372036854775807)
    (hlen : (rows.length : Int) ≤ 9223372036854775807) :
    0 ≤ (navigate E (SetRows E (New E cols w h) rows) ops).Cursor ∧
      (navigate E (SetRows E (New E cols w h) rows) ops).Cursor < rows.length := by
  have hH := New_Height E cols w h hlo (by omega)
  have hr : (rows.length : Int) + (SetRows E (New E cols w h) rows).viewPort.Height
      ≤ 9223372036854775807 := by
    simp only [SetRows, updateView_Height, hH]; omega
  have := navigate_CursorInv E rows.length ops _ (SetRows_New_CursorInv E cols w h rows hrows) hr
  exact ⟨this.2.2.1, this.2.2.2⟩

/-- Claim C1, witness. The model of `TestModel_Movements` after seven moves. -/
theorem cursor_in_range_after_navigation_witness :
    0 ≤ (navigate plainEnv (SetRows plainEnv (New plainEnv ["  #".toList] 0 4) digitRows)
        [.bottom, .pageUp, .down, .right, .top, .pageDown, .up]).Cursor ∧
      (navigate plainEnv (SetRows plainEnv (New plainEnv ["  #".toList] 0 4) digitRows)
        [.bottom, .pageUp, .down, .right, .top, .pageDown, .up]).Cursor < digitRows.length :=
  cursor_in_range_after_navigation plainEnv ["  #".toList] 0 4 digitRows
    [.bottom, .pageUp, .down, .right, .top, .pageDown, .up] (by simp [digitRows, digitTexts])
    (by decide) (by decide) (by decide)

/-- Claim C1, counterexample. After `New cols 0 h` with `h` the greatest value of `int` and
`SetRows` with four rows the surface has the height `2 ^ 63 - 2`; two `GoDown` put the
cursor on row 2, and `GoPageDown` adds the height to it: the sum `2 ^ 63` wraps to the
least value of `int`, which is not past the bottom and is kept.  The cursor is negative. -/
theorem cursor_wraps_below_zero :
    tallModel.rows.length = 4 ∧ tallModel.Cursor = 2 ∧
      tallModel.viewPort.Height = 9223372036854775806 ∧
      (GoPageDown plainEnv tallModel).Cursor = -9223372036854775808 ∧
      ¬ 0 ≤ (GoPageDown plainEnv tallModel).Cursor := by
  decide

/-! ## The visibility of the cursor -/

namespace Viewport

theorem GotoTop_YOffset (v : Viewport) :
    v.GotoTop.YOffset
      = if v.YOffset ≤ 0 then v.YOffset else min (max 0 ((v.lines.length : Int) - v.Height)) 0 := by
  unfold GotoTop AtTop SetYOffset clamp maxYOffset
  split_ifs <;> simp_all

theorem GotoBottom_YOffset (v : Viewport) :
    v.GotoBottom.YOffset = max 0 ((v.lines.length : Int) - v.Height) := by
  unfold GotoBottom SetYOffset clamp maxYOffset
  simp

/-- Under a height of at least 0 the slice of the visible lines is in range after a jump to
the bottom: the program does not panic there. -/
theorem GotoBottom_sliceInRange (v : Viewport) (h : 0 ≤ v.Height) :
    v.GotoBottom.sliceInRange = true := by
  simp only [sliceInRange, GotoBottom, SetYOffset, clamp, maxYOffset, decide_eq_true_eq]
  omega

theorem ViewDown_YOffset (v : Viewport) :
    v.ViewDown.YOffset
      = if v.YOffset ≥ max 0 ((v.lines.length : Int) - v.Height) then v.YOffset
        else min (max 0 ((v.lines.length : Int) - v.Height)) (max 0 (v.YOffset + v.Height)) := by
  unfold ViewDown AtBottom SetYOffset clamp maxYOffset
  split_ifs <;> simp_all

theorem ViewUp_YOffset (v : Viewport) :
    v.ViewUp.YOffset
      = if v.YOffset ≤ 0 then v.YOffset
        else min (max 0 ((v.lines.length : Int) - v.Height)) (max 0 (v.YOffset - v.Height)) := by
  unfold ViewUp AtTop SetYOffset clamp maxYOffset
  split_ifs <;> simp_all

theorem LineDown_one_YOffset (v : Viewport) :
    (v.LineDown 1).YOffset
      = if v.YOffset ≥ max 0 ((v.lines.length : Int) - v.Height) then v.YOffset
        else min (max 0 ((v.lines.length : Int) - v.Height)) (max 0 (v.YOffset + 1)) := by
  unfold LineDown AtBottom SetYOffset clamp maxYOffset
  split_ifs <;> simp_all

theorem LineUp_one_YOffset (v : Viewport) :
    (v.LineUp 1).YOffset
      = if v.YOffset ≤ 0 then v.YOffset
        else min (max 0 ((v.lines.length : Int) - v.Height)) (max 0 (v.YOffset - 1)) := by
  unfold LineUp AtTop SetYOffset clamp maxYOffset
  split_ifs <;> simp_all

end Viewport

theorem GoUp_VisibleInv (E : Env) (n : Nat) (m : Model) (h : VisibleInv n m)
    (hl : (GoUp E m).viewPort.lines.length = n) : VisibleInv n (GoUp E m) := by
  obtain ⟨h1, h2, h3, h4, h5, h6, h7⟩ := h
  have hY := updateView_YOffset E { m with cursor := m.cursor - 1 }
  unfold VisibleInv
  simp only [GoUp, Model.CursorIsAtTop, decide_eq_true_eq] at hl ⊢
  split_ifs at hl ⊢ <;>
    simp only [updateView_rows, updateView_cursor, updateView_Height, Viewport.LineUp_Height,
      Viewport.LineUp_lines, Viewport.LineUp_one_YOffset] at * <;>
    (try split_ifs) <;> omega

theorem GoDown_VisibleInv (E : Env) (n : Nat) (m : Model) (h : VisibleInv n m)
    (hl : (GoDown E m).viewPort.lines.length = n) : VisibleInv n (GoDown E m) := by
  obtain ⟨h1, h2, h3, h4, h5, h6, h7⟩ := h
  have hY := updateView_YOffset E { m with cursor := m.cursor + 1 }
  unfold VisibleInv
  simp only [GoDown, Model.CursorIsAtBottom, decide_eq_true_eq] at hl ⊢
  split_ifs at hl ⊢ <;>
    simp only [updateView_rows, updateView_cursor, updateView_Height, Viewport.LineDown_Height,
      Viewport.LineDown_lines, Viewport.LineDown_one_YOffset] at * <;>
    (try split_ifs) <;> omega

theorem GoPageUp_VisibleInv (E : Env) (n : Nat) (m : Model) (h : VisibleInv n m)
    (hl : (GoPageUp E m).viewPort.lines.length = n) : VisibleInv n (GoPageUp E m) := by
  obtain ⟨h1, h2, h3, h4, h5, h6, h7⟩ := h
  have hY0 := updateView_YOffset E { m with cursor := 0 }
  have hY1 := updateView_YOffset E { m with cursor := m.cursor - m.viewPort.Height }
  unfold VisibleInv
  simp only [GoPageUp, Model.CursorIsAtTop, decide_eq_true_eq] at hl ⊢
  split_ifs at hl ⊢ <;>
    simp only [updateView_rows, updateView_cursor, updateView_Height, Viewport.ViewUp_Height,
      Viewport.ViewUp_lines, Viewport.ViewUp_YOffset] at * <;>
    (try split_ifs) <;> omega

theorem GoPageDown_VisibleInv (E : Env) (n : Nat) (m : Model) (h : VisibleInv n m)
    (hr : (n : Int) + m.viewPort.Height ≤ 9223372036854775807)
    (hl : (GoPageDown E m).viewPort.lines.length = n) : VisibleInv n (GoPageDown E m) := by
  obtain ⟨h1, h2, h3, h4, h5, h6, h7⟩ := h
  have hw : wrapInt (m.cursor + m.viewPort.Height) = m.cursor + m.viewPort.Height :=
    wrapInt_eq _ (by omega) (by omega)
  have hY0 := updateView_YOffset E { m with cursor := (m.rows.length : Int) - 1 }
  have hY1 := updateView_YOffset E { m with cursor := m.cursor + m.viewPort.Height }
  unfold VisibleInv
  simp only [GoPageDown, Model.CursorIsAtBottom, Model.CursorIsPastBottom,
    decide_eq_true_eq, hw] at hl ⊢
  split_ifs at hl ⊢ <;>
    simp only [updateView_rows, updateView_cursor, updateView_Height, Viewport.ViewDown_Height,
      Viewport.ViewDown_lines, Viewport.ViewDown_YOffset] at * <;>
    (try split_ifs) <;> omega

theorem GoTop_VisibleInv (E : Env) (n : Nat) (m : Model) (h : VisibleInv n m)
    (hl : (GoTop E m).viewPort.lines.length = n) : VisibleInv n (GoTop E m) := by
  obtain ⟨h1, h2, h3, h4, h5, h6, h7⟩ := h
  have hY := updateView_YOffset E { m with cursor := 0 }
  unfold VisibleInv
  simp only [GoTop, Model.CursorIsAtTop, decide_eq_true_eq] at hl ⊢
  split_ifs at hl ⊢ <;>
    simp only [updateView_rows, updateView_cursor, updateView_Height, Viewport.GotoTop_Height,
      Viewport.GotoTop_lines, Viewport.GotoTop_YOffset] at * <;>
    (try split_ifs) <;> omega

theorem GoBottom_VisibleInv (E : Env) (n : Nat) (m : Model) (h : VisibleInv n m)
    (hl : (GoBottom E m).viewPort.lines.length = n) : VisibleInv n (GoBottom E m) := by
  obtain ⟨h1, h2, h3, h4, h5, h6, h7⟩ := h
  have hY := updateView_YOffset E { m with cursor := (m.rows.length : Int) - 1 }
  unfold VisibleInv
  simp only [GoBottom, Model.CursorIsAtBottom, decide_eq_true_eq] at hl ⊢
  split_ifs at hl ⊢ <;>
    simp only [updateView_rows, updateView_cursor, updateView_Height, Viewport.GotoBottom_Height,
      Viewport.GotoBottom_lines, Viewport.GotoBottom_YOffset] at * <;>
    omega

theorem GoLeft_VisibleInv (E : Env) (n : Nat) (m : Model) (h : VisibleInv n m)
    (hl : (GoLeft E m).viewPort.lines.length = n) : VisibleInv n (GoLeft E m) := by
  obtain ⟨h1, h2, h3, h4, h5, h6, h7⟩ := h
  have hY := updateView_YOffset E { m with offset := m.offset - 1 }
  unfold VisibleInv
  simp only [GoLeft] at hl ⊢
  split_ifs at hl ⊢ <;>
    simp only [updateView_rows, updateView_cursor, updateView_Height] at * <;> omega

theorem GoRight_VisibleInv (E : Env) (n : Nat) (m : Model) (h : VisibleInv n m)
    (hl : (GoRight E m).viewPort.lines.length = n) : VisibleInv n (GoRight E m) := by
  obtain ⟨h1, h2, h3, h4, h5, h6, h7⟩ := h
  have hY := updateView_YOffset E { m with offset := (m.offset + 1) % 18446744073709551616 }
  unfold VisibleInv
  simp only [GoRight] at hl ⊢
  split_ifs at hl ⊢ <;>
    simp only [updateView_rows, updateView_cursor, updateView_Height] at * <;> omega

theorem SetSize_VisibleInv (E : Env) (n : Nat) (m : Model) (width height : Int)
    (h : VisibleInv n m) (hh : 2 ≤ height) (hhi : height ≤ 9223372036854775807)
    (hl : (SetSize E m width height).viewPort.lines.length = n) :
    VisibleInv n (SetSize E m width height) := by
  obtain ⟨h1, h2, h3, h4, h5, h6, h7⟩ := h
  have hw := wrapInt_eq (height - 1) (by omega) (by omega)
  have hY := updateView_YOffset E
    { m with
      viewPort := { m.viewPort with Width := width, Height := height - 1 }
      cursor := m.viewPort.YOffset + (height - 1) - 1 }
  unfold VisibleInv
  simp only [SetSize, hw] at hl ⊢
  split_ifs at hl ⊢ <;>
    simp only [updateView_rows, updateView_cursor, updateView_Height] at * <;> omega

theorem Call_apply_VisibleInv (E : Env) (n : Nat) (m : Model) (c : Call) (h : VisibleInv n m)
    (hr : (n : Int) + m.viewPort.Height ≤ 9223372036854775807)
    (hc : c.keepsWindow = true) (hf : c.heightFits n = true)
    (hl : (c.apply E m).viewPort.lines.length = n) :
    VisibleInv n (c.apply E m) := by
  cases c with
  | nav op =>
    cases op
    · exact GoUp_VisibleInv E n m h hl
    · exact GoDown_VisibleInv E n m h hl
    · exact GoPageUp_VisibleInv E n m h hl
    · exact GoPageDown_VisibleInv E n m h hr hl
    · exact GoTop_VisibleInv E n m h hl
    · exact GoBottom_VisibleInv E n m h hl
    · exact GoLeft_VisibleInv E n m h hl
    · exact GoRight_VisibleInv E n m h hl
  | setSize width height =>
    simp only [Call.heightFits, decide_eq_true_eq] at hf
    exact SetSize_VisibleInv E n m width height h (by simpa [Call.keepsWindow] using hc)
      (by omega) hl
  | setRows rows => simp [Call.keepsWindow] at hc

theorem mem_trace_self (E : Env) (m : Model) (calls : List Call) : m ∈ trace E m calls := by
  cases calls <;> simp [trace]

theorem Call_apply_Height_fits (E : Env) (n : Nat) (m : Model) (c : Call)
    (hr : (n : Int) + m.viewPort.Height ≤ 9223372036854775807)
    (hc : c.keepsWindow = true) (hf : c.heightFits n = true) :
    (n : Int) + (c.apply E m).viewPort.Height ≤ 9223372036854775807 := by
  cases c with
  | nav op => simpa only [Call.apply, Nav_apply_Height] using hr
  | setSize width height =>
    simp only [Call.heightFits, decide_eq_true_eq] at hf
    simp only [Call.keepsWindow, decide_eq_true_eq] at hc
    simp only [Call.apply, SetSize_Height E m width height (by omega) (by omega)]
    omega
  | setRows rows => simp [Call.keepsWindow] at hc

theorem run_VisibleInv (E : Env) (n : Nat) (calls : List Call) (m : Model)
    (h : VisibleInv n m) (hr : (n : Int) + m.viewPort.Height ≤ 9223372036854775807)
    (hc : ∀ c ∈ calls, c.keepsWindow = true) (hf : ∀ c ∈ calls, c.heightFits n = true)
    (hl : ∀ s ∈ trace E m calls, s.viewPort.lines.length = n) :
    VisibleInv n (run E m calls) := by
  induction calls generalizing m with
  | nil => exact h
  | cons c calls ih =>
    have hl2 : ∀ s ∈ trace E (c.apply E m) calls, s.viewPort.lines.length = n :=
      fun s hs => hl s (by simp [trace, hs])
    exact ih (c.apply E m)
      (Call_apply_VisibleInv E n m c h hr (hc c (by simp)) (hf c (by simp))
        (hl2 _ (mem_trace_self E _ calls)))
      (Call_apply_Height_fits E n m c hr (hc c (by simp)) (hf c (by simp)))
      (fun c2 hc2 => hc c2 (by simp [hc2])) (fun c2 hc2 => hf c2 (by simp [hc2])) hl2

theorem SetRows_New_VisibleInv (E : Env) (cols : List Text) (w h : Int) (rows : List Row)
    (hh : 2 ≤ h) (hhi : h ≤ 9223372036854775807) (hrows : rows ≠ [])
    (hl : (SetRows E (New E cols w h) rows).viewPort.lines.length = rows.length) :
    VisibleInv rows.length (SetRows E (New E cols w h) rows) := by
  have hpos : 0 < rows.length := List.length_pos.2 hrows
  have hY := updateView_YOffset E { New E cols w h with rows := rows }
  have hH : (New E cols w h).viewPort.Height = h - 1 := by
    rw [New_Height E cols w h (by omega) hhi]; omega
  have hY0 : (New E cols w h).viewPort.YOffset = 0 := rfl
  have hc0 : (New E cols w h).cursor = 0 := rfl
  unfold VisibleInv
  unfold SetRows at hl ⊢
  simp only [updateView_rows, updateView_cursor, updateView_Height, hH, hY0, hc0] at hY ⊢
  refine ⟨trivial, by omega, ?_, ?_, ?_, by omega, hl⟩ <;> omega

/-- Claim C2, amended. For every model reached from `New cols w h` with `h ≥ 2` followed by
`SetRows rows` with `rows` non-empty, by any finite sequence of navigation operations and
`SetSize` calls with a height of at least 2, such that in every state passed through the
surface holds exactly one line per row: `YOffset ≤ Cursor() ≤ YOffset + Height - 1`, and line
`Cursor()` exists in the surface's content.  The heights are taken in the range in which
Go's arithmetic does not wrap: `h + len(rows)` and, for every `SetSize`, its height plus
`len(rows)` are values of `int`. -/
theorem cursor_visible_in_window (E : Env) (cols : List Text) (w h : Int) (rows : List Row)
    (calls : List Call) (hh : 2 ≤ h) (hrows : rows ≠ [])
    (hcalls : ∀ c ∈ calls, c.keepsWindow = true)
    (hlines : ∀ s ∈ trace E (SetRows E (New E cols w h) rows) calls,
      s.viewPort.lines.length = rows.length)
    (hhi : h + (rows.length : Int) ≤ 9223372036854775807)
    (hfit : ∀ c ∈ calls, c.heightFits rows.length = true) :
    cursorVisible (run E (SetRows E (New E cols w h) rows) calls) := by
  have h0 := SetRows_New_VisibleInv E cols w h rows hh (by omega) hrows
    (hlines _ (mem_trace_self E _ calls))
  have hr : (rows.length : Int) + (SetRows E (New E cols w h) rows).viewPort.Height
      ≤ 9223372036854775807 := by
    simp only [SetRows, updateView_Height, New_Height E cols w h (by omega) (by omega)]; omega
  obtain ⟨_, _, h3, h4, h5, h6, h7⟩ :=
    run_VisibleInv E rows.length calls _ h0 hr hcalls hfit hlines
  unfold cursorVisible Model.Cursor
  exact ⟨h4, h5, by omega, by omega⟩

/-- Claim C2, witness. Ten rows under a window of three lines: to the bottom, a page up, a
resize to two lines, one row down and one column to the right. -/
theorem cursor_visible_in_window_witness :
    cursorVisible (run plainEnv (SetRows plainEnv (New plainEnv ["  #".toList] 0 4) digitRows)
      [.nav .bottom, .nav .pageUp, .setSize 0 3, .nav .down, .nav .right]) :=
  cursor_visible_in_window plainEnv ["  #".toList] 0 4 digitRows
    [.nav .bottom, .nav .pageUp, .setSize 0 3, .nav .down, .nav .right]
    (by decide) (by simp [digitRows, digitTexts]) (by decide) (by decide) (by decide)
    (by decide)

/-- Claim C2, counterexample. Three states reached as the claim describes in which the cursor
is outside the window.  (1) After `New cols 0 1` and `SetRows` with one row the surface has
height 0, so the window is empty.  (2) In the model of `TestModel_Movements`, `SetSize 0 1`
gives height 0 and moves the cursor to `YOffset + Height - 1 = -1`.  (3) In the same model,
after `GoBottom` and three `GoRight` every line of the body is blank, the trimmed content is
one empty line, the surface is back at the top, and the cursor, on row 9, is below the window
of three lines. -/
theorem cursor_outside_window :
    ¬ cursorVisible (run plainEnv (SetRows plainEnv (New plainEnv ["  #".toList] 0 1)
        [prefixedRow ["0".toList]]) []) ∧
    ((run plainEnv (SetRows plainEnv (New plainEnv ["  #".toList] 0 4) digitRows)
        [.setSize 0 1]).cursor = -1 ∧
      ¬ cursorVisible (run plainEnv (SetRows plainEnv (New plainEnv ["  #".toList] 0 4) digitRows)
        [.setSize 0 1])) ∧
    ((run plainEnv (SetRows plainEnv (New plainEnv ["  #".toList] 0 4) digitRows)
        [.nav .bottom, .nav .right, .nav .right, .nav .right]).cursor = 9 ∧
      (run plainEnv (SetRows plainEnv (New plainEnv ["  #".toList] 0 4) digitRows)
        [.nav .bottom, .nav .right, .nav .right, .nav .right]).viewPort.YOffset = 0 ∧
      (run plainEnv (SetRows plainEnv (New plainEnv ["  #".toList] 0 4) digitRows)
        [.nav .bottom, .nav .right, .nav .right, .nav .right]).viewPort.Height = 3 ∧
      (run plainEnv (SetRows plainEnv (New plainEnv ["  #".toList] 0 4) digitRows)
        [.nav .bottom, .nav .right, .nav .right, .nav .right]).viewPort.lines = [[]] ∧
      ¬ cursorVisible (run plainEnv (SetRows plainEnv (New plainEnv ["  #".toList] 0 4) digitRows)
        [.nav .bottom, .nav .right, .nav .right, .nav .right])) := by
  decide

/-! ## The bound of the horizontal offset -/

theorem Nav_apply_Width (E : Env) (m : Model) (op : Nav) :
    (op.apply E m).viewPort.Width = m.viewPort.Width := by
  cases op <;>
    simp only [Nav.apply, GoUp, GoDown, GoPageUp, GoPageDown, GoTop, GoBottom, GoLeft, GoRight] <;>
    split_ifs <;>
    simp only [updateView_Width, Viewport.LineUp_Width, Viewport.LineDown_Width,
      Viewport.ViewUp_Width, Viewport.ViewDown_Width, Viewport.GotoTop_Width,
      Viewport.GotoBottom_Width]

theorem Nav_apply_offset_le (E : Env) (W C : Int) (m : Model) (op : Nav) (hW : IsInt W)
    (hC0 : 0 ≤ C) (hC : IsInt C) (h : OffsetInv W C m) :
    ((op.apply E m).offset : Int) ≤ max (C - W) 0 := by
  obtain ⟨h1, h2, h3⟩ := h
  unfold IsInt at hW hC
  cases op <;>
    simp only [Nav.apply, GoUp, GoDown, GoPageUp, GoPageDown, GoTop, GoBottom, GoLeft, GoRight,
      Model.atRightBound, toUint, decide_eq_true_eq] <;>
    split_ifs <;>
    (try simp only [updateView_offset]) <;>
    omega

theorem Nav_apply_OffsetInv (E : Env) (W C : Int) (m : Model) (op : Nav) (hW : IsInt W)
    (hC0 : 0 ≤ C) (hC : IsInt C) (h : OffsetInv W C m)
    (hcw : (op.apply E m).contentWidth = C) : OffsetInv W C (op.apply E m) :=
  ⟨(Nav_apply_Width E m op).trans h.1, hcw, Nav_apply_offset_le E W C m op hW hC0 hC h⟩

theorem run_nav_OffsetInv (E : Env) (W C : Int) (ops : List Nav) (m : Model) (hW : IsInt W)
    (hC0 : 0 ≤ C) (hC : IsInt C) (h : OffsetInv W C m)
    (hcw : ∀ s ∈ trace E m (ops.map Call.nav), s.contentWidth = C) :
    OffsetInv W C (run E m (ops.map Call.nav)) := by
  induction ops generalizing m with
  | nil => exact h
  | cons op ops ih =>
    have hcw2 : ∀ s ∈ trace E (op.apply E m) (ops.map Call.nav), s.contentWidth = C :=
      fun s hs => hcw s (by simp [trace, Call.apply, hs])
    exact ih (op.apply E m)
      (Nav_apply_OffsetInv E W C m op hW hC0 hC h (hcw2 _ (mem_trace_self E _ _))) hcw2

/-- Claim C7, amended. In every state reached from `New cols w h` followed by `SetRows rows`
by navigation operations alone, provided that the content width computed by the layout is the
same value `C` in every state passed through (`w` and `C` being values of Go's `int`), the
horizontal offset satisfies `offset ≤ max (contentWidth - viewportWidth) 0`. -/
theorem offset_bounded_under_navigation (E : Env) (cols : List Text) (w h : Int)
    (rows : List Row) (ops : List Nav) (C : Int) (hw : IsInt w) (hC : IsInt C)
    (hcw : ∀ s ∈ trace E (SetRows E (New E cols w h) rows) (ops.map Call.nav),
      s.contentWidth = C) :
    offsetBounded (run E (SetRows E (New E cols w h) rows) (ops.map Call.nav)) := by
  have hC0 : 0 ≤ C := by
    have := hcw _ (mem_trace_self E _ _)
    rw [SetRows, updateView_contentWidth] at this
    omega
  have h0 : OffsetInv w C (SetRows E (New E cols w h) rows) := by
    refine ⟨?_, hcw _ (mem_trace_self E _ _), ?_⟩
    · simp [SetRows, New, Viewport.New]
    · simp [SetRows, New]
  obtain ⟨h1, h2, h3⟩ := run_nav_OffsetInv E w C ops _ hw hC0 hC h0 hcw
  unfold offsetBounded
  rw [h1, h2]
  exact h3

/-- Claim C7, witness. The model of `TestModel_Movements` after four `GoRight`, a `GoDown`
and a `GoLeft`: the content width is 3 throughout. -/
theorem offset_bounded_under_navigation_witness :
    offsetBounded (run plainEnv (SetRows plainEnv (New plainEnv ["  #".toList] 0 4) digitRows)
      ([Nav.right, .right, .right, .right, .down, .left].map Call.nav)) :=
  offset_bounded_under_navigation plainEnv ["  #".toList] 0 4 digitRows
    [.right, .right, .right, .right, .down, .left] 3 (by decide) (by decide) (by decide)

/-- Claim C7, counterexample. Three states reached as the claim describes in which the offset
exceeds `max (contentWidth - viewportWidth) 0`; the viewport width is 0 at the start of each.
(1) With the header `#` and the one row `abcd` (content width 6), four `GoRight` give the
offset 4; `SetRows` with the row `a` then gives the content width 3.  (2) With the ten rows
of `TestModel_Movements` (content width 3), two `GoRight` give the offset 2; `SetSize 2 4`
then gives the viewport width 2.  (3) With a row that is wide only while selected above a
plain row (content width 8), eight `GoRight` give the offset 8; `GoDown` then gives the
content width 3. -/
theorem offset_exceeds_bound :
    ¬ offsetBounded (run plainEnv (New plainEnv ["#".toList] 0 4)
        [.setRows [prefixedRow ["abcd".toList]], .nav .right, .nav .right, .nav .right,
          .nav .right, .setRows [prefixedRow ["a".toList]]]) ∧
    ¬ offsetBounded (run plainEnv (New plainEnv ["  #".toList] 0 4)
        [.setRows digitRows, .nav .right, .nav .right, .setSize 2 4]) ∧
    ((run plainEnv (New plainEnv ["#".toList] 0 4)
        [.setRows [wideWhenSelected, prefixedRow ["1".toList]], .nav .right, .nav .right,
          .nav .right, .nav .right, .nav .right, .nav .right, .nav .right, .nav .right,
          .nav .down]).offset = 8 ∧
      (run plainEnv (New plainEnv ["#".toList] 0 4)
        [.setRows [wideWhenSelected, prefixedRow ["1".toList]], .nav .right, .nav .right,
          .nav .right, .nav .right, .nav .right, .nav .right, .nav .right, .nav .right,
          .nav .down]).contentWidth = 3 ∧
      ¬ offsetBounded (run plainEnv (New plainEnv ["#".toList] 0 4)
        [.setRows [wideWhenSelected, prefixedRow ["1".toList]], .nav .right, .nav .right,
          .nav .right, .nav .right, .nav .right, .nav .right, .nav .right, .nav .right,
          .nav .down])) := by
  decide

/-! ## Repeated horizontal scrolling -/

theorem GoRight_RightInv (E : Env) (m : Model) (W C : Int) (k : Nat) (mk : Model)
    (hW0 : 0 ≤ W) (hW : IsInt W) (hC : IsInt C)
    (hlay : ∀ m', sameLayoutInput m m' → (lipglossWidth E (layout E m') : Int) = C)
    (h : RightInv m W C k mk) : RightInv m W C (k + 1) (GoRight E mk) := by
  obtain ⟨⟨s1, s2, s3, s4⟩, h2, h3, h4⟩ := h
  have hC0 : 0 ≤ C := by
    have := hlay m ⟨rfl, rfl, rfl, rfl⟩
    omega
  have hnew : ((updateView E
      { mk with offset := (mk.offset + 1) % 18446744073709551616 }).contentWidth) = C := by
    rw [updateView_contentWidth]
    exact hlay _ ⟨s1, s2, s3, s4⟩
  unfold IsInt at hW hC
  unfold RightInv sameLayoutInput
  simp only [GoRight, Model.atRightBound, toUint, decide_eq_true_eq] at hnew ⊢
  split_ifs with hg
  · refine ⟨⟨s1, s2, s3, s4⟩, h2, h3, ?_⟩
    rw [h2, h3] at hg
    push_cast
    omega
  · simp only [updateView_Styles, updateView_cols, updateView_rows, updateView_cursor,
      updateView_Width, updateView_offset]
    refine ⟨⟨s1, s2, s3, s4⟩, h2, hnew, ?_⟩
    rw [h2, h3] at hg
    push_cast
    omega

theorem iterate_GoRight_RightInv (E : Env) (m : Model) (W C : Int) (k : Nat)
    (hW0 : 0 ≤ W) (hW : IsInt W) (hC : IsInt C) (hw : m.viewPort.Width = W)
    (ho : m.offset = 0) (hcw : m.contentWidth = C)
    (hlay : ∀ m', sameLayoutInput m m' → (lipglossWidth E (layout E m') : Int) = C) :
    RightInv m W C k ((GoRight E)^[k] m) := by
  induction k with
  | zero =>
    have hC0 : 0 ≤ C := by
      have := hlay m ⟨rfl, rfl, rfl, rfl⟩
      omega
    refine ⟨⟨rfl, rfl, rfl, rfl⟩, hw, hcw, ?_⟩
    simp only [Function.iterate_zero, id_eq, ho]
    push_cast
    omega
  | succ k ih =>
    rw [Function.iterate_succ_apply']
    exact GoRight_RightInv E m W C k _ hW0 hW hC hlay ih

/-- Claim C8, amended. For every state with a viewport width `W ≥ 0`, a surface of a height
of at least 0, the horizontal offset 0, the computed content width `C` and a fixed row set
whose layout has the content width `C` (the layout of its columns and rows at its cursor has
width `C` whatever the other fields of the model are; `W` and `C` are values of Go's `int`):
after `k` consecutive
`GoRight` calls the offset equals `min k (max (C - W) 0)`, the content width is still `C`,
`W + offset` does not exceed `C` when `C ≥ W`, and once `k` has reached the bound a further
`GoRight` leaves the state unchanged. -/
theorem GoRight_iterate (E : Env) (m : Model) (W C : Int) (k : Nat)
    (hW0 : 0 ≤ W) (hW : IsInt W) (hC : IsInt C) (hw : m.viewPort.Width = W)
    (ho : m.offset = 0) (hcw : m.contentWidth = C)
    (hlay : ∀ m', sameLayoutInput m m' → (lipglossWidth E (layout E m') : Int) = C)
    (_hH : 0 ≤ m.viewPort.Height) :
    (((GoRight E)^[k] m).offset : Int) = min (k : Int) (max (C - W) 0) ∧
      ((GoRight E)^[k] m).contentWidth = C ∧
      (W ≤ C → W + (((GoRight E)^[k] m).offset : Int) ≤ C) ∧
      (max (C - W) 0 ≤ (k : Int) → GoRight E ((GoRight E)^[k] m) = (GoRight E)^[k] m) := by
  obtain ⟨_, h2, h3, h4⟩ := iterate_GoRight_RightInv E m W C k hW0 hW hC hw ho hcw hlay
  have hC0 : 0 ≤ C := by
    have := hlay m ⟨rfl, rfl, rfl, rfl⟩
    omega
  refine ⟨h4, h3, fun _ => by omega, fun hk => ?_⟩
  unfold IsInt at hW hC
  have hg : ((GoRight E)^[k] m).atRightBound = true := by
    simp only [Model.atRightBound, toUint, decide_eq_true_eq, h2, h3]
    omega
  simp [GoRight, hg]

theorem movementsModel_layout (m' : Model) (h : sameLayoutInput movementsModel m') :
    (lipglossWidth plainEnv (layout plainEnv m') : Int) = 3 := by
  obtain ⟨h1, h2, h3, h4⟩ := h
  have hr : movementsModel.rows = digitRows := by
    simp [movementsModel, SetRows, digitRows]
  have hc : movementsModel.cursor = 0 := by
    simp [movementsModel, SetRows, New]
  have hcols : movementsModel.cols = ["  #".toList] := by
    simp [movementsModel, SetRows, New]
  have hs : movementsModel.Styles = uncoloredStyles := by
    simp [movementsModel, SetRows]
  have : layout plainEnv m' = layout plainEnv movementsModel := by
    simp only [layout, layoutInput, h1, h2, h3, hr]
    congr 2
    simp [digitRows, digitTexts, renderRows, prefixedRow, Model.snapshot, h4, hc]
  rw [this]
  decide

/-- Claim C8, witness. The model of `TestModel_Movements` (viewport width 0, content width 3)
after five `GoRight`. -/
theorem GoRight_iterate_witness :
    (((GoRight plainEnv)^[5] movementsModel).offset : Int) = min ((5 : Nat) : Int) (max (3 - 0) 0) ∧
      ((GoRight plainEnv)^[5] movementsModel).contentWidth = 3 ∧
      ((0 : Int) ≤ 3 → 0 + (((GoRight plainEnv)^[5] movementsModel).offset : Int) ≤ 3) ∧
      (max ((3 : Int) - 0) 0 ≤ ((5 : Nat) : Int) →
        GoRight plainEnv ((GoRight plainEnv)^[5] movementsModel)
          = (GoRight plainEnv)^[5] movementsModel) :=
  GoRight_iterate plainEnv movementsModel 0 3 5 (by decide) (by decide) (by decide) (by decide)
    (by decide) (by decide) movementsModel_layout (by decide)

/-- Claim C8, counterexample. In the state `New cols 0 4`, before any layout, the computed
content width is still 0 while the layout of the header has the width 3: with the viewport
width 0 and the offset 0 the guard of `GoRight` holds, and `GoRight` leaves the offset at 0,
not at `min 1 (max (3 - 0) 0) = 1`. -/
theorem GoRight_before_first_layout :
    (New plainEnv ["  #".toList] 0 4).viewPort.Width = 0 ∧
      (New plainEnv ["  #".toList] 0 4).offset = 0 ∧
      0 ≤ (New plainEnv ["  #".toList] 0 4).viewPort.Height ∧
      lipglossWidth plainEnv (layout plainEnv (New plainEnv ["  #".toList] 0 4)) = 3 ∧
      (New plainEnv ["  #".toList] 0 4).contentWidth = 0 ∧
      ((GoRight plainEnv)^[1] (New plainEnv ["  #".toList] 0 4)).offset = 0 ∧
      ¬ (((GoRight plainEnv)^[1] (New plainEnv ["  #".toList] 0 4)).offset : Int)
          = min ((1 : Nat) : Int) (max (3 - 0) 0) := by
  decide

/-! ## The bounds of navigation and the page moves -/

/-- For machine values with a non-negative content width and a sum `Width + offset` that
does not wrap around, the guard of `GoRight` is the inequality
`viewportWidth + offset ≥ contentWidth`. -/
theorem atRightBound_iff (m : Model) (hW : IsInt m.viewPort.Width) (hC : IsInt m.contentWidth)
    (hC0 : 0 ≤ m.contentWidth) (hsum0 : 0 ≤ m.viewPort.Width + m.offset)
    (hsum : m.viewPort.Width + m.offset < 18446744073709551616) :
    m.atRightBound = true ↔ m.contentWidth ≤ m.viewPort.Width + m.offset := by
  unfold IsInt at hW hC
  simp only [Model.atRightBound, toUint, decide_eq_true_eq]
  omega

/-- Claim C9. For every model: `GoUp`, `GoPageUp` and `GoTop` called with cursor 0; `GoDown`,
`GoPageDown` and `GoBottom` called with cursor `len(rows) - 1`; `GoLeft` called with offset
0; and `GoRight` called at its bound (its guard `uint(Width) + offset ≥ uint(contentWidth)`
holds, which for machine values without wrap-around is
`viewportWidth + offset ≥ contentWidth`) each return the model unchanged, every field
included, so `View()` is unchanged. -/
theorem navigation_at_bound (E : Env) (m : Model) :
    (m.cursor = 0 →
      (GoUp E m = m ∧ View E (GoUp E m) = View E m) ∧
      (GoPageUp E m = m ∧ View E (GoPageUp E m) = View E m) ∧
      (GoTop E m = m ∧ View E (GoTop E m) = View E m)) ∧
    (m.cursor = (m.rows.length : Int) - 1 →
      (GoDown E m = m ∧ View E (GoDown E m) = View E m) ∧
      (GoPageDown E m = m ∧ View E (GoPageDown E m) = View E m) ∧
      (GoBottom E m = m ∧ View E (GoBottom E m) = View E m)) ∧
    (m.offset = 0 → GoLeft E m = m ∧ View E (GoLeft E m) = View E m) ∧
    (m.atRightBound = true → GoRight E m = m ∧ View E (GoRight E m) = View E m) ∧
    (IsInt m.viewPort.Width → IsInt m.contentWidth → 0 ≤ m.contentWidth →
      m.viewPort.Width + m.offset < 18446744073709551616 →
      m.contentWidth ≤ m.viewPort.Width + m.offset →
      GoRight E m = m ∧ View E (GoRight E m) = View E m) := by
  refine ⟨fun h => ?_, fun h => ?_, fun h => ?_, fun h => ?_, fun hW hC hC0 hsum hle => ?_⟩
  · simp [GoUp, GoPageUp, GoTop, Model.CursorIsAtTop, h]
  · simp [GoDown, GoPageDown, GoBottom, Model.CursorIsAtBottom, h]
  · simp [GoLeft, h]
  · simp [GoRight, h]
  · have hg : m.atRightBound = true :=
      (atRightBound_iff m hW hC hC0 (by omega) hsum).2 hle
    simp [GoRight, hg]

/-- Claim C9, witness. In the state with one row and a viewport wider than the content, the
cursor is at the top and at the bottom, the offset is 0 and the right bound is met, and none
of the eight operations changes the state. -/
theorem navigation_at_bound_witness :
    (oneRowModel.cursor = 0 ∧ oneRowModel.cursor = (oneRowModel.rows.length : Int) - 1 ∧
      oneRowModel.offset = 0 ∧ oneRowModel.atRightBound = true) ∧
    (GoUp plainEnv oneRowModel = oneRowModel ∧ GoPageUp plainEnv oneRowModel = oneRowModel ∧
      GoTop plainEnv oneRowModel = oneRowModel ∧ GoDown plainEnv oneRowModel = oneRowModel ∧
      GoPageDown plainEnv oneRowModel = oneRowModel ∧
      GoBottom plainEnv oneRowModel = oneRowModel ∧
      GoLeft plainEnv oneRowModel = oneRowModel ∧ GoRight plainEnv oneRowModel = oneRowModel ∧
      View plainEnv (GoRight plainEnv oneRowModel) = View plainEnv oneRowModel) :=
  ⟨by decide,
    (((navigation_at_bound plainEnv oneRowModel).1 (by decide)).1).1,
    (((navigation_at_bound plainEnv oneRowModel).1 (by decide)).2.1).1,
    (((navigation_at_bound plainEnv oneRowModel).1 (by decide)).2.2).1,
    (((navigation_at_bound plainEnv oneRowModel).2.1 (by decide)).1).1,
    (((navigation_at_bound plainEnv oneRowModel).2.1 (by decide)).2.1).1,
    (((navigation_at_bound plainEnv oneRowModel).2.1 (by decide)).2.2).1,
    ((navigation_at_bound plainEnv oneRowModel).2.2.1 (by decide)).1,
    ((navigation_at_bound plainEnv oneRowModel).2.2.2.1 (by decide)).1,
    ((navigation_at_bound plainEnv oneRowModel).2.2.2.2 (by decide) (by decide) (by decide)
      (by decide) (by decide)).2⟩

/-- Claim C10, amended. For every state with non-empty rows, `0 ≤ cursor < len(rows)`, a
visible height `H ≥ 0` and the cursor inside the visible window: `GoPageDown` sets the cursor to
`min (cursor + H) (len(rows) - 1)` and `GoPageUp` sets it to `max (cursor - H) 0`; and when
neither the cursor nor the top offset is clamped (the cursor's target is a row; the target
of the top offset, `YOffset ± H`, lies between 0 and the largest top offset of the content
the surface then holds; and, for `GoPageUp`, the old top offset points at a line of that
content, so that `SetContent` does not move it), the top offset moves by the same `H`, so
`cursor - YOffset` is preserved.  The height is taken in the range in which Go's sum
`cursor + H` does not wrap: `len(rows) + H` is a value of `int`. -/
theorem page_moves (E : Env) (m : Model) (hrows : m.rows ≠ []) (hc0 : 0 ≤ m.cursor)
    (hc1 : m.cursor < m.rows.length) (hH : 0 ≤ m.viewPort.Height)
    (hwin : m.viewPort.YOffset ≤ m.cursor ∧
      m.cursor ≤ m.viewPort.YOffset + m.viewPort.Height - 1)
    (hrange : (m.rows.length : Int) + m.viewPort.Height ≤ 9223372036854775807) :
    (GoPageDown E m).Cursor = min (m.cursor + m.viewPort.Height) ((m.rows.length : Int) - 1) ∧
    (GoPageUp E m).Cursor = max (m.cursor - m.viewPort.Height) 0 ∧
    (m.cursor + m.viewPort.Height ≤ (m.rows.length : Int) - 1 →
      0 ≤ m.viewPort.YOffset + m.viewPort.Height →
      m.viewPort.YOffset + m.viewPort.Height ≤ (GoPageDown E m).viewPort.maxYOffset →
      (GoPageDown E m).viewPort.YOffset = m.viewPort.YOffset + m.viewPort.Height ∧
        (GoPageDown E m).Cursor - (GoPageDown E m).viewPort.YOffset
          = m.cursor - m.viewPort.YOffset) ∧
    (0 ≤ m.cursor - m.viewPort.Height →
      m.viewPort.YOffset ≤ ((GoPageUp E m).viewPort.lines.length : Int) - 1 →
      0 ≤ m.viewPort.YOffset - m.viewPort.Height →
      m.viewPort.YOffset - m.viewPort.Height ≤ (GoPageUp E m).viewPort.maxYOffset →
      (GoPageUp E m).viewPort.YOffset = m.viewPort.YOffset - m.viewPort.Height ∧
        (GoPageUp E m).Cursor - (GoPageUp E m).viewPort.YOffset
          = m.cursor - m.viewPort.YOffset) := by
  have hpos : 0 < m.rows.length := List.length_pos.2 hrows
  obtain ⟨hw1, hw2⟩ := hwin
  have hw : wrapInt (m.cursor + m.viewPort.Height) = m.cursor + m.viewPort.Height :=
    wrapInt_eq _ (by omega) (by omega)
  have hYd0 := updateView_YOffset E { m with cursor := (m.rows.length : Int) - 1 }
  have hYd1 := updateView_YOffset E { m with cursor := m.cursor + m.viewPort.Height }
  have hYu0 := updateView_YOffset E { m with cursor := 0 }
  have hYu1 := updateView_YOffset E { m with cursor := m.cursor - m.viewPort.Height }
  refine ⟨?_, ?_, ?_, ?_⟩
  · simp only [GoPageDown, Model.Cursor, Model.CursorIsAtBottom, Model.CursorIsPastBottom,
      decide_eq_true_eq, hw]
    split_ifs <;> (try simp only [updateView_cursor]) <;> omega
  · simp only [GoPageUp, Model.Cursor, Model.CursorIsAtTop, decide_eq_true_eq]
    split_ifs <;> (try simp only [updateView_cursor]) <;> omega
  · intro h1 h3 h4
    simp only [GoPageDown, Model.Cursor, Model.CursorIsAtBottom, Model.CursorIsPastBottom,
      Viewport.maxYOffset, decide_eq_true_eq, hw] at h4 ⊢
    split_ifs at h4 ⊢ <;>
      simp only [updateView_cursor, updateView_Height, Viewport.ViewDown_Height,
        Viewport.ViewDown_lines, Viewport.ViewDown_YOffset] at * <;>
      (try split_ifs) <;> omega
  · intro h1 h2 h3 h4
    simp only [GoPageUp, Model.Cursor, Model.CursorIsAtTop, Viewport.maxYOffset,
      decide_eq_true_eq] at h2 h4 ⊢
    split_ifs at h2 h4 ⊢ <;>
      simp only [updateView_cursor, updateView_Height, Viewport.ViewUp_Height,
        Viewport.ViewUp_lines, Viewport.ViewUp_YOffset] at * <;>
      (try split_ifs) <;> omega

/-- Claim C10, witness. Ten rows under a window of three lines: from cursor 0 a page down
gives cursor 3 and shows the rows 3, 4, 5; from cursor 9 (top offset 7) a page up gives
cursor 6 and shows the rows 4, 5, 6. -/
theorem page_moves_witness :
    ((GoPageDown plainEnv movementsModel).Cursor
        = min (movementsModel.cursor + movementsModel.viewPort.Height)
            ((movementsModel.rows.length : Int) - 1) ∧
      (GoPageDown plainEnv movementsModel).viewPort.YOffset
        = movementsModel.viewPort.YOffset + movementsModel.viewPort.Height ∧
      (GoPageUp plainEnv bottomModel).Cursor
        = max (bottomModel.cursor - bottomModel.viewPort.Height) 0 ∧
      (GoPageUp plainEnv bottomModel).viewPort.YOffset
        = bottomModel.viewPort.YOffset - bottomModel.viewPort.Height) ∧
    ((GoPageDown plainEnv movementsModel).Cursor = 3 ∧
      (GoPageDown plainEnv movementsModel).viewPort.visibleLines
        = ["> 3".toList, "  4".toList, "  5".toList] ∧
      bottomModel.cursor = 9 ∧ (GoPageUp plainEnv bottomModel).Cursor = 6 ∧
      (GoPageUp plainEnv bottomModel).viewPort.visibleLines
        = ["  4".toList, "  5".toList, "> 6".toList]) :=
  ⟨⟨(page_moves plainEnv movementsModel (List.length_pos.1 (by decide))
        (by decide) (by decide) (by decide) (by decide) (by decide)).1,
      ((page_moves plainEnv movementsModel (List.length_pos.1 (by decide))
        (by decide) (by decide) (by decide) (by decide) (by decide)).2.2.1
          (by decide) (by decide) (by decide)).1,
      (page_moves plainEnv bottomModel (List.length_pos.1 (by decide))
        (by decide) (by decide) (by decide) (by decide) (by decide)).2.1,
      ((page_moves plainEnv bottomModel (List.length_pos.1 (by decide))
        (by decide) (by decide) (by decide) (by decide) (by decide)).2.2.2
          (by decide) (by decide) (by decide) (by decide)).1⟩,
    by decide⟩

/-- Claim C10, counterexample. In `tallModel` (four rows, cursor 2, top offset 0, a surface
of the height `2 ^ 63 - 2`, which holds the cursor in its window) the sum `cursor + H` is
`2 ^ 63` and wraps to the least value of `int`: `GoPageDown` leaves that value in the
cursor, not `min (cursor + H) (len(rows) - 1) = 3`. -/
theorem page_down_wraps :
    (0 < tallModel.rows.length ∧ 0 ≤ tallModel.cursor ∧
      tallModel.cursor < tallModel.rows.length ∧ 0 ≤ tallModel.viewPort.Height ∧
      tallModel.viewPort.YOffset ≤ tallModel.cursor ∧
      tallModel.cursor ≤ tallModel.viewPort.YOffset + tallModel.viewPort.Height - 1) ∧
    min (tallModel.cursor + tallModel.viewPort.Height) ((tallModel.rows.length : Int) - 1) = 3 ∧
    (GoPageDown plainEnv tallModel).Cursor = -9223372036854775808 ∧
    ¬ (GoPageDown plainEnv tallModel).Cursor
        = min (tallModel.cursor + tallModel.viewPort.Height)
            ((tallModel.rows.length : Int) - 1) := by
  decide

/-! ## Agreement with the package's tests -/

/-- The embedding reproduces the expectations of `TestModel_Movements`: the initial view,
and the views after the moves of its sub-tests `up`, `down`, `pgdown`, `pgup`, `home` and
`end`. -/
theorem test_movements :
    shown movementsModel = ["  #".toList, "> 0".toList, "  1".toList, "  2".toList] ∧
    shown (navigate plainEnv movementsModel [.top, .up])
      = ["  #".toList, "> 0".toList, "  1".toList, "  2".toList] ∧
    shown (navigate plainEnv movementsModel [.bottom, .up])
      = ["  #".toList, "  7".toList, "> 8".toList, "  9".toList] ∧
    shown (navigate plainEnv movementsModel [.top, .pageDown, .up])
      = ["  #".toList, "> 2".toList, "  3".toList, "  4".toList] ∧
    shown (navigate plainEnv movementsModel [.top, .down])
      = ["  #".toList, "  0".toList, "> 1".toList, "  2".toList] ∧
    shown (navigate plainEnv movementsModel [.bottom, .down])
      = ["  #".toList, "  7".toList, "  8".toList, "> 9".toList] ∧
    shown (navigate plainEnv movementsModel [.bottom, .pageUp, .down])
      = ["  #".toList, "  5".toList, "  6".toList, "> 7".toList] ∧
    shown (navigate plainEnv movementsModel [.top, .pageDown])
      = ["  #".toList, "> 3".toList, "  4".toList, "  5".toList] ∧
    shown (navigate plainEnv movementsModel [.bottom, .pageDown, .up, .pageDown])
      = ["  #".toList, "  7".toList, "  8".toList, "> 9".toList] ∧
    shown (navigate plainEnv movementsModel [.top, .pageUp, .down, .pageUp])
      = ["  #".toList, "> 0".toList, "  1".toList, "  2".toList] ∧
    shown (navigate plainEnv movementsModel [.bottom, .pageUp])
      = ["  #".toList, "  4".toList, "  5".toList, "> 6".toList] := by
  decide

/-- The embedding reproduces the last expectation of `TestModel_SetSize`: ten rows `item 0`
to `item 9`, resized to height 5, moved to the bottom and resized to height 3, show the rows
6 and 7 with the cursor on row 7. -/
theorem test_set_size :
    (run plainEnv (SetRows plainEnv { New plainEnv ["  #".toList] 0 4 with Styles := uncoloredStyles }
        (digitTexts.map fun d => prefixedRow ["item ".toList ++ d]))
      [.setSize 4 5, .nav .bottom, .setSize 0 3]).cursor = 7 ∧
    (run plainEnv (SetRows plainEnv { New plainEnv ["  #".toList] 0 4 with Styles := uncoloredStyles }
        (digitTexts.map fun d => prefixedRow ["item ".toList ++ d]))
      [.setSize 4 5, .nav .bottom, .setSize 0 3]).viewPort.visibleLines
      = ["  item 6".toList, "> item 7".toList] := by
  decide

/-! ## One-line moves -/

/-- Claim C11, amended. For every state with non-empty rows, `0 ≤ cursor < len(rows)`, a
visible height `H ≥ 1`, `YOffset ≤ cursor ≤ YOffset + H - 1` and a top offset that is not
negative: `GoDown` with `cursor < len(rows) - 1` sets the cursor to `cursor + 1` and
`GoUp` with `cursor > 0` sets it to `cursor - 1`; and when the surface holds exactly one line
per row after the move, `GoDown` sets the top offset to `YOffset + 1` if the cursor was on
the last visible line and leaves it unchanged otherwise, and `GoUp`, when moreover the
surface was not scrolled past its bottom (`YOffset ≤ max (len(rows) - H) 0`), sets the top
offset to `YOffset - 1` if the cursor was on the first visible line and leaves it unchanged
otherwise. -/
theorem line_moves (E : Env) (m : Model) (_hrows : m.rows ≠ []) (_hc0 : 0 ≤ m.cursor)
    (hc1 : m.cursor < m.rows.length) (hH : 1 ≤ m.viewPort.Height)
    (hwin : m.viewPort.YOffset ≤ m.cursor ∧
      m.cursor ≤ m.viewPort.YOffset + m.viewPort.Height - 1)
    (hY0 : 0 ≤ m.viewPort.YOffset) :
    (m.cursor < (m.rows.length : Int) - 1 →
      (GoDown E m).Cursor = m.cursor + 1 ∧
      ((GoDown E m).viewPort.lines.length = m.rows.length →
        (GoDown E m).viewPort.YOffset
          = if m.cursor = m.viewPort.YOffset + m.viewPort.Height - 1
            then m.viewPort.YOffset + 1 else m.viewPort.YOffset)) ∧
    (0 < m.cursor →
      (GoUp E m).Cursor = m.cursor - 1 ∧
      ((GoUp E m).viewPort.lines.length = m.rows.length →
        m.viewPort.YOffset ≤ max ((m.rows.length : Int) - m.viewPort.Height) 0 →
        (GoUp E m).viewPort.YOffset
          = if m.cursor = m.viewPort.YOffset
            then m.viewPort.YOffset - 1 else m.viewPort.YOffset)) := by
  obtain ⟨hw1, hw2⟩ := hwin
  have hYd := updateView_YOffset E { m with cursor := m.cursor + 1 }
  have hYu := updateView_YOffset E { m with cursor := m.cursor - 1 }
  refine ⟨fun hlt => ⟨?_, fun hl => ?_⟩, fun hgt => ⟨?_, fun hl hmax => ?_⟩⟩
  · simp only [GoDown, Model.Cursor, Model.CursorIsAtBottom, decide_eq_true_eq]
    split_ifs <;> (try simp only [updateView_cursor]) <;> omega
  · simp only [GoDown, Model.CursorIsAtBottom, decide_eq_true_eq] at hl ⊢
    split_ifs at hl ⊢ <;>
      simp only [updateView_cursor, updateView_Height, Viewport.LineDown_Height,
        Viewport.LineDown_lines, Viewport.LineDown_one_YOffset] at * <;>
      omega
  · simp only [GoUp, Model.Cursor, Model.CursorIsAtTop, decide_eq_true_eq]
    split_ifs <;> (try simp only [updateView_cursor]) <;> omega
  · simp only [GoUp, Model.CursorIsAtTop, decide_eq_true_eq] at hl ⊢
    split_ifs at hl ⊢ <;>
      simp only [updateView_cursor, updateView_Height, Viewport.LineUp_Height,
        Viewport.LineUp_lines, Viewport.LineUp_one_YOffset] at * <;>
      omega

/-- Claim C11, witness. Ten rows under a window of three lines: from row 2, the last line of
the window 0..2, `GoDown` gives cursor 3 and top offset 1; from row 3, the first line of the
window 3..5, `GoUp` gives cursor 2 and top offset 2. -/
theorem line_moves_witness :
    ((GoDown plainEnv lastLineModel).Cursor = lastLineModel.cursor + 1 ∧
      (GoDown plainEnv lastLineModel).viewPort.YOffset
        = if lastLineModel.cursor
              = lastLineModel.viewPort.YOffset + lastLineModel.viewPort.Height - 1
          then lastLineModel.viewPort.YOffset + 1 else lastLineModel.viewPort.YOffset) ∧
    ((GoUp plainEnv firstLineModel).Cursor = firstLineModel.cursor - 1 ∧
      (GoUp plainEnv firstLineModel).viewPort.YOffset
        = if firstLineModel.cursor = firstLineModel.viewPort.YOffset
          then firstLineModel.viewPort.YOffset - 1 else firstLineModel.viewPort.YOffset) ∧
    ((GoDown plainEnv lastLineModel).cursor = 3 ∧
      (GoDown plainEnv lastLineModel).viewPort.YOffset = 1 ∧
      (GoUp plainEnv firstLineModel).cursor = 2 ∧
      (GoUp plainEnv firstLineModel).viewPort.YOffset = 2) :=
  ⟨⟨((line_moves plainEnv lastLineModel (List.length_pos.1 (by decide)) (by decide) (by decide)
        (by decide) (by decide) (by decide)).1 (by decide)).1,
      ((line_moves plainEnv lastLineModel (List.length_pos.1 (by decide)) (by decide) (by decide)
        (by decide) (by decide) (by decide)).1 (by decide)).2 (by decide)⟩,
    ⟨((line_moves plainEnv firstLineModel (List.length_pos.1 (by decide)) (by decide) (by decide)
        (by decide) (by decide) (by decide)).2 (by decide)).1,
      ((line_moves plainEnv firstLineModel (List.length_pos.1 (by decide)) (by decide)
        (by decide) (by decide) (by decide) (by decide)).2 (by decide)).2 (by decide)
        (by decide)⟩,
    by decide⟩

/-- Claim C11, counterexample. Two states within the claim's hypotheses in which the surface
does not scroll by one line.  (1) In `blankedModel` the cursor is on row 2, the last line of
the window 0..2, but the surface holds a single blank line: `GoDown` moves the cursor to row
3 and leaves the top offset at 0.  (2) In `pastBottomModel` the cursor is on row 7, the first
line of the window 7..14, which reaches past the ten lines of the content: `GoUp` moves the
cursor to row 6 and the surface jumps to its largest top offset, 2. -/
theorem line_move_without_line_scroll :
    (0 < blankedModel.rows.length ∧ 0 ≤ blankedModel.cursor ∧
      blankedModel.cursor < blankedModel.rows.length ∧ 1 ≤ blankedModel.viewPort.Height ∧
      blankedModel.viewPort.YOffset ≤ blankedModel.cursor ∧
      blankedModel.cursor = blankedModel.viewPort.YOffset + blankedModel.viewPort.Height - 1 ∧
      blankedModel.cursor < (blankedModel.rows.length : Int) - 1 ∧
      (GoDown plainEnv blankedModel).cursor = 3 ∧
      blankedModel.viewPort.YOffset = 0 ∧
      (GoDown plainEnv blankedModel).viewPort.YOffset = 0 ∧
      ¬ (GoDown plainEnv blankedModel).viewPort.YOffset = blankedModel.viewPort.YOffset + 1) ∧
    (0 < pastBottomModel.rows.length ∧ 0 ≤ pastBottomModel.cursor ∧
      pastBottomModel.cursor < pastBottomModel.rows.length ∧
      1 ≤ pastBottomModel.viewPort.Height ∧
      pastBottomModel.cursor = pastBottomModel.viewPort.YOffset ∧
      pastBottomModel.cursor
        ≤ pastBottomModel.viewPort.YOffset + pastBottomModel.viewPort.Height - 1 ∧
      0 < pastBottomModel.cursor ∧
      (GoUp plainEnv pastBottomModel).cursor = 6 ∧
      pastBottomModel.viewPort.YOffset = 7 ∧
      (GoUp plainEnv pastBottomModel).viewPort.YOffset = 2 ∧
      ¬ (GoUp plainEnv pastBottomModel).viewPort.YOffset
          = pastBottomModel.viewPort.YOffset - 1) := by
  decide

/-! ## Jumps to the top and the bottom -/

theorem updateView_YOffset_nonneg (E : Env) (m : Model) (h : 0 ≤ m.viewPort.YOffset) :
    0 ≤ (updateView E m).viewPort.YOffset := by
  rcases updateView_YOffset E m with h1 | ⟨_, h1⟩ <;> omega

theorem Nav_apply_YOffset_nonneg (E : Env) (m : Model) (op : Nav)
    (h : 0 ≤ m.viewPort.YOffset) : 0 ≤ (op.apply E m).viewPort.YOffset := by
  have hu := fun m1 : Model => updateView_YOffset_nonneg E m1
  cases op <;>
    simp only [Nav.apply, GoUp, GoDown, GoPageUp, GoPageDown, GoTop, GoBottom, GoLeft, GoRight] <;>
    split_ifs <;>
    (try simp only [Viewport.LineUp_one_YOffset, Viewport.LineDown_one_YOffset,
      Viewport.ViewUp_YOffset, Viewport.ViewDown_YOffset, Viewport.GotoTop_YOffset,
      Viewport.GotoBottom_YOffset]) <;>
    (try split_ifs) <;>
    first
      | exact h
      | exact hu _ h
      | omega

/-- The top offset of the surface is never negative: it is 0 after `New` and every call
keeps it at 0 or above. -/
theorem run_YOffset_nonneg (E : Env) (cols : List Text) (w h : Int) (calls : List Call) :
    0 ≤ (run E (New E cols w h) calls).viewPort.YOffset := by
  have step : ∀ (c : Call) (m : Model), 0 ≤ m.viewPort.YOffset →
      0 ≤ (c.apply E m).viewPort.YOffset := by
    intro c m hm
    cases c with
    | nav op => exact Nav_apply_YOffset_nonneg E m op hm
    | setSize width height =>
      simp only [Call.apply, SetSize]
      split_ifs
      · exact updateView_YOffset_nonneg E _ hm
      · exact hm
    | setRows rows => exact updateView_YOffset_nonneg E _ hm
  have gen : ∀ (calls : List Call) (m : Model), 0 ≤ m.viewPort.YOffset →
      0 ≤ (run E m calls).viewPort.YOffset := by
    intro calls
    induction calls with
    | nil => intro m hm; exact hm
    | cons c calls ih => intro m hm; exact ih _ (step c m hm)
  exact gen calls _ (le_refl _)

/-- Claim C12, amended. For every state with non-empty rows, a surface of a height of at
least 0 and whatever the cursor's value, `GoTop` yields `Cursor() = 0` and `GoBottom` yields
`Cursor() = len(rows) - 1`; when the cursor moves, the surface is at its top (top offset 0,
the top offset being non-negative before, as it is in every state the package reaches)
respectively at its bottom (the largest top offset of its content), where the slice of the
visible lines is in range; and each operation applied twice gives the state it gives applied
once.  (Under a negative height the jump to the bottom makes the program panic.) -/
theorem top_and_bottom (E : Env) (m : Model) (_hrows : m.rows ≠ [])
    (hY0 : 0 ≤ m.viewPort.YOffset) (hH : 0 ≤ m.viewPort.Height) :
    (GoTop E m).Cursor = 0 ∧
    (GoBottom E m).Cursor = (m.rows.length : Int) - 1 ∧
    (m.cursor ≠ 0 → (GoTop E m).viewPort.YOffset = 0) ∧
    (m.cursor ≠ (m.rows.length : Int) - 1 →
      (GoBottom E m).viewPort.YOffset = (GoBottom E m).viewPort.maxYOffset ∧
        (GoBottom E m).viewPort.sliceInRange = true) ∧
    GoTop E (GoTop E m) = GoTop E m ∧
    GoBottom E (GoBottom E m) = GoBottom E m := by
  have hu := updateView_YOffset_nonneg E { m with cursor := 0 } hY0
  have hc1 : (GoTop E m).cursor = 0 := by
    simp only [GoTop, Model.CursorIsAtTop, decide_eq_true_eq]
    split_ifs with h
    · exact h
    · simp only [updateView_cursor]
  have hc2 : (GoBottom E m).cursor = (m.rows.length : Int) - 1 := by
    simp only [GoBottom, Model.CursorIsAtBottom, decide_eq_true_eq]
    split_ifs with h
    · exact h
    · simp only [updateView_cursor]
  have hr2 : (GoBottom E m).rows = m.rows := by
    simp only [GoBottom]
    split_ifs
    · rfl
    · simp only [updateView_rows]
  refine ⟨hc1, hc2, fun h => ?_, fun h => ?_, ?_, ?_⟩
  · simp only [GoTop, Model.CursorIsAtTop, decide_eq_true_eq, h, if_false,
      Viewport.GotoTop_YOffset]
    split_ifs <;> omega
  · have hHb : (GoBottom E m).viewPort.Height = m.viewPort.Height := by
      simp only [GoBottom, Model.CursorIsAtBottom, decide_eq_true_eq, h, if_false,
        Viewport.GotoBottom_Height, updateView_Height]
    have hYb : (GoBottom E m).viewPort.YOffset = (GoBottom E m).viewPort.maxYOffset := by
      simp only [GoBottom, Model.CursorIsAtBottom, decide_eq_true_eq, h, if_false,
        Viewport.GotoBottom_YOffset, Viewport.maxYOffset, Viewport.GotoBottom_lines,
        Viewport.GotoBottom_Height]
    refine ⟨hYb, ?_⟩
    simp only [Viewport.sliceInRange, decide_eq_true_eq, hYb, Viewport.maxYOffset,
      Viewport.clamp, hHb]
    omega
  · rw [GoTop.eq_1 E (GoTop E m)]
    simp [Model.CursorIsAtTop, hc1]
  · rw [GoBottom.eq_1 E (GoBottom E m)]
    simp [Model.CursorIsAtBottom, hc2, hr2]

/-! ## Resizing -/

/-- Claim C12, witness. In the model of `TestModel_Movements` at the bottom (cursor 9, top
offset 7) `GoTop` gives cursor 0 and top offset 0; in that model at the top, `GoBottom` gives
cursor 9 and top offset 7; and from a cursor left on 9 by a `SetRows` with three rows,
`GoTop` gives cursor 0 and `GoBottom` gives cursor 2. -/
theorem top_and_bottom_witness :
    ((bottomModel.cursor = 9 ∧ bottomModel.viewPort.YOffset = 7) ∧
      (GoTop plainEnv bottomModel).Cursor = 0 ∧
      (GoTop plainEnv bottomModel).viewPort.YOffset = 0 ∧
      GoTop plainEnv (GoTop plainEnv bottomModel) = GoTop plainEnv bottomModel) ∧
    ((movementsModel.cursor = 0 ∧ movementsModel.viewPort.YOffset = 0) ∧
      (GoBottom plainEnv movementsModel).Cursor = (movementsModel.rows.length : Int) - 1 ∧
      ((GoBottom plainEnv movementsModel).viewPort.YOffset
          = (GoBottom plainEnv movementsModel).viewPort.maxYOffset ∧
        (GoBottom plainEnv movementsModel).viewPort.sliceInRange = true) ∧
      (GoBottom plainEnv movementsModel).viewPort.YOffset = 7 ∧
      GoBottom plainEnv (GoBottom plainEnv movementsModel)
        = GoBottom plainEnv movementsModel) ∧
    ((shrunkModel.cursor = 9 ∧ shrunkModel.rows.length = 3) ∧
      (GoTop plainEnv shrunkModel).Cursor = 0 ∧
      (GoBottom plainEnv shrunkModel).Cursor = (shrunkModel.rows.length : Int) - 1) :=
  ⟨⟨by decide,
      (top_and_bottom plainEnv bottomModel (List.length_pos.1 (by decide)) (by decide)
        (by decide)).1,
      (top_and_bottom plainEnv bottomModel (List.length_pos.1 (by decide)) (by decide)
        (by decide)).2.2.1 (by decide),
      (top_and_bottom plainEnv bottomModel (List.length_pos.1 (by decide)) (by decide)
        (by decide)).2.2.2.2.1⟩,
    ⟨by decide,
      (top_and_bottom plainEnv movementsModel (List.length_pos.1 (by decide)) (by decide)
        (by decide)).2.1,
      (top_and_bottom plainEnv movementsModel (List.length_pos.1 (by decide)) (by decide)
        (by decide)).2.2.2.1 (by decide),
      by decide,
      (top_and_bottom plainEnv movementsModel (List.length_pos.1 (by decide)) (by decide)
        (by decide)).2.2.2.2.2⟩,
    ⟨by decide,
      (top_and_bottom plainEnv shrunkModel (List.length_pos.1 (by decide)) (by decide)
        (by decide)).1,
      (top_and_bottom plainEnv shrunkModel (List.length_pos.1 (by decide)) (by decide)
        (by decide)).2.1⟩⟩

/-- Claim C12, counterexample. The model of `TestModel_Movements` after `SetSize 0 0` has
ten rows and a surface of the height -1.  `GoBottom` moves the cursor to row 9 and sends the
surface to its bottom, which under a negative height is the top offset 11, beyond the ten
lines of the content: the slice of the visible lines is out of range, and the program
panics instead of yielding a state. -/
theorem GoBottom_slice_out_of_range :
    (SetSize plainEnv movementsModel 0 0).rows.length = 10 ∧
      (SetSize plainEnv movementsModel 0 0).viewPort.Height = -1 ∧
      0 ≤ (SetSize plainEnv movementsModel 0 0).viewPort.YOffset ∧
      (GoBottom plainEnv (SetSize plainEnv movementsModel 0 0)).viewPort.YOffset = 11 ∧
      (GoBottom plainEnv (SetSize plainEnv movementsModel 0 0)).viewPort.lines.length = 10 ∧
      (GoBottom plainEnv (SetSize plainEnv movementsModel 0 0)).viewPort.sliceInRange
        = false := by
  decide

/-- Claim C13, amended. For every state and all integers `width` and `height ≥ 1`, the height
and the sum `YOffset + height` being values of Go's `int`: after `SetSize width height` the
surface has
the width `width` and the height `height - 1`, and the cursor equals
`min oldCursor (YOffset + (height - 1) - 1)`; the top offset is unchanged when the cursor is
not clamped, and also when the old top offset still points at a line of the content the
surface holds after the call.  (For `height ≤ 0` the surface gets a negative height, under
which a move to the bottom of the content makes the program panic.) -/
theorem SetSize_effect (E : Env) (m : Model) (width height : Int) (hh : 1 ≤ height)
    (hhi : height ≤ 9223372036854775807)
    (_hrange : m.viewPort.YOffset + height ≤ 9223372036854775807) :
    (SetSize E m width height).viewPort.Width = width ∧
    (SetSize E m width height).viewPort.Height = height - 1 ∧
    (SetSize E m width height).Cursor
      = min m.cursor (m.viewPort.YOffset + (height - 1) - 1) ∧
    (m.cursor ≤ m.viewPort.YOffset + (height - 1) - 1 →
      (SetSize E m width height).viewPort.YOffset = m.viewPort.YOffset) ∧
    (m.viewPort.YOffset ≤ ((SetSize E m width height).viewPort.lines.length : Int) - 1 →
      (SetSize E m width height).viewPort.YOffset = m.viewPort.YOffset) := by
  have hY := updateView_YOffset E
    { m with
      viewPort := { m.viewPort with Width := width, Height := height - 1 }
      cursor := m.viewPort.YOffset + (height - 1) - 1 }
  have hw := wrapInt_eq (height - 1) (by omega) (by omega)
  simp only [SetSize, Model.Cursor, hw]
  split_ifs with hc
  · simp only [updateView_Width, updateView_Height, updateView_cursor] at hY ⊢
    refine ⟨trivial, trivial, by omega, fun h => by omega, fun h => by omega⟩
  · refine ⟨rfl, rfl, ?_, fun _ => rfl, fun _ => rfl⟩
    simp only []; omega

/-- Claim C13, counterexample. In `sparseModel` (window of two lines, cursor 3, top offset
2), `SetSize 0 2` leaves a window of one line and clamps the cursor to row 2; laid out anew,
the last row is no longer selected and renders as blanks, which are trimmed off with the two
empty lines before it: the content has one line, the old top offset is beyond it and the
surface moves to the bottom of the content.  The top offset changes from 2 to 0. -/
theorem SetSize_moves_top_offset :
    (sparseModel.cursor = 3 ∧ sparseModel.viewPort.YOffset = 2 ∧
      sparseModel.viewPort.Height = 2 ∧
      sparseModel.viewPort.lines = ["  a".toList, [], [], ">".toList]) ∧
    (SetSize plainEnv sparseModel 0 2).viewPort.Height = 1 ∧
    (SetSize plainEnv sparseModel 0 2).cursor = 2 ∧
    (SetSize plainEnv sparseModel 0 2).viewPort.lines = ["  a".toList] ∧
    (SetSize plainEnv sparseModel 0 2).viewPort.YOffset = 0 ∧
    (SetSize plainEnv sparseModel 0 2).viewPort.sliceInRange = true ∧
    ¬ (SetSize plainEnv sparseModel 0 2).viewPort.YOffset = sparseModel.viewPort.YOffset := by
  decide

/-- Claim C13, witness. The example of the claim: ten rows `item 0` to `item 9`, top offset
6, cursor 9; `SetSize 0 3` gives the height 2, the cursor 7 and the rows 6 and 7 shown. -/
theorem SetSize_effect_witness :
    ((run plainEnv itemsModel [.setSize 4 5, .nav .bottom]).cursor = 9 ∧
      (run plainEnv itemsModel [.setSize 4 5, .nav .bottom]).viewPort.YOffset = 6) ∧
    ((SetSize plainEnv (run plainEnv itemsModel [.setSize 4 5, .nav .bottom]) 0 3).viewPort.Height
        = 2 ∧
      (SetSize plainEnv (run plainEnv itemsModel [.setSize 4 5, .nav .bottom]) 0 3).Cursor = 7 ∧
      (SetSize plainEnv (run plainEnv itemsModel [.setSize 4 5, .nav .bottom]) 0 3).viewPort.YOffset
        = 6 ∧
      (SetSize plainEnv (run plainEnv itemsModel [.setSize 4 5, .nav .bottom])
        0 3).viewPort.visibleLines = ["  item 6".toList, "> item 7".toList]) ∧
    (SetSize plainEnv (run plainEnv itemsModel [.setSize 4 5, .nav .bottom]) 0 3).viewPort.YOffset
      = (run plainEnv itemsModel [.setSize 4 5, .nav .bottom]).viewPort.YOffset :=
  ⟨by decide, by decide,
    (SetSize_effect plainEnv (run plainEnv itemsModel [.setSize 4 5, .nav .bottom]) 0 3
      (by decide) (by decide) (by decide)).2.2.2.2 (by decide)⟩

/-! ## Bounds after resizing and replacing the rows; the constructor -/

/-- Claim C14, the code at the failing input. In the model of `TestModel_Movements` (ten
rows, cursor 0, top offset 0), `SetSize 0 0` sets the height to -1 and, the cursor being
greater than `YOffset + Height - 1 = -2`, moves the cursor to -2: the cursor is out of range
and `SelectedRow` has no row to return.  `SetSize 0 1` moves the cursor to -1 in the same
way. -/
theorem SetSize_cursor_negative :
    (0 < movementsModel.rows.length ∧ 0 ≤ movementsModel.cursor ∧
      movementsModel.cursor < movementsModel.rows.length) ∧
    ((SetSize plainEnv movementsModel 0 0).Cursor = -2 ∧
      (SetSize plainEnv movementsModel 0 0).rows.length = 10 ∧
      ¬ (0 ≤ (SetSize plainEnv movementsModel 0 0).Cursor) ∧
      (SetSize plainEnv movementsModel 0 0).SelectedRow.isNone = true) ∧
    ((SetSize plainEnv movementsModel 0 1).Cursor = -1 ∧
      (SetSize plainEnv movementsModel 0 1).SelectedRow.isNone = true) := by
  decide

/-- Claim C15, the code at the failing input. In the model of `TestModel_Movements` at the
bottom (cursor 9), `SetRows` with three rows leaves the cursor on 9: the cursor is out of
range and `SelectedRow` has no row to return. -/
theorem SetRows_cursor_out_of_range :
    bottomModel.cursor = 9 ∧ 0 < (digitRows.take 3).length ∧
    (SetRows plainEnv bottomModel (digitRows.take 3)).Cursor = 9 ∧
    (SetRows plainEnv bottomModel (digitRows.take 3)).rows.length = 3 ∧
    ¬ ((SetRows plainEnv bottomModel (digitRows.take 3)).Cursor
        < (SetRows plainEnv bottomModel (digitRows.take 3)).rows.length) ∧
    (SetRows plainEnv bottomModel (digitRows.take 3)).SelectedRow.isNone = true := by
  decide

/-- Claim C16, amended. For every header sequence `cols` and all values `width` and `height`
of Go's `int`, the height above the least one (so that `height - 1` does not wrap),
`New cols width height` returns a state with an empty row sequence, cursor 0, horizontal
offset 0, and a surface at the top, without content, of the width `width` and the height
`max (height - 1) 0`; the height is `height - 1` when `height ≥ 1`. -/
theorem New_state (E : Env) (cols : List Text) (width height : Int)
    (hlo : -9223372036854775808 < height) (hhi : height ≤ 9223372036854775807) :
    (New E cols width height).rows = [] ∧
    (New E cols width height).Cursor = 0 ∧
    (New E cols width height).offset = 0 ∧
    (New E cols width height).viewPort.Width = width ∧
    (New E cols width height).viewPort.Height = max (height - 1) 0 ∧
    (New E cols width height).viewPort.YOffset = 0 ∧
    (New E cols width height).viewPort.lines = [] ∧
    (New E cols width height).cols = cols ∧
    (1 ≤ height → (New E cols width height).viewPort.Height = height - 1) := by
  have hH := New_Height E cols width height hlo hhi
  refine ⟨rfl, rfl, rfl, rfl, hH, rfl, rfl, rfl, fun h => ?_⟩
  rw [hH]; omega

/-- Claim C16, witness. The constructor call of the package's tests, `New cols 0 4`, gives a
surface of height 3. -/
theorem New_state_witness :
    (New plainEnv ["  #".toList] 0 4).viewPort.Height = 4 - 1 :=
  (New_state plainEnv ["  #".toList] 0 4 (by decide) (by decide)).2.2.2.2.2.2.2.2 (by decide)

/-- Claim C16, counterexample. `New cols 0 0` gives a surface of height 0, not
`height - 1 = -1`: the constructor takes `maxInt(height-1, 0)`.  And for the least value of
`int` the difference `height - 1` wraps to the greatest one, which is the height the surface
gets. -/
theorem New_height_not_negative :
    ((New plainEnv ["  #".toList] 0 0).viewPort.Height = 0 ∧
      ¬ (New plainEnv ["  #".toList] 0 0).viewPort.Height = 0 - 1) ∧
    ((New plainEnv ["  #".toList] 0 (-9223372036854775808)).viewPort.Height
        = 9223372036854775807 ∧
      ¬ (New plainEnv ["  #".toList] 0 (-9223372036854775808)).viewPort.Height
          = -9223372036854775808 - 1) := by
  decide

/-! ## The dispatch of events -/

/-- Claim C17. For every model and every event: the command `Update` returns is nil; an event
that is not a key event leaves the model unchanged; and a key event is tested against the
bindings in the order Up, Down, PageUp, PageDown, Home, End, Right, Left, the first binding
it matches deciding the result, which is exactly the state that `GoUp`, `GoDown`,
`GoPageUp`, `GoPageDown`, `GoTop`, `GoBottom`, `GoRight` respectively `GoLeft` produces; a
key event that matches no binding leaves the model unchanged. -/
theorem Update_dispatch (E : Env) (m : Model) (msg : Msg) :
    (Update E m msg).2 = none ∧
    (msg = .other → (Update E m msg).1 = m) ∧
    (∀ name, msg = .key name →
      (keyMatches name m.KeyMap.Up = true → (Update E m msg).1 = GoUp E m) ∧
      (keyMatches name m.KeyMap.Up = false → keyMatches name m.KeyMap.Down = true →
        (Update E m msg).1 = GoDown E m) ∧
      (keyMatches name m.KeyMap.Up = false → keyMatches name m.KeyMap.Down = false →
        keyMatches name m.KeyMap.PageUp = true → (Update E m msg).1 = GoPageUp E m) ∧
      (keyMatches name m.KeyMap.Up = false → keyMatches name m.KeyMap.Down = false →
        keyMatches name m.KeyMap.PageUp = false → keyMatches name m.KeyMap.PageDown = true →
        (Update E m msg).1 = GoPageDown E m) ∧
      (keyMatches name m.KeyMap.Up = false → keyMatches name m.KeyMap.Down = false →
        keyMatches name m.KeyMap.PageUp = false → keyMatches name m.KeyMap.PageDown = false →
        keyMatches name m.KeyMap.Home = true → (Update E m msg).1 = GoTop E m) ∧
      (keyMatches name m.KeyMap.Up = false → keyMatches name m.KeyMap.Down = false →
        keyMatches name m.KeyMap.PageUp = false → keyMatches name m.KeyMap.PageDown = false →
        keyMatches name m.KeyMap.Home = false → keyMatches name m.KeyMap.End = true →
        (Update E m msg).1 = GoBottom E m) ∧
      (keyMatches name m.KeyMap.Up = false → keyMatches name m.KeyMap.Down = false →
        keyMatches name m.KeyMap.PageUp = false → keyMatches name m.KeyMap.PageDown = false →
        keyMatches name m.KeyMap.Home = false → keyMatches name m.KeyMap.End = false →
        keyMatches name m.KeyMap.Right = true → (Update E m msg).1 = GoRight E m) ∧
      (keyMatches name m.KeyMap.Up = false → keyMatches name m.KeyMap.Down = false →
        keyMatches name m.KeyMap.PageUp = false → keyMatches name m.KeyMap.PageDown = false →
        keyMatches name m.KeyMap.Home = false → keyMatches name m.KeyMap.End = false →
        keyMatches name m.KeyMap.Right = false → keyMatches name m.KeyMap.Left = true →
        (Update E m msg).1 = GoLeft E m) ∧
      (keyMatches name m.KeyMap.Up = false → keyMatches name m.KeyMap.Down = false →
        keyMatches name m.KeyMap.PageUp = false → keyMatches name m.KeyMap.PageDown = false →
        keyMatches name m.KeyMap.Home = false → keyMatches name m.KeyMap.End = false →
        keyMatches name m.KeyMap.Right = false → keyMatches name m.KeyMap.Left = false →
        (Update E m msg).1 = m)) := by
  refine ⟨?_, ?_, ?_⟩
  · cases msg with
    | key name => simp only [Update]; split_ifs <;> rfl
    | other => rfl
  · rintro rfl; rfl
  · rintro name rfl
    simp only [Update]
    refine ⟨?_, ?_, ?_, ?_, ?_, ?_, ?_, ?_, ?_⟩ <;> intros <;> simp [*]

/-- Claim C17, witness. The cases of `TestModel_Update`, each from the model of ten rows with
the cursor on row 0: `end` gives cursor 9, `home` 0, `pgdown` 3, `pgup` 0, `down` 1 and `up`
0; an unbound key and an event that is no key event change nothing. -/
theorem Update_dispatch_witness :
    ((Update plainEnv updateModel (.key "end".toList)).1 = GoBottom plainEnv updateModel ∧
      (Update plainEnv updateModel (.key "end".toList)).2 = none ∧
      (Update plainEnv updateModel .other).1 = updateModel) ∧
    ((Update plainEnv updateModel (.key "end".toList)).1.Cursor = 9 ∧
      (Update plainEnv updateModel (.key "home".toList)).1.Cursor = 0 ∧
      (Update plainEnv updateModel (.key "pgdown".toList)).1.Cursor = 3 ∧
      (Update plainEnv updateModel (.key "pgup".toList)).1.Cursor = 0 ∧
      (Update plainEnv updateModel (.key "down".toList)).1.Cursor = 1 ∧
      (Update plainEnv updateModel (.key "up".toList)).1.Cursor = 0 ∧
      (Update plainEnv updateModel (.key "x".toList)).1.Cursor = 0) :=
  ⟨⟨((Update_dispatch plainEnv updateModel (.key "end".toList)).2.2 "end".toList rfl).2.2.2.2.2.1
      (by decide) (by decide) (by decide) (by decide) (by decide) (by decide),
    (Update_dispatch plainEnv updateModel (.key "end".toList)).1,
    (Update_dispatch plainEnv updateModel .other).2.1 rfl⟩, by decide⟩

/-! ## Truncating in two steps -/

theorem specDropColumns_spaces (w : Char → Nat) (hw : w ' ' = 1) (k b : Nat) (hb : 0 < b)
    (cs : Text) :
    specDropColumns w b (List.replicate k ' ' ++ cs)
      = if b ≤ k then List.replicate (k - b) ' ' ++ cs else specDropColumns w (b - k) cs := by
  induction k generalizing b with
  | zero => simp [show ¬ b ≤ 0 by omega]
  | succ k ih =>
    rw [List.replicate_succ, List.cons_append, specDropColumns, hw]
    by_cases h1 : b ≤ 1
    · have hb1 : b = 1 := by omega
      subst hb1
      simp
    · rw [if_neg h1, ih (b - 1) (by omega)]
      by_cases h2 : b ≤ k + 1
      · rw [if_pos (by omega), if_pos h2]
        congr 2
        omega
      · rw [if_neg (by omega), if_neg h2]
        congr 1
        omega

theorem specDropColumns_add (w : Char → Nat) (hw : w ' ' = 1) (l : Text) (a b : Nat)
    (ha : 0 < a) (hb : 0 < b) :
    specDropColumns w b (specDropColumns w a l) = specDropColumns w (a + b) l := by
  induction l generalizing a with
  | nil => simp [specDropColumns]
  | cons c cs ih =>
    rw [specDropColumns.eq_2 w a c cs, specDropColumns.eq_2 w (a + b) c cs]
    by_cases h1 : a ≤ w c
    · rw [if_pos h1, specDropColumns_spaces w hw _ b hb]
      by_cases h2 : a + b ≤ w c
      · rw [if_pos (by omega), if_pos h2]
        congr 2
        omega
      · rw [if_neg (by omega), if_neg h2]
        congr 1
        omega
    · rw [if_neg h1, if_neg (by omega), ih (a - w c) (by omega)]
      congr 1
      omega

theorem mem_of_mem_splitLines (s l : Text) (c : Char) (hl : l ∈ splitLines s) (hc : c ∈ l) :
    c ∈ s := by
  induction s generalizing l with
  | nil => simp [splitLines] at hl; subst hl; simp at hc
  | cons d ds ih =>
    simp only [splitLines] at hl
    split_ifs at hl with hd
    · rcases List.mem_cons.1 hl with h | h
      · subst h; simp at hc
      · exact List.mem_cons_of_mem _ (ih l h hc)
    · split at hl
      · simp at hl; subst hl
        simp at hc; simp [hc]
      · rename_i l0 ls heq
        rcases List.mem_cons.1 hl with h | h
        · subst h
          rcases List.mem_cons.1 hc with h2 | h2
          · simp [h2]
          · exact List.mem_cons_of_mem _ (ih l0 (by rw [heq]; simp) h2)
        · exact List.mem_cons_of_mem _ (ih l (by rw [heq]; simp [h]) hc)

theorem truncateLine_plain (E : Env) (n : Nat) (hn : 0 < n) (l : Text) (hm : Marker ∉ l)
    (hc : CSI ∉ l) : truncateLine E n l = specDropColumns E.runeWidth n l := by
  rw [truncateLine_eq E n hn, FindString_of_plain l hm hc]
  simp only [List.nil_append, List.length_nil, List.drop_zero]
  apply specDropColumns_congr
  intro c hcl
  have : c ≠ Marker := fun e => hm (e ▸ hcl)
  simp [runeColumns_eq, this]

theorem trucateOffset_eq_join (E : Env) (s : Text) (n : Nat) (hn : 0 < n) :
    trucateOffset E s n = joinWith ['\n'] ((splitLines s).map (truncateLine E n)) := by
  unfold trucateOffset
  rw [if_neg (by omega)]
  simp only
  rw [truncateLoop_eq E n _ _ 0 [] (by simp)]
  simp

/-- Claim C20. For every text block `s` that contains no escape sequence (neither U+001B nor
U+009B) and all offsets `a` and `b`, truncating in two steps equals truncating once by the
sum, `trucateOffset (trucateOffset s a) b = trucateOffset s (a + b)`, also when a cut falls
inside a wide rune and padding spaces are inserted; and the number of lines of `s` is
preserved. -/
theorem trucateOffset_add (E : Env) (s : Text) (a b : Nat) (hm : Marker ∉ s) (hc : CSI ∉ s) :
    trucateOffset E (trucateOffset E s a) b = trucateOffset E s (a + b) ∧
      (splitLines (trucateOffset E s a)).length = (splitLines s).length := by
  have hlen : (splitLines (trucateOffset E s a)).length = (splitLines s).length := by
    by_cases ha : a = 0
    · simp [ha, trucateOffset]
    · rw [splitLines_trucateOffset E s a (by omega), List.length_map]
  refine ⟨?_, hlen⟩
  by_cases ha : a = 0
  · simp [ha, trucateOffset]
  by_cases hb : b = 0
  · simp [hb, trucateOffset]
  rw [trucateOffset_eq_join E _ b (by omega), splitLines_trucateOffset E s a (by omega),
    trucateOffset_eq_join E s (a + b) (by omega), List.map_map]
  congr 1
  apply List.map_congr_left
  intro l hl
  have hlm : Marker ∉ l := fun h => hm (mem_of_mem_splitLines s l _ hl h)
  have hlc : CSI ∉ l := fun h => hc (mem_of_mem_splitLines s l _ hl h)
  have hplain : ∀ c, c ∈ specDropColumns E.runeWidth a l → c ≠ Marker ∧ c ≠ CSI := by
    intro c hcm
    rcases mem_specDropColumns _ _ _ _ hcm with h | h
    · subst h; exact ⟨by decide, by decide⟩
    · exact ⟨fun e => hlm (e ▸ h), fun e => hlc (e ▸ h)⟩
  simp only [Function.comp]
  rw [truncateLine_plain E a (by omega) l hlm hlc,
    truncateLine_plain E b (by omega) _ (fun h => (hplain _ h).1 rfl)
      (fun h => (hplain _ h).2 rfl),
    truncateLine_plain E (a + b) (by omega) l hlm hlc]
  exact specDropColumns_add E.runeWidth E.space_width l a b (by omega) (by omega)

/-- Claim C20, witness. Two lines, the first of two wide runes: cutting one column leaves a
padding space, cutting two more leaves a padding space again, as cutting three at once. -/
theorem trucateOffset_add_witness :
    (trucateOffset plainEnv (trucateOffset plainEnv "世界\nabcd".toList 1) 2
        = trucateOffset plainEnv "世界\nabcd".toList (1 + 2) ∧
      (splitLines (trucateOffset plainEnv "世界\nabcd".toList 1)).length
        = (splitLines "世界\nabcd".toList).length) ∧
    (trucateOffset plainEnv "世界\nabcd".toList 1 = " 界\nbcd".toList ∧
      trucateOffset plainEnv "世界\nabcd".toList 3 = " \nd".toList) :=
  ⟨trucateOffset_add plainEnv "世界\nabcd".toList 1 2 (by decide) (by decide), by decide⟩





/-! ## The tab writer and the shape of the layout -/

theorem splitCells_of_no_tab (a : Text) (h : '\t' ∉ a ∧ VerticalTab ∉ a) :
    splitCells a = [a] := by
  induction a with
  | nil => simp [splitCells]
  | cons c cs ih =>
    have hc : c ≠ '\t' := fun e => h.1 (by simp [e])
    have hv : c ≠ VerticalTab := fun e => h.2 (by simp [e])
    have hcs : '\t' ∉ cs ∧ VerticalTab ∉ cs :=
      ⟨fun e => h.1 (by simp [e]), fun e => h.2 (by simp [e])⟩
    simp [splitCells, hc, hv, ih hcs]

theorem splitCells_append_tab (a r : Text) (h : '\t' ∉ a ∧ VerticalTab ∉ a) :
    splitCells (a ++ '\t' :: r) = a :: splitCells r := by
  induction a with
  | nil => simp [splitCells]
  | cons c cs ih =>
    have hc : c ≠ '\t' := fun e => h.1 (by simp [e])
    have hv : c ≠ VerticalTab := fun e => h.2 (by simp [e])
    have hcs : '\t' ∉ cs ∧ VerticalTab ∉ cs :=
      ⟨fun e => h.1 (by simp [e]), fun e => h.2 (by simp [e])⟩
    simp [splitCells, hc, hv, ih hcs]

theorem splitFeeds_of_no_feed (a : Text) (h : FormFeed ∉ a) : splitFeeds a = [a] := by
  induction a with
  | nil => simp [splitFeeds]
  | cons c cs ih =>
    have hc : c ≠ FormFeed := fun e => h (by simp [e])
    have hcs : FormFeed ∉ cs := fun e => h (by simp [e])
    simp [splitFeeds, hc, ih hcs]

theorem splitCells_joinWith (ls : List Text) (hne : ls ≠ [])
    (h : ∀ l ∈ ls, '\t' ∉ l ∧ VerticalTab ∉ l) :
    splitCells (joinWith ['\t'] ls) = ls := by
  induction ls with
  | nil => exact absurd rfl hne
  | cons a rest ih =>
    cases rest with
    | nil => simpa [joinWith] using splitCells_of_no_tab a (h a (by simp))
    | cons b rest =>
      have ha := h a (by simp)
      have := ih (by simp) (fun l hl => h l (by simp [hl]))
      simp only [joinWith, List.append_assoc, List.singleton_append]
      rw [splitCells_append_tab _ _ ha, this]

theorem mem_joinWith (sep : Text) (ls : List Text) (c : Char) (hc : c ∈ joinWith sep ls) :
    c ∈ sep ∨ ∃ l ∈ ls, c ∈ l := by
  induction ls with
  | nil => simp [joinWith] at hc
  | cons a rest ih =>
    cases rest with
    | nil => exact Or.inr ⟨a, by simp, by simpa [joinWith] using hc⟩
    | cons b rest =>
      simp only [joinWith, List.mem_append] at hc
      rcases hc with (hc | hc) | hc
      · exact Or.inr ⟨a, by simp, hc⟩
      · exact Or.inl hc
      · rcases ih hc with h | ⟨l, hl, h⟩
        · exact Or.inl h
        · exact Or.inr ⟨l, by simp [hl], h⟩

theorem splitLines_flatten_nl (ls : List Text) (h : ∀ l ∈ ls, '\n' ∉ l) :
    splitLines ((ls.map fun l => l ++ ['\n']).flatten) = ls ++ [[]] := by
  induction ls with
  | nil => simp [splitLines]
  | cons a rest ih =>
    have ha := h a (by simp)
    have := ih (fun l hl => h l (by simp [hl]))
    simp only [List.map_cons, List.flatten_cons, List.append_assoc, List.singleton_append,
      List.cons_append]
    rw [splitLines_append_nl _ _ ha, List.nil_append, this]

theorem renderRows_eq (m : Model) (rows : List Row) (rc : List (List Text)) (i0 : Nat)
    (hlen : rc.length = rows.length)
    (h : ∀ i (hi : i < rows.length),
      (rows[i]).Render m.Styles m.snapshot ((i0 + i : Nat) : Int)
        = joinWith ['\t'] (rc.getD i []) ++ ['\n']) :
    renderRows m rows i0 = ((rc.map (joinWith ['\t'])).map fun l => l ++ ['\n']).flatten := by
  induction rows generalizing rc i0 with
  | nil =>
    cases rc with
    | nil => simp [renderRows]
    | cons _ _ => simp at hlen
  | cons row rest ih =>
    cases rc with
    | nil => simp at hlen
    | cons r rc =>
      have h0 := h 0 (by simp)
      simp only [Nat.add_zero, List.getElem_cons_zero, List.getD_cons_zero] at h0
      have := ih rc (i0 + 1) (by simpa using hlen) (fun i hi => by
        have := h (i + 1) (by simpa using hi)
        simp only [List.getElem_cons_succ, List.getD_cons_succ] at this
        rw [← this]; congr 2; omega)
      simp only [renderRows, h0, this, List.map_cons, List.flatten_cons]

theorem mem_getD_nil (r : List Text) (i : Nat) (c : Char) (h : c ∈ r.getD i []) :
    ∃ cell ∈ r, c ∈ cell := by
  by_cases hi : i < r.length
  · rw [List.getD_eq_getElem?_getD, List.getElem?_eq_getElem hi] at h
    exact ⟨r[i], List.getElem_mem _, by simpa using h⟩
  · rw [List.getD_eq_getElem?_getD, List.getElem?_eq_none (by omega)] at h
    simp at h

theorem getD_mem_of_lt (r : List Text) (i : Nat) (hi : i < r.length) : r.getD i [] ∈ r := by
  rw [List.getD_eq_getElem?_getD, List.getElem?_eq_getElem hi]
  exact List.getElem_mem _

/-! ### The escape-aware width of a concatenation -/

theorem printableLoop_append_state (E : Env) (a x : Text) (n : Nat) (b : Bool) :
    printableLoop E (a ++ x) n b
      = printableLoop E x (printableLoop E a n b) (insideEscape a b) := by
  induction a generalizing n b with
  | nil => rfl
  | cons c cs ih =>
    simp only [List.cons_append, printableLoop, insideEscape]
    split_ifs <;> exact ih _ _

theorem PrintableRuneWidth_append (E : Env) (a x : Text) (h : insideEscape a false = false) :
    PrintableRuneWidth E (a ++ x) = PrintableRuneWidth E a + PrintableRuneWidth E x := by
  unfold PrintableRuneWidth
  rw [printableLoop_append_state, h, printableLoop_acc]

theorem insideEscape_append (a x : Text) (b : Bool) :
    insideEscape (a ++ x) b = insideEscape x (insideEscape a b) := by
  induction a generalizing b with
  | nil => rfl
  | cons c cs ih =>
    simp only [List.cons_append, insideEscape]
    split_ifs <;> exact ih _

theorem insideEscape_spaces (k : Nat) : insideEscape (List.replicate k ' ') false = false := by
  induction k with
  | zero => rfl
  | succ k ih =>
    have h1 : ' ' ≠ Marker := by decide
    simp [List.replicate_succ, insideEscape, h1, ih]

theorem PrintableRuneWidth_spaces (E : Env) (k : Nat) :
    PrintableRuneWidth E (List.replicate k ' ') = k := by
  have := printableLoop_spaces E k [] false
  simpa [PrintableRuneWidth, printableLoop] using this

theorem getD_closed (r : List Text) (i : Nat) (h : ∀ c ∈ r, insideEscape c false = false) :
    insideEscape (r.getD i []) false = false := by
  by_cases hi : i < r.length
  · exact h _ (getD_mem_of_lt r i hi)
  · rw [List.getD_eq_getElem?_getD, List.getElem?_eq_none (by omega)]
    rfl

/-! ### The layout as the specification words it -/

theorem width_le_colMax (E : Env) (M : List (List Text)) (r : List Text) (j : Nat)
    (hr : r ∈ M) : PrintableRuneWidth E (r.getD j []) ≤ colMax E M j := by
  induction M with
  | nil => simp at hr
  | cons x xs ih =>
    simp only [colMax, List.map_cons, List.foldr_cons] at ih ⊢
    rcases List.mem_cons.1 hr with h | h
    · subst h; omega
    · have := ih h; omega

theorem colMax_attained (E : Env) (M : List (List Text)) (j : Nat) (hM : M ≠ []) :
    ∃ r ∈ M, PrintableRuneWidth E (r.getD j []) = colMax E M j := by
  induction M with
  | nil => exact absurd rfl hM
  | cons x xs ih =>
    cases xs with
    | nil => exact ⟨x, by simp, by simp [colMax]⟩
    | cons y ys =>
      obtain ⟨r, hr, h⟩ := ih (by simp)
      simp only [colMax, List.map_cons, List.foldr_cons] at h ⊢
      by_cases hx : PrintableRuneWidth E (y.getD j []) ⊔ List.foldr max 0
          (List.map (fun r => PrintableRuneWidth E (r.getD j [])) ys)
            ≤ PrintableRuneWidth E (x.getD j [])
      · exact ⟨x, by simp, by omega⟩
      · exact ⟨r, by simp only [List.mem_cons] at hr ⊢; tauto, by omega⟩

theorem width_paddedCell (E : Env) (M : List (List Text)) (r : List Text) (j : Nat)
    (hr : r ∈ M) (hcl : ∀ c ∈ r, insideEscape c false = false) :
    PrintableRuneWidth E (paddedCell E M r j) = colMax E M j + 1 ∧
      insideEscape (paddedCell E M r j) false = false := by
  have hle := width_le_colMax E M r j hr
  have hc := getD_closed r j hcl
  refine ⟨?_, ?_⟩
  · rw [paddedCell, PrintableRuneWidth_append E _ _ hc, PrintableRuneWidth_spaces]
    omega
  · rw [paddedCell, insideEscape_append, hc, insideEscape_spaces]

theorem linePrefix_succ (E : Env) (M : List (List Text)) (r : List Text) (j : Nat) :
    linePrefix E M r (j + 1) = linePrefix E M r j ++ paddedCell E M r j := by
  simp [linePrefix, List.range_succ]

theorem width_linePrefix (E : Env) (M : List (List Text)) (r : List Text) (j : Nat)
    (hr : r ∈ M) (hcl : ∀ c ∈ r, insideEscape c false = false) :
    PrintableRuneWidth E (linePrefix E M r j) = colStart E M j ∧
      insideEscape (linePrefix E M r j) false = false := by
  induction j with
  | zero => exact ⟨by simp [linePrefix, colStart, PrintableRuneWidth, printableLoop], rfl⟩
  | succ j ih =>
    obtain ⟨h1, h2⟩ := ih
    obtain ⟨h3, h4⟩ := width_paddedCell E M r j hr hcl
    refine ⟨?_, ?_⟩
    · rw [linePrefix_succ, PrintableRuneWidth_append E _ _ h2, h1, h3]
      simp [colStart, List.range_succ]
    · rw [linePrefix_succ, insideEscape_append, h2, h4]

theorem linePrefix_cell_extend (E : Env) (M : List (List Text)) (r : List Text) (a n : Nat)
    (h : a ≤ n) :
    ∃ post, linePrefix E M r n ++ r.getD n [] = linePrefix E M r a ++ r.getD a [] ++ post := by
  induction n, h using Nat.le_induction with
  | base => exact ⟨[], by simp⟩
  | succ n _ ih =>
    obtain ⟨post, hp⟩ := ih
    refine ⟨post ++ List.replicate (colMax E M n + 1 - PrintableRuneWidth E (r.getD n [])) ' '
      ++ r.getD (n + 1) [], ?_⟩
    rw [linePrefix_succ, paddedCell]
    simp only [← List.append_assoc] at hp ⊢
    rw [hp]

theorem mem_linePrefix (E : Env) (M : List (List Text)) (r : List Text) (j : Nat) (c : Char)
    (h : c ∈ linePrefix E M r j) : c = ' ' ∨ ∃ cell ∈ r, c ∈ cell := by
  induction j with
  | zero => simp [linePrefix] at h
  | succ j ih =>
    rw [linePrefix_succ, paddedCell] at h
    simp only [List.mem_append, List.mem_replicate] at h
    rcases h with h | h | h
    · exact ih h
    · exact Or.inr (mem_getD_nil r j c h)
    · exact Or.inl h.2

theorem mem_specLine (E : Env) (M : List (List Text)) (r : List Text) (c : Char)
    (h : c ∈ specLine E M r) : c = ' ' ∨ ∃ cell ∈ r, c ∈ cell := by
  simp only [specLine, List.mem_append] at h
  rcases h with h | h
  · exact mem_linePrefix E M r _ c h
  · exact Or.inr (mem_getD_nil r _ c h)

theorem specLine_split (E : Env) (M : List (List Text)) (r : List Text) (j : Nat)
    (hj : j < r.length) :
    ∃ post, specLine E M r = linePrefix E M r j ++ r.getD j [] ++ post ∧
      (j + 1 < r.length → ∃ rest,
        post = List.replicate (colMax E M j + 1 - PrintableRuneWidth E (r.getD j [])) ' '
          ++ r.getD (j + 1) [] ++ rest) ∧
      (j + 1 = r.length → post = []) := by
  by_cases h : j + 1 < r.length
  · obtain ⟨rest, hrest⟩ := linePrefix_cell_extend E M r (j + 1) (r.length - 1) (by omega)
    refine ⟨List.replicate (colMax E M j + 1 - PrintableRuneWidth E (r.getD j [])) ' '
      ++ r.getD (j + 1) [] ++ rest, ?_, fun _ => ⟨rest, rfl⟩, fun h2 => by omega⟩
    rw [specLine, hrest, linePrefix_succ, paddedCell]
    simp only [List.append_assoc]
  · have hj2 : r.length - 1 = j := by omega
    exact ⟨[], by rw [specLine, hj2]; simp, fun h2 => absurd h2 h, fun _ => rfl⟩

/-! ### The tab writer on a table of `k` cells in every line -/

theorem groupRuns_const {α : Type} (p : α → Bool) (b : Bool) (l : List α) (hl : l ≠ [])
    (h : ∀ x ∈ l, p x = b) : groupRuns p l = [(b, l)] := by
  induction l with
  | nil => exact absurd rfl hl
  | cons x xs ih =>
    have hx := h x (by simp)
    cases xs with
    | nil => simp [groupRuns, hx]
    | cons y ys =>
      have := ih (by simp) (fun z hz => h z (by simp [hz]))
      rw [groupRuns, this]
      simp [hx]

theorem groupRuns_append_single {α : Type} (p : α → Bool) (l : List α) (y : α) (hl : l ≠ [])
    (h : ∀ x ∈ l, p x = true) (hy : p y = false) :
    groupRuns p (l ++ [y]) = [(true, l), (false, [y])] := by
  induction l with
  | nil => exact absurd rfl hl
  | cons x xs ih =>
    have hx := h x (by simp)
    cases xs with
    | nil => simp [groupRuns, hx, hy]
    | cons z zs =>
      have := ih (by simp) (fun w hw => h w (by simp [hw]))
      rw [List.cons_append, groupRuns, this]
      simp [hx]

theorem foldl_max_eq (g : List Text → Nat) (L : List (List Text)) (a : Nat) (hL : L ≠ []) :
    L.foldl (fun w line => max w (g line + 1)) a = max a ((L.map g).foldr max 0 + 1) := by
  induction L generalizing a with
  | nil => exact absurd rfl hL
  | cons x xs ih =>
    cases xs with
    | nil => simp
    | cons y ys =>
      have := ih (max a (g x + 1)) (by simp)
      simp only [List.foldl_cons, List.map_cons, List.foldr_cons] at this ⊢
      rw [this]; omega

theorem blockWidth_eq (E : Env) (M : List (List Text)) (j : Nat) (hM : M ≠ [])
    (hj : ∀ r ∈ M, j < r.length)
    (hcw : ∀ r ∈ M, ∀ c ∈ r, cellRunes c = PrintableRuneWidth E c) :
    blockWidth 0 1 j M = colMax E M j + 1 := by
  have h1 : ∀ (L : List (List Text)) (a : Nat), (∀ r ∈ L, r ∈ M) →
      L.foldl (fun width line => max width (cellRunes (line.getD j []) + 1)) a
        = L.foldl (fun w line => max w (PrintableRuneWidth E (line.getD j []) + 1)) a := by
    intro L
    induction L with
    | nil => intros; rfl
    | cons x xs ih =>
      intro a hx
      have hxM := hx x (by simp)
      have : cellRunes (x.getD j []) = PrintableRuneWidth E (x.getD j []) :=
        hcw x hxM _ (getD_mem_of_lt x j (hj x hxM))
      simp only [List.foldl_cons, this]
      exact ih _ (fun r hr => hx r (by simp [hr]))
  rw [blockWidth, h1 M 0 (fun r h => h),
    foldl_max_eq (fun line => PrintableRuneWidth E (line.getD j [])) M 0 hM]
  simp [colMax]

theorem formatLines_uniform (M : List (List Text)) (k : Nat) (hM : M ≠ [])
    (hk : ∀ r ∈ M, r.length = k) (d : Nat) :
    ∀ (fuel : Nat) (widths : List Nat), widths.length + d + 1 = k → d ≤ fuel →
      formatLines 0 1 ' ' fuel widths M
        = M.map fun line =>
            writeCells ' '
              (widths ++ (List.range d).map fun i => blockWidth 0 1 (widths.length + i) M)
              line 0 := by
  induction d with
  | zero =>
    intro fuel widths hw _
    cases fuel with
    | zero => simp [formatLines]
    | succ f =>
      have hg : groupRuns (fun line : List Text => decide (widths.length + 1 < line.length)) M
          = [(false, M)] := by
        apply groupRuns_const _ _ _ hM
        intro r hr
        have := hk r hr
        simp; omega
      simp [formatLines, hg]
  | succ d ih =>
    intro fuel widths hw hf
    cases fuel with
    | zero => omega
    | succ f =>
      have hg : groupRuns (fun line : List Text => decide (widths.length + 1 < line.length)) M
          = [(true, M)] := by
        apply groupRuns_const _ _ _ hM
        intro r hr
        have := hk r hr
        simp; omega
      have := ih f (widths ++ [blockWidth 0 1 widths.length M]) (by simp; omega) (by omega)
      simp only [formatLines, hg, List.map_cons, List.map_nil, if_true, List.flatten_cons,
        List.flatten_nil, List.append_nil, this]
      apply List.map_congr_left
      intro r _
      congr 1
      rw [List.range_succ_eq_map]
      simp only [List.map_cons, List.map_map, List.length_append, List.length_singleton,
        Nat.add_zero, List.append_assoc, List.singleton_append]
      congr 2
      apply List.map_congr_left
      intro i _
      simp only [Function.comp, Nat.succ_eq_add_one]
      congr 1
      omega

theorem foldr_max_length (M : List (List Text)) (k : Nat) (hM : M ≠ [])
    (hk : ∀ r ∈ M, r.length = k) :
    ((M ++ [[]]).map List.length).foldr max 0 = k := by
  induction M with
  | nil => exact absurd rfl hM
  | cons x xs ih =>
    have hx := hk x (by simp)
    cases xs with
    | nil => simp [hx]
    | cons y ys =>
      have := ih (by simp) (fun r hr => hk r (by simp [hr]))
      simp only [List.cons_append, List.map_cons, List.foldr_cons] at this ⊢
      rw [this, hx]; simp

theorem formatLines_succ (fuel : Nat) (widths : List Nat) (lines : List (List Text)) :
    formatLines 0 1 ' ' (fuel + 1) widths lines
      = ((groupRuns (fun line => decide (widths.length + 1 < line.length)) lines).map fun g =>
          if g.1 then
            formatLines 0 1 ' ' fuel (widths ++ [blockWidth 0 1 widths.length g.2]) g.2
          else g.2.map fun line => writeCells ' ' widths line 0).flatten :=
  rfl

theorem formatLines_table (M : List (List Text)) (k : Nat) (hM : M ≠ []) (hk0 : 0 < k)
    (hk : ∀ r ∈ M, r.length = k) :
    formatLines 0 1 ' ' k [] (M ++ [[]])
      = (M.map fun line =>
            writeCells ' ' ((List.range (k - 1)).map fun i => blockWidth 0 1 i M) line 0)
          ++ [[]] := by
  obtain ⟨f, rfl⟩ : ∃ f, k = f + 1 := ⟨k - 1, by omega⟩
  cases f with
  | zero =>
    have hg : groupRuns (fun line : List Text => decide (([] : List Nat).length + 1 < line.length))
        (M ++ [[]]) = [(false, M ++ [[]])] := by
      apply groupRuns_const _ _ _ (by simp)
      intro r hr
      rcases List.mem_append.1 hr with h | h
      · have := hk r h
        simp; omega
      · simp at h; simp [h]
    rw [formatLines_succ, hg]
    simp [writeCells]
  | succ f =>
    have hg : groupRuns (fun line : List Text => decide (([] : List Nat).length + 1 < line.length))
        (M ++ [[]]) = [(true, M), (false, [[]])] := by
      apply groupRuns_append_single _ _ _ hM
      · intro r hr
        have := hk r hr
        simp; omega
      · simp
    have := formatLines_uniform M (f + 1 + 1) hM hk f (f + 1) [blockWidth 0 1 0 M]
      (by simp; omega) (by omega)
    rw [formatLines_succ, hg]
    simp only [List.map_cons, List.map_nil, if_true, List.flatten_cons,
      List.flatten_nil, List.append_nil, List.length_nil, List.nil_append, this, writeCells,
      Bool.false_eq_true, if_false]
    congr 1
    apply List.map_congr_left
    intro r _
    congr 1
    rw [Nat.add_sub_cancel, List.range_succ_eq_map]
    simp only [List.map_cons, List.map_map, List.length_singleton, List.singleton_append]
    congr 1
    apply List.map_congr_left
    intro i _
    simp only [Function.comp, Nat.succ_eq_add_one]
    congr 1
    omega

theorem writeCells_eq (pc : Char) (widths : List Nat) (r : List Text) (j0 : Nat) :
    writeCells pc widths r j0
      = ((List.range r.length).map fun i =>
            r.getD i []
              ++ (if j0 + i < widths.length then
                    List.replicate (widths.getD (j0 + i) 0 - cellRunes (r.getD i [])) pc
                  else [])).flatten := by
  induction r generalizing j0 with
  | nil => simp [writeCells]
  | cons cell rest ih =>
    rw [writeCells, ih (j0 + 1), List.length_cons, List.range_succ_eq_map]
    simp only [List.map_cons, List.map_map, List.flatten_cons, List.getD_cons_zero,
      Nat.add_zero, List.append_assoc]
    congr 3
    apply List.map_congr_left
    intro i _
    simp only [Function.comp, Nat.succ_eq_add_one, List.getD_cons_succ]
    rw [show j0 + (i + 1) = j0 + 1 + i by omega]

theorem writeCells_eq_specLine (E : Env) (M : List (List Text)) (r : List Text) (k : Nat)
    (hk0 : 0 < k) (hr : r.length = k) (widths : List Nat) (hwl : widths.length = k - 1)
    (hw : ∀ j, j + 1 < k → widths.getD j 0 = colMax E M j + 1)
    (hcw : ∀ c ∈ r, cellRunes c = PrintableRuneWidth E c) :
    writeCells ' ' widths r 0 = specLine E M r := by
  obtain ⟨f, rfl⟩ : ∃ f, k = f + 1 := ⟨k - 1, by omega⟩
  rw [writeCells_eq, specLine, linePrefix, hr, Nat.add_sub_cancel, List.range_succ]
  simp only [List.map_append, List.map_cons, List.map_nil, List.flatten_append,
    List.flatten_cons, List.flatten_nil, List.append_nil, Nat.zero_add, hwl,
    Nat.add_sub_cancel, Nat.lt_irrefl, if_false]
  congr 2
  apply List.map_congr_left
  intro i hi
  have hi := List.mem_range.1 hi
  have hmem := getD_mem_of_lt r i (by omega)
  rw [paddedCell, if_pos hi, hw i (by omega), hcw _ hmem]

theorem writerLines_of_lines (input : Text) (ls : List Text)
    (h : splitLines input = ls ++ [[]]) :
    writerLines input = ls.map splitCells ++ [[]] := by
  have h2 : lastLineCells [] = [] := by decide
  simp [writerLines, h, h2]

/-! ## The alignment of the columns and the padding between them -/

theorem layoutInput_eq (m : Model) (hcells : List Text) (rcells : List (List Text))
    (hhead : m.Styles.Title (joinWith ('\t' :: m.Styles.ColumnSeparator) m.cols)
      = joinWith ['\t'] hcells)
    (hlen : rcells.length = m.rows.length)
    (hrows : ∀ i (hi : i < m.rows.length),
      (m.rows[i]).Render m.Styles m.snapshot (i : Int)
        = joinWith ['\t'] (rcells.getD i []) ++ ['\n']) :
    layoutInput m
      = (((hcells :: rcells).map (joinWith ['\t'])).map fun l => l ++ ['\n']).flatten := by
  have := renderRows_eq m m.rows rcells 0 hlen (fun i hi => by simpa using hrows i hi)
  rw [layoutInput, hhead, this]
  simp only [List.map_cons, List.flatten_cons]

theorem layout_lines (E : Env) (m : Model) (hcells : List Text) (rcells : List (List Text))
    (hE : ∀ input, E.tabwrite 0 4 1 ' ' 0 input = tabAlign 0 4 1 ' ' 0 input)
    (hhead : m.Styles.Title (joinWith ('\t' :: m.Styles.ColumnSeparator) m.cols)
      = joinWith ['\t'] hcells)
    (hcols : m.cols ≠ [])
    (hhk : hcells.length = m.cols.length)
    (hlen : rcells.length = m.rows.length)
    (hrows : ∀ i (hi : i < m.rows.length),
      (m.rows[i]).Render m.Styles m.snapshot (i : Int)
        = joinWith ['\t'] (rcells.getD i []) ++ ['\n'])
    (hk : ∀ r ∈ rcells, r.length = m.cols.length)
    (hcell : ∀ r ∈ hcells :: rcells, ∀ c ∈ r, alignedCell E c) :
    splitLines (layout E m)
      = (hcells :: rcells).map (specLine E (hcells :: rcells)) ++ [[]] := by
  have hkM : ∀ r ∈ hcells :: rcells, r.length = m.cols.length := by
    intro r hr
    rcases List.mem_cons.1 hr with h | h
    · rw [h, hhk]
    · exact hk r h
  have hpos : 0 < m.cols.length := List.length_pos.2 hcols
  have hM : hcells :: rcells ≠ [] := by simp
  have hcw : ∀ r ∈ hcells :: rcells, ∀ c ∈ r, cellRunes c = PrintableRuneWidth E c :=
    fun r hr c hc => (hcell r hr c hc).2.2.2.2.2.2
  -- the lines written into the tab writer
  have hsplit : splitLines (layoutInput m)
      = (hcells :: rcells).map (joinWith ['\t']) ++ [[]] := by
    rw [layoutInput_eq m hcells rcells hhead hlen hrows]
    apply splitLines_flatten_nl
    intro l hl
    obtain ⟨r, hr, rfl⟩ := List.mem_map.1 hl
    intro hc
    rcases mem_joinWith _ _ _ hc with h | ⟨cell, hcell2, h⟩
    · simp at h
    · exact (hcell r hr cell hcell2).2.1 h
  -- their cells
  have hlines : writerLines (layoutInput m) = (hcells :: rcells) ++ [[]] := by
    rw [writerLines_of_lines _ _ hsplit, List.map_map]
    congr 1
    conv_rhs => rw [← List.map_id (hcells :: rcells)]
    apply List.map_congr_left
    intro r hr
    have hne : r ≠ [] := List.length_pos.1 (by rw [hkM r hr]; exact hpos)
    simpa using splitCells_joinWith r hne
      (fun c hc => ⟨(hcell r hr c hc).1, (hcell r hr c hc).2.2.1⟩)
  -- no form feed among them
  have hfeed : FormFeed ∉ layoutInput m := by
    rw [layoutInput_eq m hcells rcells hhead hlen hrows]
    intro hc
    obtain ⟨l, hl, hcl⟩ := List.mem_flatten.1 hc
    obtain ⟨l2, hl2, rfl⟩ := List.mem_map.1 hl
    obtain ⟨r, hr, rfl⟩ := List.mem_map.1 hl2
    rcases List.mem_append.1 hcl with h | h
    · rcases mem_joinWith _ _ _ h with h | ⟨cell, hcell2, h⟩
      · exact absurd h (by decide)
      · exact (hcell r hr cell hcell2).2.2.2.1 h
    · exact absurd h (by decide)
  rw [layout, hE, tabAlign, splitFeeds_of_no_feed _ hfeed]
  simp only [flushSegments, formatSegment, hlines]
  rw [foldr_max_length _ _ hM hkM, formatLines_table _ _ hM hpos hkM]
  have hal : (hcells :: rcells).map
      (fun line => writeCells ' '
        ((List.range (m.cols.length - 1)).map fun i => blockWidth 0 1 i (hcells :: rcells))
        line 0)
      = (hcells :: rcells).map (specLine E (hcells :: rcells)) := by
    apply List.map_congr_left
    intro r hr
    apply writeCells_eq_specLine E _ r m.cols.length hpos (hkM r hr)
    · simp
    · intro j hj
      rw [List.getD_eq_getElem?_getD, List.getElem?_map, List.getElem?_range (by omega)]
      simp only [Option.map_some', Option.getD_some]
      exact blockWidth_eq E _ j hM (fun r hr => by rw [hkM r hr]; omega) hcw
    · exact hcw r hr
  rw [hal]
  apply splitLines_joinWith
  · simp
  · intro l hl
    rcases List.mem_append.1 hl with h | h
    · obtain ⟨r, hr, rfl⟩ := List.mem_map.1 h
      intro hc
      rcases mem_specLine _ _ _ _ hc with h | ⟨cell, hcell2, h⟩
      · exact absurd h (by decide)
      · exact (hcell r hr cell hcell2).2.1 h
    · simp at h; simp [h]

/-- Claim C18, counterexample. A table of the labels `A` and `B` whose first row shows two
wide glyphs in its first cell.  Every cell is free of escape sequences and every line has
two cells, yet the cells of the second column do not start at one display column: the tab
writer counts the runes of a cell, not its display columns, so the cell `> 世界`, of four runes
and six display columns, is padded with four spaces up to the width 8 of the column in
runes, and the cell after it starts at display column 10, where the sum of the claim, the
maximum display width 7 of the first column plus one, is 8. -/
theorem wide_glyph_misaligned :
    splitLines (layout alignEnv wideModel)
        = ["A       B".toList, "> 世界    x".toList, "  abcde z".toList, []] ∧
      colStart alignEnv [["A".toList, "B".toList], ["> 世界".toList, "x".toList],
        ["  abcde".toList, "z".toList]] 1 = 8 ∧
      PrintableRuneWidth alignEnv "A       ".toList = 8 ∧
      PrintableRuneWidth alignEnv "> 世界    ".toList = 10 ∧
      PrintableRuneWidth alignEnv "  abcde ".toList = 8 ∧
      ¬ PrintableRuneWidth alignEnv "> 世界    ".toList
          = colStart alignEnv [["A".toList, "B".toList], ["> 世界".toList, "x".toList],
              ["  abcde".toList, "z".toList]] 1 := by
  decide

/-- Claim C18, amended. Let the tab writer be the modelled one, let the title style render
the header as `k > 0` cells joined by tabs, `k` being the number of labels, and let every
row render `k` cells joined by tabs and closed by a newline, where no cell of the header or
of a row contains a tab, a newline, a vertical tab or a form feed, the escape sequences of a
cell are complete styling sequences (`ESC[`, digits and semicolons, `m`), and every cell has
as many runes outside escape sequences as display columns (as a cell of runes of width one
has).  Then the block of `updateView` before truncation has the header
line first and then one line per row in row order (and ends with a newline); each line is
its cells, every cell but the last followed by spaces and the last one not padded; and for
every column `j < k` the cell of column `j` of every line starts at the display column
`colStart`, the sum over `i < j` of the maximum display width of column `i` plus one: what
precedes it in the line has that width, and a cell of a non-final column is followed by the
spaces that fill its column up to that maximum plus one, and then by the next cell. -/
theorem layout_aligned (E : Env) (m : Model) (hcells : List Text) (rcells : List (List Text))
    (hE : ∀ input, E.tabwrite 0 4 1 ' ' 0 input = tabAlign 0 4 1 ' ' 0 input)
    (hhead : m.Styles.Title (joinWith ('\t' :: m.Styles.ColumnSeparator) m.cols)
      = joinWith ['\t'] hcells)
    (hcols : m.cols ≠ [])
    (hhk : hcells.length = m.cols.length)
    (hlen : rcells.length = m.rows.length)
    (hrows : ∀ i (hi : i < m.rows.length),
      (m.rows[i]).Render m.Styles m.snapshot (i : Int)
        = joinWith ['\t'] (rcells.getD i []) ++ ['\n'])
    (hk : ∀ r ∈ rcells, r.length = m.cols.length)
    (hcell : ∀ r ∈ hcells :: rcells, ∀ c ∈ r, alignedCell E c) :
    splitLines (layout E m)
        = specLine E (hcells :: rcells) hcells
          :: rcells.map (specLine E (hcells :: rcells)) ++ [[]] ∧
      (rcells.map (specLine E (hcells :: rcells))).length = m.rows.length ∧
      ∀ r ∈ hcells :: rcells, ∀ j, j < m.cols.length →
        PrintableRuneWidth E (linePrefix E (hcells :: rcells) r j)
            = colStart E (hcells :: rcells) j ∧
          ∃ post,
            specLine E (hcells :: rcells) r
                = linePrefix E (hcells :: rcells) r j ++ r.getD j [] ++ post ∧
              (j + 1 < m.cols.length → ∃ rest,
                post = List.replicate
                    (colMax E (hcells :: rcells) j + 1 - PrintableRuneWidth E (r.getD j [])) ' '
                  ++ r.getD (j + 1) [] ++ rest) ∧
              (j + 1 = m.cols.length → post = []) := by
  have hkM : ∀ r ∈ hcells :: rcells, r.length = m.cols.length := by
    intro r hr
    rcases List.mem_cons.1 hr with h | h
    · rw [h, hhk]
    · exact hk r h
  refine ⟨?_, by simp [hlen], ?_⟩
  · rw [layout_lines E m hcells rcells hE hhead hcols hhk hlen hrows hk hcell]
    simp
  · intro r hr j hj
    have hl := hkM r hr
    refine ⟨(width_linePrefix E _ r j hr (fun c hc => (hcell r hr c hc).2.2.2.2.2.1)).1, ?_⟩
    obtain ⟨post, h1, h2, h3⟩ := specLine_split E (hcells :: rcells) r j (by omega)
    exact ⟨post, h1, fun h => h2 (by omega), fun h => h3 (by omega)⟩

/-- Claim C18, witness. A table of the two labels `ID` and `NAME` with the default styles,
the title rendered in bold, and two rows of type `SimpleRow`: the three lines of the block,
the second column starting at display column 4 in each of them. -/
theorem layout_aligned_witness :
    (splitLines (layout boldEnv simpleModel)
        = specLine boldEnv (simpleHeader :: simpleCellsOf) simpleHeader
          :: simpleCellsOf.map (specLine boldEnv (simpleHeader :: simpleCellsOf)) ++ [[]] ∧
      (simpleCellsOf.map (specLine boldEnv (simpleHeader :: simpleCellsOf))).length
        = simpleModel.rows.length ∧
      ∀ r ∈ simpleHeader :: simpleCellsOf, ∀ j, j < simpleModel.cols.length →
        PrintableRuneWidth boldEnv (linePrefix boldEnv (simpleHeader :: simpleCellsOf) r j)
            = colStart boldEnv (simpleHeader :: simpleCellsOf) j ∧
          ∃ post,
            specLine boldEnv (simpleHeader :: simpleCellsOf) r
                = linePrefix boldEnv (simpleHeader :: simpleCellsOf) r j
                  ++ r.getD j [] ++ post ∧
              (j + 1 < simpleModel.cols.length → ∃ rest,
                post = List.replicate
                    (colMax boldEnv (simpleHeader :: simpleCellsOf) j + 1
                      - PrintableRuneWidth boldEnv (r.getD j [])) ' '
                  ++ r.getD (j + 1) [] ++ rest) ∧
              (j + 1 = simpleModel.cols.length → post = [])) ∧
    splitLines (layout boldEnv simpleModel)
      = [(Marker :: "[1m".toList) ++ "ID  │ NAME".toList ++ (Marker :: "[0m".toList),
          "1   │ ann".toList, "200 │ bob".toList, []] ∧
    colStart boldEnv (simpleHeader :: simpleCellsOf) 0 = 0 ∧
    colStart boldEnv (simpleHeader :: simpleCellsOf) 1 = 4 :=
  ⟨layout_aligned boldEnv simpleModel simpleHeader simpleCellsOf (fun _ => rfl) (by decide)
      (by decide) (by decide) (by decide) (by decide) (by decide) (by decide),
    by decide, by decide, by decide⟩

set_option maxRecDepth 8000 in
/-- Claim C19, counterexample. In the layout of `TestModel_View` the widest cell of the
second column, `thomas@example.org`, is followed by one space and then by the cell of the
third column: the line does not contain the cell followed by four spaces. -/
theorem padding_not_four_spaces :
    splitLines (layout alignEnv viewModel)
        = ["  ID EMAIL              USERNAME CREATED-AT".toList,
           "> 1  john@example.org   john     2022-02-21T18:02:29.762Z".toList,
           "  2  bob@example.org    bob      2022-02-21T18:02:29.762Z".toList,
           "  3  alice@example.org  alice    2022-02-21T18:02:29.762Z".toList,
           "  4  thomas@example.org thomas   2022-02-21T18:02:29.762Z".toList, []] ∧
      PrintableRuneWidth alignEnv "thomas@example.org".toList
        = colMax alignEnv (viewHeader :: viewCells) 1 ∧
      (splitLines (layout alignEnv viewModel)).getD 4 []
        = "  4  ".toList ++ "thomas@example.org".toList ++ [' '] ++ "thomas".toList
          ++ "   2022-02-21T18:02:29.762Z".toList ∧
      ¬ ("thomas@example.org".toList ++ List.replicate 4 ' ')
        <:+: (splitLines (layout alignEnv viewModel)).getD 4 [] := by
  decide

/-- Claim C19, amended. Let the tab writer be the modelled one with the settings of
`updateView`, whose padding is 1, let the title style render the header as `k > 0` cells
joined by tabs, `k` being the number of labels, and let every row render `k` cells joined
by tabs and closed by a newline, where no cell contains a tab, a newline, a vertical tab or
a form feed, the escape sequences of a cell are complete styling sequences (`ESC[`, digits
and semicolons, `m`), and every cell has as many runes outside escape sequences as display
columns.  Then in the line of index `i` of the layout every cell of
a non-final column `j` is followed by as many spaces as it is narrower than the widest
cell of the column, plus one, and then by the cell of the next column; so the widest cell
of the column, which exists, is followed by exactly one space. -/
theorem column_padding (E : Env) (m : Model) (hcells : List Text) (rcells : List (List Text))
    (hE : ∀ input, E.tabwrite 0 4 1 ' ' 0 input = tabAlign 0 4 1 ' ' 0 input)
    (hhead : m.Styles.Title (joinWith ('\t' :: m.Styles.ColumnSeparator) m.cols)
      = joinWith ['\t'] hcells)
    (hcols : m.cols ≠ [])
    (hhk : hcells.length = m.cols.length)
    (hlen : rcells.length = m.rows.length)
    (hrows : ∀ i (hi : i < m.rows.length),
      (m.rows[i]).Render m.Styles m.snapshot (i : Int)
        = joinWith ['\t'] (rcells.getD i []) ++ ['\n'])
    (hk : ∀ r ∈ rcells, r.length = m.cols.length)
    (hcell : ∀ r ∈ hcells :: rcells, ∀ c ∈ r, alignedCell E c) :
    (∀ (i : Nat) (r : List Text), (hcells :: rcells)[i]? = some r →
        ∀ j, j + 1 < m.cols.length →
      ∃ pre post,
        PrintableRuneWidth E pre = colStart E (hcells :: rcells) j ∧
        (splitLines (layout E m))[i]?
          = some (pre ++ r.getD j []
              ++ List.replicate
                (colMax E (hcells :: rcells) j - PrintableRuneWidth E (r.getD j []) + 1) ' '
              ++ r.getD (j + 1) [] ++ post) ∧
        (PrintableRuneWidth E (r.getD j []) = colMax E (hcells :: rcells) j →
          (splitLines (layout E m))[i]?
            = some (pre ++ r.getD j [] ++ [' '] ++ r.getD (j + 1) [] ++ post))) ∧
      ∀ j, j + 1 < m.cols.length →
        ∃ r ∈ hcells :: rcells,
          PrintableRuneWidth E (r.getD j []) = colMax E (hcells :: rcells) j := by
  have hkM : ∀ r ∈ hcells :: rcells, r.length = m.cols.length := by
    intro r hr
    rcases List.mem_cons.1 hr with h | h
    · rw [h, hhk]
    · exact hk r h
  have hlines := layout_lines E m hcells rcells hE hhead hcols hhk hlen hrows hk hcell
  refine ⟨?_, fun j _ => colMax_attained E _ j (by simp)⟩
  intro i r hir j hj
  have hr : r ∈ hcells :: rcells := List.getElem?_mem hir
  have hl := hkM r hr
  obtain ⟨post, h1, h2, _⟩ := specLine_split E (hcells :: rcells) r j (by omega)
  obtain ⟨rest, hrest⟩ := h2 (by omega)
  have hle := width_le_colMax E (hcells :: rcells) r j hr
  have hcount : colMax E (hcells :: rcells) j + 1 - PrintableRuneWidth E (r.getD j [])
      = colMax E (hcells :: rcells) j - PrintableRuneWidth E (r.getD j []) + 1 := by omega
  have hline : (splitLines (layout E m))[i]?
      = some (linePrefix E (hcells :: rcells) r j ++ r.getD j []
          ++ List.replicate
            (colMax E (hcells :: rcells) j - PrintableRuneWidth E (r.getD j []) + 1) ' '
          ++ r.getD (j + 1) [] ++ rest) := by
    have hi : i < (hcells :: rcells).length := by
      rcases List.getElem?_eq_some_iff.1 hir with ⟨h, _⟩
      exact h
    rw [hlines, List.getElem?_append_left (by simpa using hi), List.getElem?_map, hir,
      Option.map_some', h1, hrest, hcount]
    simp only [List.append_assoc]
  refine ⟨linePrefix E (hcells :: rcells) r j, rest,
    (width_linePrefix E _ r j hr (fun c hc => (hcell r hr c hc).2.2.2.2.2.1)).1, hline, fun hw => ?_⟩
  rw [hline, hw]
  simp

set_option maxRecDepth 8000 in
/-- Claim C19, witness. In the layout of `TestModel_View` the fifth line shows the widest
cell of the second column, which begins at display column 5, followed by one space. -/
theorem column_padding_witness :
    ((∀ (i : Nat) (r : List Text), (viewHeader :: viewCells)[i]? = some r →
        ∀ j, j + 1 < viewModel.cols.length →
      ∃ pre post,
        PrintableRuneWidth alignEnv pre = colStart alignEnv (viewHeader :: viewCells) j ∧
        (splitLines (layout alignEnv viewModel))[i]?
          = some (pre ++ r.getD j []
              ++ List.replicate
                (colMax alignEnv (viewHeader :: viewCells) j
                  - PrintableRuneWidth alignEnv (r.getD j []) + 1) ' '
              ++ r.getD (j + 1) [] ++ post) ∧
        (PrintableRuneWidth alignEnv (r.getD j []) = colMax alignEnv (viewHeader :: viewCells) j →
          (splitLines (layout alignEnv viewModel))[i]?
            = some (pre ++ r.getD j [] ++ [' '] ++ r.getD (j + 1) [] ++ post))) ∧
      ∀ j, j + 1 < viewModel.cols.length →
        ∃ r ∈ viewHeader :: viewCells,
          PrintableRuneWidth alignEnv (r.getD j [])
            = colMax alignEnv (viewHeader :: viewCells) j) ∧
    (viewHeader :: viewCells)[4]?
      = some ["  4".toList, "thomas@example.org".toList, "thomas".toList,
          "2022-02-21T18:02:29.762Z".toList] ∧
    colMax alignEnv (viewHeader :: viewCells) 1 = 18 ∧
    colStart alignEnv (viewHeader :: viewCells) 1 = 5 :=
  ⟨column_padding alignEnv viewModel viewHeader viewCells (fun _ => rfl) (by decide)
      (by decide) (by decide) (by decide) (by decide) (by decide) (by decide),
    by decide, by decide, by decide⟩

end Table
